import Mathlib

/-!
# Menu resolution engine of desktop-file-utils (`src/menu-process.c`)

A shallow embedding of the merge resolver, the duplicate-stripping pass and the
rule evaluator of `menu-process.c`, followed by the properties proved about them.

Conventions of the embedding.

* A `MenuNode` is a value: its kind, its optional text content and the ordered
  list of its children.  The parent, sibling and reference-count fields of the C
  structure are bookkeeping for the in-place list surgery; `menu_node_unlink`,
  `menu_node_steal`, `menu_node_insert_after` and `menu_node_insert_before`
  become operations on child lists.
* Where the C code holds on to a pointer (the candidate lists of the
  duplicate-stripping pass) the embedding holds the position of the child in
  the child list of the scope being processed.
* `g_assert` failures and unbounded recursion are explicit outcomes.
-/

/-! ## Document nodes -/

/-- Modelled from the spec: the `MenuNodeType` enumeration is declared in
`menu-layout.h`, which is not under `src/`.  The kinds are the ones of the data
model of the specification, named as the C code names them. -/
inductive MenuNodeType
  | MENU_NODE_ROOT
  | MENU_NODE_PASSTHROUGH
  | MENU_NODE_MENU
  | MENU_NODE_APP_DIR
  | MENU_NODE_DIRECTORY_DIR
  | MENU_NODE_NAME
  | MENU_NODE_DIRECTORY
  | MENU_NODE_INCLUDE
  | MENU_NODE_EXCLUDE
  | MENU_NODE_FILENAME
  | MENU_NODE_CATEGORY
  | MENU_NODE_ALL
  | MENU_NODE_AND
  | MENU_NODE_OR
  | MENU_NODE_NOT
  | MENU_NODE_MERGE_FILE
  | MENU_NODE_MERGE_DIR
  | MENU_NODE_LEGACY_DIR
  | MENU_NODE_MOVE
  deriving DecidableEq, Repr

open MenuNodeType

/-- Numeric value of an enumerator, used by `node_compare_func` (`t_a < t_b`).
Modelled from the spec: the declaration order in `menu-layout.h` is not under
`src/`; any injective numbering gives the same duplicates. -/
def MenuNodeType.code : MenuNodeType → Nat
  | MENU_NODE_ROOT => 0
  | MENU_NODE_PASSTHROUGH => 1
  | MENU_NODE_MENU => 2
  | MENU_NODE_APP_DIR => 3
  | MENU_NODE_DIRECTORY_DIR => 4
  | MENU_NODE_NAME => 5
  | MENU_NODE_DIRECTORY => 6
  | MENU_NODE_INCLUDE => 7
  | MENU_NODE_EXCLUDE => 8
  | MENU_NODE_FILENAME => 9
  | MENU_NODE_CATEGORY => 10
  | MENU_NODE_ALL => 11
  | MENU_NODE_AND => 12
  | MENU_NODE_OR => 13
  | MENU_NODE_NOT => 14
  | MENU_NODE_MERGE_FILE => 15
  | MENU_NODE_MERGE_DIR => 16
  | MENU_NODE_LEGACY_DIR => 17
  | MENU_NODE_MOVE => 18

/-- Modelled from the spec: `MenuNode` is defined in `menu-layout.c`, which is
not under `src/`.  A document node holds its kind, optional text content
(`char *content`, possibly `NULL`) and its children in declaration order. -/
inductive MenuNode where
  | mk (type : MenuNodeType) (content : Option String) (children : List MenuNode)
  deriving Repr

/-- Modelled from the spec: the kind of a node (`menu_node_get_type` of
`menu-layout.c`). -/
def menu_node_get_type : MenuNode → MenuNodeType
  | .mk t _ _ => t

/-- Modelled from the spec: the text content of a node, `none` for `NULL`
(`menu_node_get_content` of `menu-layout.c`). -/
def menu_node_get_content : MenuNode → Option String
  | .mk _ c _ => c

/-- Modelled from the spec: the children of a node, first child first
(`menu_node_get_children` followed by `menu_node_get_next`, both of
`menu-layout.c`). -/
def menu_node_get_children : MenuNode → List MenuNode
  | .mk _ _ cs => cs

/-- The node with its child list replaced; kind and content are kept. -/
def menu_node_with_children : MenuNode → List MenuNode → MenuNode
  | .mk t c _, cs => .mk t c cs

/-- Outcome of a pass that may stop on a failed `g_assert` or recurse without
bound. -/
inductive Outcome (α : Type) where
  | done (a : α)
  | assert_failed
  | out_of_fuel
  deriving Repr

/-! ## Merge resolver -/

/-- The loader services of `menu-layout.c` used by the resolver; the file is
not under `src/`, so both are parameters of the embedding.
`menu_node_get_content_as_path` gives the file name a MergeFile node refers to
(`none` for `NULL`), `menu_node_get_for_file` the document stored under a file
name (`none` when it is missing or cannot be loaded). -/
structure MenuFiles where
  menu_node_get_content_as_path : MenuNode → Option String
  menu_node_get_for_file : String → Option MenuNode

/-- The first child of kind Menu, if any (`find_menu_child`). -/
def find_menu_child (node : MenuNode) : Option MenuNode :=
  (menu_node_get_children node).find?
    (fun child => decide (menu_node_get_type child = MENU_NODE_MENU))

/-- The children of the top-level Menu that the splicing loop of
`merge_resolved_copy_of_children` moves behind the insertion point: Name
children are unlinked, every other child is stolen and inserted, in order. -/
def children_to_splice (menu_child : MenuNode) : List MenuNode :=
  (menu_node_get_children menu_child).filter
    (fun from_child => decide (menu_node_get_type from_child ≠ MENU_NODE_NAME))

/-- The three assertions at the end of `merge_resolved_copy_of_children`: the
copy is a Root, it has children, and its first child is a Menu. -/
def copy_is_root_with_menu_first (from_copy : MenuNode) : Bool :=
  decide (menu_node_get_type from_copy = MENU_NODE_ROOT) &&
    (match menu_node_get_children from_copy with
     | [] => false
     | first :: _ => decide (menu_node_get_type first = MENU_NODE_MENU))

/-- Embedding of `merge_resolved_copy_of_children (where, from)`.  `resolve` is
the recursive call of `menu_node_resolve_files` on the private copy.  The
result is the list of nodes inserted after `where`, in order. -/
def merge_resolved_copy_of_children (resolve : MenuNode → Outcome MenuNode)
    (from_node : MenuNode) : Outcome (List MenuNode) :=
  match resolve from_node with
  | .done from_copy =>
    match find_menu_child from_copy with
    | none => .assert_failed
    | some menu_child =>
      if copy_is_root_with_menu_first from_copy then .done (children_to_splice menu_child)
      else .assert_failed
  | .assert_failed => .assert_failed
  | .out_of_fuel => .out_of_fuel

/-- The loop of `menu_node_resolve_files` over the children of a node, as a
function from the child list to the child list it leaves behind. -/
def resolve_children (F : MenuFiles) (resolve : MenuNode → Outcome MenuNode) :
    List MenuNode → Outcome (List MenuNode)
  | [] => .done []
  | child :: next =>
    match menu_node_get_type child with
    | MENU_NODE_MERGE_FILE =>
      match F.menu_node_get_content_as_path child with
      | none => resolve_children F resolve next
      | some filename =>
        match F.menu_node_get_for_file filename with
        | none => resolve_children F resolve next
        | some to_merge =>
          match merge_resolved_copy_of_children resolve to_merge with
          | .done merged =>
            match resolve_children F resolve next with
            | .done rest => .done (merged ++ rest)
            | .assert_failed => .assert_failed
            | .out_of_fuel => .out_of_fuel
          | .assert_failed => .assert_failed
          | .out_of_fuel => .out_of_fuel
    | MENU_NODE_MERGE_DIR => resolve_children F resolve next
    | MENU_NODE_LEGACY_DIR => resolve_children F resolve next
    | _ =>
      match resolve_children F resolve next with
      | .done rest => .done (child :: rest)
      | .assert_failed => .assert_failed
      | .out_of_fuel => .out_of_fuel

/-- The node left by the loop, or the reason it did not finish. -/
def resolved_node (node : MenuNode) : Outcome (List MenuNode) → Outcome MenuNode
  | .done cs => .done (menu_node_with_children node cs)
  | .assert_failed => .assert_failed
  | .out_of_fuel => .out_of_fuel

/-- Sequencing of two loop outcomes whose child lists are concatenated: the
first failure, from left to right, is the outcome. -/
def Outcome.append_lists {α : Type} : Outcome (List α) → Outcome (List α) → Outcome (List α)
  | .done xs, .done ys => .done (xs ++ ys)
  | .done _, .assert_failed => .assert_failed
  | .done _, .out_of_fuel => .out_of_fuel
  | .assert_failed, _ => .assert_failed
  | .out_of_fuel, _ => .out_of_fuel

/-- Embedding of `menu_node_resolve_files`.  The C function has no bound on the
nesting of merged files (see its FIXME); the first argument is the number of
nested `merge_resolved_copy_of_children` calls allowed before the embedding
gives up with `out_of_fuel`. -/
def menu_node_resolve_files (F : MenuFiles) : Nat → MenuNode → Outcome MenuNode
  | 0, node =>
    resolved_node node
      (resolve_children F (fun _ => .out_of_fuel) (menu_node_get_children node))
  | depth + 1, node =>
    resolved_node node
      (resolve_children F (menu_node_resolve_files F depth) (menu_node_get_children node))

/-- Whether the kind is one of the three merge directives. -/
def is_merge_directive (t : MenuNodeType) : Bool :=
  decide (t = MENU_NODE_MERGE_FILE) || decide (t = MENU_NODE_MERGE_DIR) ||
    decide (t = MENU_NODE_LEGACY_DIR)

mutual
/-- Whether a merge directive occurs in the node or anywhere below it. -/
def contains_merge_directive : MenuNode → Bool
  | .mk t _ cs => is_merge_directive t || any_contains_merge_directive cs
/-- Whether a merge directive occurs in one of the nodes or anywhere below. -/
def any_contains_merge_directive : List MenuNode → Bool
  | [] => false
  | c :: cs => contains_merge_directive c || any_contains_merge_directive cs
end

/-- A two-file menu installation used in the worked examples: `apps.menu`
exists, every other file is missing. -/
def example_files : MenuFiles where
  menu_node_get_content_as_path := menu_node_get_content
  menu_node_get_for_file := fun filename =>
    if filename = "apps.menu" then
      some (.mk MENU_NODE_ROOT none
        [.mk MENU_NODE_MENU none
          [.mk MENU_NODE_NAME (some "Apps") [],
           .mk MENU_NODE_APP_DIR (some "/a") [],
           .mk MENU_NODE_INCLUDE none [.mk MENU_NODE_ALL none []]]])
    else none

/-- A root document whose top-level Menu merges `apps.menu`. -/
def example_root : MenuNode :=
  .mk MENU_NODE_ROOT none
    [.mk MENU_NODE_MENU none
      [.mk MENU_NODE_NAME (some "Main") [],
       .mk MENU_NODE_MERGE_FILE (some "apps.menu") [],
       .mk MENU_NODE_DIRECTORY (some "main.directory") []]]

/-! ## Duplicate stripping -/

/-- Comparison of two NUL-terminated strings, character by character; only the
sign of the result is used by the callers (`strcmp` of the C library, which
compares bytes: the UTF-8 encoding keeps the order of the characters). -/
def strcmp_chars : List Char → List Char → Int
  | [], [] => 0
  | [], _ :: _ => -1
  | _ :: _, [] => 1
  | a :: as, b :: bs =>
    if a.toNat < b.toNat then -1
    else if b.toNat < a.toNat then 1
    else strcmp_chars as bs

/-- The C library `strcmp` on two non-null strings. -/
def strcmp (a b : String) : Int :=
  strcmp_chars a.data b.data

/-- Embedding of `null_safe_strcmp`; `none` is `NULL`. -/
def null_safe_strcmp : Option String → Option String → Int
  | none, none => 0
  | none, some _ => -1
  | some _, none => 1
  | some a, some b => strcmp a b

/-- Embedding of `node_compare_func`: by kind first, then by content. -/
def node_compare_func (node_a node_b : MenuNode) : Int :=
  if (menu_node_get_type node_a).code < (menu_node_get_type node_b).code then -1
  else if (menu_node_get_type node_b).code < (menu_node_get_type node_a).code then 1
  else null_safe_strcmp (menu_node_get_content node_a) (menu_node_get_content node_b)

/-- Modelled from the spec: `menu_node_menu_get_name` is defined in
`menu-layout.c`, which is not under `src/`.  The name of a Menu is the text of
its Name child (the first one when there are several), `none` when it has no
Name child. -/
def menu_node_menu_get_name (node : MenuNode) : Option String :=
  match (menu_node_get_children node).find?
      (fun child => decide (menu_node_get_type child = MENU_NODE_NAME)) with
  | none => none
  | some name_node => menu_node_get_content name_node

/-- Embedding of `node_menu_compare_func`: by Menu name. -/
def node_menu_compare_func (node_a node_b : MenuNode) : Int :=
  null_safe_strcmp (menu_node_menu_get_name node_a) (menu_node_menu_get_name node_b)

/-- Insertion of `x` in front of the first element that does not compare below
it. -/
def insert_sorted {α : Type} (compare_func : α → α → Int) (x : α) : List α → List α
  | [] => [x]
  | y :: ys =>
    if compare_func x y ≤ 0 then x :: y :: ys
    else y :: insert_sorted compare_func x ys

/-- GLib's `g_slist_sort` is a stable merge sort (library code, not under
`src/`).  It is modelled by stable insertion sort: elements that compare equal
keep the order they had in the input list. -/
def g_slist_sort {α : Type} (list : List α) (compare_func : α → α → Int) : List α :=
  list.foldr (insert_sorted compare_func) []

/-- The node a candidate pointer refers to: the child at that position of the
scope being processed. -/
def node_at (nodes : List MenuNode) (position : Nat) : MenuNode :=
  nodes.getD position (.mk MENU_NODE_PASSTHROUGH none [])

/-- The first loop of `menu_node_strip_duplicate_children` for one of its
candidate lists: the positions of the children whose kind is selected, built
with `g_slist_prepend`, hence in reverse document order. -/
def collect_candidates (selected : MenuNodeType → Bool) (children : List MenuNode) :
    List Nat :=
  children.enum.foldl
    (fun list child =>
      if selected (menu_node_get_type child.2) then child.1 :: list else list) []

/-- Kinds collected in `simple_nodes`. -/
def is_simple_kind (t : MenuNodeType) : Bool :=
  decide (t = MENU_NODE_APP_DIR) || decide (t = MENU_NODE_DIRECTORY_DIR) ||
    decide (t = MENU_NODE_DIRECTORY)

/-- Kinds collected in `menu_nodes`. -/
def is_menu_kind (t : MenuNodeType) : Bool :=
  decide (t = MENU_NODE_MENU)

/-- The children of the scope being processed.  `nodes` holds every child the
scope had on entry, by position, in its current state; `unlinked` lists the
positions that have been passed to `menu_node_unlink`.  That function (in
`menu-layout.c`, not under `src/`) takes the node out of the tree and deletes
it, as the comments at its calls say (`delete this`, `nuke it!`); the
candidate lists took no reference of their own and still point to it. -/
structure Scope where
  nodes : List MenuNode
  unlinked : List Nat
  deriving Repr

/-- The child list of the scope as it stands in the tree: the nodes that have
not been unlinked, in order. -/
def Scope.linked_children (s : Scope) : List MenuNode :=
  (s.nodes.enum.filter (fun child => decide (child.1 ∉ s.unlinked))).map Prod.snd

/-- Body of the loop over the sorted `simple_nodes` for a pair `prev`, `tmp`:
`tmp` is unlinked when it compares equal to `prev`.  The kind and content of
`prev` are read from `nodes`, where an unlinked node keeps what it held when
it was unlinked; when `prev` has been unlinked the C program reads a deleted
node there, and `walk_adjacent_checked` does not run the body. -/
def unlink_if_equal (s : Scope) (p n : Nat) : Scope :=
  if node_compare_func (node_at s.nodes p) (node_at s.nodes n) = 0 then
    { s with unlinked := n :: s.unlinked }
  else s

/-- Embedding of `move_children (from, to)`: `insert_before` is the first child
of `to`, and every child of `from` is stolen and inserted before it, in order.
The result is the pair of `from` and `to` afterwards.  When `to` has no child,
`insert_before` is `NULL`: the children are still stolen from `from`, and
`menu_node_insert_before` (in `menu-layout.c`, not under `src/`) is handed no
sibling to insert them next to; the embedding takes them to end up in neither
node.  The properties below that depend on where the children go assume that
`to` has a child. -/
def move_children (from_node to_node : MenuNode) : MenuNode × MenuNode :=
  match menu_node_get_children to_node with
  | [] => (menu_node_with_children from_node [], to_node)
  | insert_before :: others =>
    (menu_node_with_children from_node [],
     menu_node_with_children to_node
       (menu_node_get_children from_node ++ insert_before :: others))

/-- Body of the loop over the sorted `menu_nodes` for a pair `prev`, `tmp`: when
`node_compare_func` finds them equal the children of `tmp` are moved to the
start of `prev` and `tmp` is unlinked.  As in `unlink_if_equal`, a `prev` that
has been unlinked is read, and written, as the node it was when it was
unlinked; the C program reads a deleted node there, and
`walk_adjacent_checked` does not run the body. -/
def coalesce_if_equal (s : Scope) (p n : Nat) : Scope :=
  if node_compare_func (node_at s.nodes p) (node_at s.nodes n) = 0 then
    let moved := move_children (node_at s.nodes n) (node_at s.nodes p)
    { nodes := (s.nodes.set n moved.1).set p moved.2, unlinked := n :: s.unlinked }
  else s

/-- The `prev`/`tmp` walk over a sorted candidate list shared by both loops:
`prev` always advances to `tmp`, whether or not `tmp` was unlinked.  This walk
goes on when `prev` has been unlinked, with the node as it was; it is the
program as long as no deleted node is read, which `walk_adjacent_checked`
decides. -/
def walk_adjacent (body : Scope → Nat → Nat → Scope) :
    Option Nat → List Nat → Scope → Scope
  | _, [], s => s
  | none, tmp :: rest, s => walk_adjacent body (some tmp) rest s
  | some prev, tmp :: rest, s => walk_adjacent body (some tmp) rest (body s prev tmp)

/-- The simple-declaration part of `menu_node_strip_duplicate_children`
(collection, sort by `node_compare_func`, removal of adjacent equals). -/
def strip_simple_nodes (s : Scope) : Scope :=
  walk_adjacent unlink_if_equal none
    (g_slist_sort (collect_candidates is_simple_kind s.nodes)
      (fun a b => node_compare_func (node_at s.nodes a) (node_at s.nodes b))) s

/-- The Menu part of `menu_node_strip_duplicate_children` (collection, sort by
`node_menu_compare_func`, coalescing of adjacent nodes that `node_compare_func`
finds equal). -/
def strip_menu_nodes (s : Scope) : Scope :=
  walk_adjacent coalesce_if_equal none
    (g_slist_sort (collect_candidates is_menu_kind s.nodes)
      (fun a b => node_menu_compare_func (node_at s.nodes a) (node_at s.nodes b))) s

/-- The child list a scope is left with by the two loops, before the pass
descends into the remaining Menu children. -/
def strip_scope (children : List MenuNode) : List MenuNode :=
  (strip_menu_nodes (strip_simple_nodes { nodes := children, unlinked := [] })).linked_children

mutual
/-- Height of a node: 1 for a node without children. -/
def node_height : MenuNode → Nat
  | .mk _ _ cs => nodes_height cs + 1
/-- The largest height among the nodes of a list, 0 for the empty list. -/
def nodes_height : List MenuNode → Nat
  | [] => 0
  | c :: cs => max (node_height c) (nodes_height cs)
end

/-- The pass `menu_node_strip_duplicate_children` with a bound on the nesting
it descends into: the two loops on the children of `node`, then the recursive
call on every remaining Menu child. -/
def strip_duplicate_children : Nat → MenuNode → MenuNode
  | 0, node => node
  | levels + 1, node =>
    menu_node_with_children node
      ((strip_scope (menu_node_get_children node)).map
        (fun child =>
          if menu_node_get_type child = MENU_NODE_MENU then
            strip_duplicate_children levels child
          else child))

/-- Embedding of `menu_node_strip_duplicate_children`, with a node that is read
after `menu_node_unlink` taken as it was when it was unlinked
(`menu_node_strip_duplicate_children_checked` is the pass that stops there).
The recursion of the C function follows the tree, so the height of the node
bounds its nesting. -/
def menu_node_strip_duplicate_children (node : MenuNode) : MenuNode :=
  strip_duplicate_children (node_height node) node

/-- Result of the pass, or of one of its loops, when the reads of deleted nodes
are accounted for: the value it leaves, or the loop has read a node it had
passed to `menu_node_unlink` before, and what the C program does from there on
is not determined by its source. -/
inductive Stripped (α : Type) where
  | finished (result : α)
  | read_after_unlink

/-- The `prev`/`tmp` walk of both loops as the C program runs it: the body
starts with `p = prev->data` and `node_compare_func (p, n)`, which reads the
kind and the content of `prev`; `prev` is the previous `tmp`, also when that
node has just been passed to `menu_node_unlink`. -/
def walk_adjacent_checked (body : Scope → Nat → Nat → Scope) :
    Option Nat → List Nat → Scope → Stripped Scope
  | _, [], s => .finished s
  | none, tmp :: rest, s => walk_adjacent_checked body (some tmp) rest s
  | some prev, tmp :: rest, s =>
    if prev ∈ s.unlinked then .read_after_unlink
    else walk_adjacent_checked body (some tmp) rest (body s prev tmp)

/-- The simple-declaration part of the pass, as the C program runs it. -/
def strip_simple_nodes_checked (s : Scope) : Stripped Scope :=
  walk_adjacent_checked unlink_if_equal none
    (g_slist_sort (collect_candidates is_simple_kind s.nodes)
      (fun a b => node_compare_func (node_at s.nodes a) (node_at s.nodes b))) s

/-- The Menu part of the pass, as the C program runs it. -/
def strip_menu_nodes_checked (s : Scope) : Stripped Scope :=
  walk_adjacent_checked coalesce_if_equal none
    (g_slist_sort (collect_candidates is_menu_kind s.nodes)
      (fun a b => node_menu_compare_func (node_at s.nodes a) (node_at s.nodes b))) s

/-- The two loops on the children of a scope, as the C program runs them. -/
def strip_scope_checked (children : List MenuNode) : Stripped (List MenuNode) :=
  match strip_simple_nodes_checked { nodes := children, unlinked := [] } with
  | .read_after_unlink => .read_after_unlink
  | .finished simple_done =>
    match strip_menu_nodes_checked simple_done with
    | .read_after_unlink => .read_after_unlink
    | .finished menus_done => .finished menus_done.linked_children

/-- The last loop of the pass: the recursive call on every remaining Menu
child, in order. -/
def strip_menu_children_checked (recurse : MenuNode → Stripped MenuNode) :
    List MenuNode → Stripped (List MenuNode)
  | [] => .finished []
  | child :: next =>
    if menu_node_get_type child = MENU_NODE_MENU then
      match recurse child with
      | .read_after_unlink => .read_after_unlink
      | .finished child_done =>
        match strip_menu_children_checked recurse next with
        | .read_after_unlink => .read_after_unlink
        | .finished next_done => .finished (child_done :: next_done)
    else
      match strip_menu_children_checked recurse next with
      | .read_after_unlink => .read_after_unlink
      | .finished next_done => .finished (child :: next_done)

/-- The pass as the C program runs it, with a bound on the nesting it descends
into. -/
def strip_duplicate_children_checked : Nat → MenuNode → Stripped MenuNode
  | 0, node => .finished node
  | levels + 1, node =>
    match strip_scope_checked (menu_node_get_children node) with
    | .read_after_unlink => .read_after_unlink
    | .finished children =>
      match strip_menu_children_checked (strip_duplicate_children_checked levels) children with
      | .read_after_unlink => .read_after_unlink
      | .finished children_done => .finished (menu_node_with_children node children_done)

/-- Embedding of `menu_node_strip_duplicate_children` as the C program runs it:
the tree it leaves, or `read_after_unlink` when one of its loops reads a node
it has deleted. -/
def menu_node_strip_duplicate_children_checked (node : MenuNode) : Stripped MenuNode :=
  strip_duplicate_children_checked (node_height node) node

/-- What the proofs need of a three-way comparison function: the relation
"compares less than or equal" is total and transitive, and the result is 0
exactly when it holds in both directions. -/
structure IsComparison {α : Type} (compare_func : α → α → Int) : Prop where
  total : ∀ a b, compare_func a b ≤ 0 ∨ compare_func b a ≤ 0
  trans : ∀ a b c, compare_func a b ≤ 0 → compare_func b c ≤ 0 → compare_func a c ≤ 0
  eq_zero : ∀ a b, compare_func a b = 0 ↔ (compare_func a b ≤ 0 ∧ compare_func b a ≤ 0)

/-! ## Vocabulary of the properties -/

/-- Two nodes have equal (kind, content). -/
def same_kind_and_content (a b : MenuNode) : Bool :=
  decide (menu_node_get_type a = menu_node_get_type b) &&
    decide (menu_node_get_content a = menu_node_get_content b)

/-- The node is an AppDir, a DirectoryDir or a Directory. -/
def is_simple_node (node : MenuNode) : Bool :=
  is_simple_kind (menu_node_get_type node)

/-- The node is a Menu. -/
def is_menu_node (node : MenuNode) : Bool :=
  is_menu_kind (menu_node_get_type node)

/-- Last declaration wins, as the specification words it: a node is deleted if
and only if a later sibling has the same kind and content. -/
def keep_last_declared : List MenuNode → List MenuNode
  | [] => []
  | node :: later =>
    if later.any (same_kind_and_content node) then keep_last_declared later
    else node :: keep_last_declared later

/-- No two simple declarations of the child list have equal (kind, content). -/
def no_duplicate_simple_nodes (children : List MenuNode) : Prop :=
  (children.filter is_simple_node).Pairwise
    (fun a b => ¬ (menu_node_get_type a = menu_node_get_type b ∧
      menu_node_get_content a = menu_node_get_content b))

/-- No two Menu nodes of the child list have equal name. -/
def no_duplicate_menu_names (children : List MenuNode) : Prop :=
  (children.filter is_menu_node).Pairwise
    (fun a b => menu_node_menu_get_name a ≠ menu_node_menu_get_name b)

mutual
/-- The property `P` holds of the child list of every scope of the tree: of the
children of the node itself and, recursively, of the body of every Menu child
of a scope. -/
def every_scope (P : List MenuNode → Prop) : MenuNode → Prop
  | .mk _ _ cs => P cs ∧ every_menu_scope P cs
/-- The property `P` holds in every scope below the Menu nodes of the list. -/
def every_menu_scope (P : List MenuNode → Prop) : List MenuNode → Prop
  | [] => True
  | c :: cs =>
    (menu_node_get_type c = MENU_NODE_MENU → every_scope P c) ∧ every_menu_scope P cs
end

/-- The nodes of a child list selected by a test on position and node, in
order. -/
def select_by_position (keep : Nat → MenuNode → Bool) (nodes : List MenuNode) :
    List MenuNode :=
  (nodes.enum.filter (fun child => keep child.1 child.2)).map Prod.snd

/-! ## Worked examples for the duplicate-stripping pass -/

/-- A Menu named `name` whose only rule includes the category `category`. -/
def example_menu (name category : String) : MenuNode :=
  .mk MENU_NODE_MENU none
    [.mk MENU_NODE_NAME (some name) [],
     .mk MENU_NODE_INCLUDE none [.mk MENU_NODE_CATEGORY (some category) []]]

/-- A root whose two Menu children have the different names `A` and `B`. -/
def example_distinct_menus : MenuNode :=
  .mk MENU_NODE_ROOT none [example_menu "A" "one", example_menu "B" "two"]

/-- A scope that declares the Menu `A` twice, with an AppDir in between. -/
def example_repeated_menu : List MenuNode :=
  [example_menu "A" "one", .mk MENU_NODE_APP_DIR (some "/x") [], example_menu "A" "two"]

/-! ## Entries and entry sets -/

/-- Modelled from the spec: `Entry` is defined in `menu-entries.c`, which is not
under `src/`.  An application entry is an opaque reference to an on-disk
descriptor, identified by and compared by its absolute path. -/
structure Entry where
  absolute_path : String
  deriving DecidableEq, Repr

/-- Modelled from the spec: `EntrySet` (`menu-entries.c`, not under `src/`) is a
set of entries, unique by identity, with union, intersection and
subtraction. -/
abbrev EntrySet := Finset Entry

/-- Modelled from the spec: the empty set (`entry_set_new` of `menu-entries.c`). -/
def entry_set_new : EntrySet := ∅

/-- Modelled from the spec: the set with one more entry (`entry_set_add_entry`
of `menu-entries.c`). -/
def entry_set_add_entry (set : EntrySet) (e : Entry) : EntrySet := insert e set

/-- Modelled from the spec: the first set after `entry_set_union (set, with)` of
`menu-entries.c`. -/
def entry_set_union (set with_set : EntrySet) : EntrySet := set ∪ with_set

/-- Modelled from the spec: the first set after
`entry_set_intersection (set, with)` of `menu-entries.c`. -/
def entry_set_intersection (set with_set : EntrySet) : EntrySet := set ∩ with_set

/-- Modelled from the spec: the first set after `entry_set_subtract (set, other)`
of `menu-entries.c`. -/
def entry_set_subtract (set other : EntrySet) : EntrySet := set \ other

/-- Modelled from the spec: the number of entries of the set
(`entry_set_get_count` of `menu-entries.c`). -/
def entry_set_get_count (set : EntrySet) : Nat := set.card

/-- Modelled from the spec: the entry index `EntryDirectoryList` of
`menu-entries.c` (not under `src/`), by the queries the specification gives it:
the universe of all entries, the entry with an exact file name, the entries
tagged with a category, and the directory descriptor with a given name.  The
query argument is the content of a node, `none` for `NULL`. -/
structure EntryDirectoryList where
  all_desktops : EntrySet
  get_desktop : Option String → Option Entry
  by_category : Option String → EntrySet
  get_directory : Option String → Option Entry

/-- Modelled from the spec: the set after
`entry_directory_list_get_all_desktops (list, set)` of `menu-entries.c`: every
entry of the universe is added. -/
def entry_directory_list_get_all_desktops (list : EntryDirectoryList) (set : EntrySet) :
    EntrySet :=
  set ∪ list.all_desktops

/-- Modelled from the spec: the set after
`entry_directory_list_get_by_category (list, category, set)` of
`menu-entries.c`: the entries tagged with the category are added. -/
def entry_directory_list_get_by_category (list : EntryDirectoryList)
    (category : Option String) (set : EntrySet) : EntrySet :=
  set ∪ list.by_category category

/-- Modelled from the spec: the set after
`entry_directory_list_invert_set (list, set)` of `menu-entries.c`: its
complement against the universe of the index. -/
def entry_directory_list_invert_set (list : EntryDirectoryList) (set : EntrySet) : EntrySet :=
  list.all_desktops \ set

/-- The assignment every rule loop starts with: the first child's set replaces
the `NULL` set. -/
def first_or (combine : EntrySet → EntrySet → EntrySet) (set : Option EntrySet)
    (child_set : EntrySet) : EntrySet :=
  match set with
  | none => child_set
  | some s => combine s child_set

mutual
/-- Embedding of `menu_node_to_entry_set (list, node)` with the record of its
calls: the set returned, and the nodes the function is called on in the course
of the call, in the order of the calls, `node` itself first. -/
def menu_node_to_entry_set_recorded (list : EntryDirectoryList) :
    MenuNode → EntrySet × List MenuNode
  | .mk t content children =>
    match t with
    | MENU_NODE_AND =>
      match and_children_recorded list none children with
      | (none, calls) => (entry_set_new, .mk t content children :: calls)
      | (some set, calls) => (set, .mk t content children :: calls)
    | MENU_NODE_OR =>
      match or_children_recorded list none children with
      | (none, calls) => (entry_set_new, .mk t content children :: calls)
      | (some set, calls) => (set, .mk t content children :: calls)
    | MENU_NODE_NOT =>
      match or_children_recorded list none children with
      | (none, calls) => (entry_set_new, .mk t content children :: calls)
      | (some set, calls) =>
        (entry_directory_list_invert_set list set, .mk t content children :: calls)
    | MENU_NODE_ALL =>
      (entry_directory_list_get_all_desktops list entry_set_new, [.mk t content children])
    | MENU_NODE_FILENAME =>
      match list.get_desktop content with
      | none => (entry_set_new, [.mk t content children])
      | some e => (entry_set_add_entry entry_set_new e, [.mk t content children])
    | MENU_NODE_CATEGORY =>
      (entry_directory_list_get_by_category list content entry_set_new,
        [.mk t content children])
    | _ => (entry_set_new, [.mk t content children])
/-- The loop of the And case: `set` is the running set (`none` for `NULL`); the
loop is left as soon as the running set is empty.  The result is the running
set and the calls made by the loop. -/
def and_children_recorded (list : EntryDirectoryList) :
    Option EntrySet → List MenuNode → Option EntrySet × List MenuNode
  | set, [] => (set, [])
  | set, child :: next =>
    match menu_node_to_entry_set_recorded list child with
    | (child_set, calls) =>
      if entry_set_get_count (first_or entry_set_intersection set child_set) = 0 then
        (some (first_or entry_set_intersection set child_set), calls)
      else
        match and_children_recorded list
            (some (first_or entry_set_intersection set child_set)) next with
        | (result, later_calls) => (result, calls ++ later_calls)
/-- The loop of the Or case, also the first half of the Not case, with the
calls it makes. -/
def or_children_recorded (list : EntryDirectoryList) :
    Option EntrySet → List MenuNode → Option EntrySet × List MenuNode
  | set, [] => (set, [])
  | set, child :: next =>
    match menu_node_to_entry_set_recorded list child with
    | (child_set, calls) =>
      match or_children_recorded list (some (first_or entry_set_union set child_set)) next with
      | (result, later_calls) => (result, calls ++ later_calls)
end

/-- The set returned by `menu_node_to_entry_set (list, node)`. -/
def menu_node_to_entry_set (list : EntryDirectoryList) (node : MenuNode) : EntrySet :=
  (menu_node_to_entry_set_recorded list node).1

/-- The running set the loop of the And case ends with. -/
def and_children_to_entry_set (list : EntryDirectoryList) (set : Option EntrySet)
    (children : List MenuNode) : Option EntrySet :=
  (and_children_recorded list set children).1

/-- The running set the loop of the Or case ends with. -/
def or_children_to_entry_set (list : EntryDirectoryList) (set : Option EntrySet)
    (children : List MenuNode) : Option EntrySet :=
  (or_children_recorded list set children).1

/-! ## Tree builder -/

/-- The category record `TreeNode`: name, directory metadata, matched entries
and child records; `none` is `NULL`. -/
inductive TreeNode where
  | mk (name : Option String) (dir_entry : Option Entry) (entries : List Entry)
      (subdirs : List TreeNode)
  deriving Repr

/-- The `name` field. -/
def TreeNode.name : TreeNode → Option String
  | .mk n _ _ _ => n

/-- The `dir_entry` field. -/
def TreeNode.dir_entry : TreeNode → Option Entry
  | .mk _ d _ _ => d

/-- The `entries` field. -/
def TreeNode.entries : TreeNode → List Entry
  | .mk _ _ es _ => es

/-- The `subdirs` field. -/
def TreeNode.subdirs : TreeNode → List TreeNode
  | .mk _ _ _ ss => ss

/-- Embedding of `tree_node_new`. -/
def tree_node_new : TreeNode := .mk none none [] []

/-- Embedding of the test of `tree_node_free_if_broken`: the record lacks a
name or directory metadata. -/
def tree_node_free_if_broken (node : TreeNode) : Bool :=
  node.name.isNone || node.dir_entry.isNone

/-- The services of `menu-layout.c` and `menu-entries.c` the tree builder
calls; neither file is under `src/`, so they are parameters of the embedding:
the entry index scoped to the application directories of a Menu, the one
scoped to its directory directories, and the listing of a set as a `GSList`
(whose order the set implementation decides). -/
structure MenuEntries where
  menu_node_menu_get_app_entries : MenuNode → EntryDirectoryList
  menu_node_menu_get_directory_entries : MenuNode → EntryDirectoryList
  entry_set_list_entries : EntrySet → List Entry

/-- The inner loop of the Include case: the set of every rule is united into
`entries`. -/
def include_rules (app_dirs : EntryDirectoryList) (entries : EntrySet)
    (rules : List MenuNode) : EntrySet :=
  rules.foldl (fun set rule => entry_set_union set (menu_node_to_entry_set app_dirs rule))
    entries

/-- The inner loop of the Exclude case: the set of every rule is subtracted
from `entries`. -/
def exclude_rules (app_dirs : EntryDirectoryList) (entries : EntrySet)
    (rules : List MenuNode) : EntrySet :=
  rules.foldl (fun set rule => entry_set_subtract set (menu_node_to_entry_set app_dirs rule))
    entries

/-- The variables the loop of `fill_tree_node_from_menu_node` updates: the
record being filled and the local set `entries`. -/
structure FillState where
  tree_node : TreeNode
  entries : EntrySet

mutual
/-- Embedding of `fill_tree_node_from_menu_node (tree_node, menu_node)`; the
result is the record afterwards. -/
def fill_tree_node_from_menu_node (E : MenuEntries) (tree_node : TreeNode) :
    MenuNode → TreeNode
  | .mk t content children =>
    if t = MENU_NODE_MENU then
      match fill_from_children E
          (E.menu_node_menu_get_app_entries (.mk t content children))
          (E.menu_node_menu_get_directory_entries (.mk t content children))
          { tree_node := tree_node, entries := entry_set_new } children with
      | { tree_node := filled, entries := entries } =>
        .mk filled.name filled.dir_entry (E.entry_set_list_entries entries) filled.subdirs
    else tree_node
/-- The loop of `fill_tree_node_from_menu_node` over the children of the Menu. -/
def fill_from_children (E : MenuEntries) (app_dirs dir_dirs : EntryDirectoryList) :
    FillState → List MenuNode → FillState
  | state, [] => state
  | state, child :: next =>
    match menu_node_get_type child with
    | MENU_NODE_MENU =>
      if tree_node_free_if_broken (fill_tree_node_from_menu_node E tree_node_new child) then
        fill_from_children E app_dirs dir_dirs state next
      else
        fill_from_children E app_dirs dir_dirs
          { state with
            tree_node := .mk state.tree_node.name state.tree_node.dir_entry
              state.tree_node.entries
              (fill_tree_node_from_menu_node E tree_node_new child :: state.tree_node.subdirs) }
          next
    | MENU_NODE_NAME =>
      fill_from_children E app_dirs dir_dirs
        { state with
          tree_node := .mk (menu_node_get_content child) state.tree_node.dir_entry
            state.tree_node.entries state.tree_node.subdirs }
        next
    | MENU_NODE_INCLUDE =>
      fill_from_children E app_dirs dir_dirs
        { state with
          entries := include_rules app_dirs state.entries (menu_node_get_children child) }
        next
    | MENU_NODE_EXCLUDE =>
      fill_from_children E app_dirs dir_dirs
        { state with
          entries := exclude_rules app_dirs state.entries (menu_node_get_children child) }
        next
    | MENU_NODE_DIRECTORY =>
      match dir_dirs.get_directory (menu_node_get_content child) with
      | none => fill_from_children E app_dirs dir_dirs state next
      | some e =>
        fill_from_children E app_dirs dir_dirs
          { state with
            tree_node := .mk state.tree_node.name (some e) state.tree_node.entries
              state.tree_node.subdirs }
          next
    | _ => fill_from_children E app_dirs dir_dirs state next
end

/-- The value of the local set `entries` of `fill_tree_node_from_menu_node` when
its loop is over, for the Menu `menu_node`: the set whose listing becomes the
entries of the record. -/
def menu_entry_set (E : MenuEntries) (menu_node : MenuNode) : EntrySet :=
  (fill_from_children E (E.menu_node_menu_get_app_entries menu_node)
    (E.menu_node_menu_get_directory_entries menu_node)
    { tree_node := tree_node_new, entries := entry_set_new }
    (menu_node_get_children menu_node)).entries

/-! ## Vocabulary of the rule properties -/

/-- The union of the sets of all rules under all children of kind `kind`
(Include or Exclude) of a child list. -/
def union_of_rules (app_dirs : EntryDirectoryList) (kind : MenuNodeType)
    (children : List MenuNode) : EntrySet :=
  (children.filter (fun child => decide (menu_node_get_type child = kind))).foldl
    (fun set block =>
      (menu_node_get_children block).foldl
        (fun set' rule => set' ∪ menu_node_to_entry_set app_dirs rule) set) ∅

/-- The intersection of the sets of all the children of an And node that has a
first child, every child evaluated, as the specification words it. -/
def intersection_of_all (list : EntryDirectoryList) (first : MenuNode)
    (others : List MenuNode) : EntrySet :=
  others.foldl (fun set child => set ∩ menu_node_to_entry_set list child)
    (menu_node_to_entry_set list first)

/-- An entry index with the two entries `a.desktop` and `b.desktop`, the first
tagged `Game`, used in the worked examples. -/
def example_index : EntryDirectoryList where
  all_desktops := {⟨"/a.desktop"⟩, ⟨"/b.desktop"⟩}
  get_desktop := fun name =>
    if name = some "a.desktop" then some ⟨"/a.desktop"⟩
    else if name = some "b.desktop" then some ⟨"/b.desktop"⟩
    else none
  by_category := fun category => if category = some "Game" then {⟨"/a.desktop"⟩} else ∅
  get_directory := fun name =>
    if name = some "games.directory" then some ⟨"/games.directory"⟩ else none

/-- Tree-builder services that give every Menu the index `example_index` and
list a set in the order `a.desktop`, `b.desktop`. -/
def example_entries : MenuEntries where
  menu_node_menu_get_app_entries := fun _ => example_index
  menu_node_menu_get_directory_entries := fun _ => example_index
  entry_set_list_entries := fun set =>
    [(⟨"/a.desktop"⟩ : Entry), ⟨"/b.desktop"⟩].filter (fun e => decide (e ∈ set))

/-- A Menu whose Exclude block comes before its Include block; both hold the
rule All. -/
def example_exclude_first : MenuNode :=
  .mk MENU_NODE_MENU none
    [.mk MENU_NODE_NAME (some "Games") [],
     .mk MENU_NODE_EXCLUDE none [.mk MENU_NODE_ALL none []],
     .mk MENU_NODE_INCLUDE none [.mk MENU_NODE_ALL none []]]

/-- A Menu that includes everything and then excludes the category `Game`. -/
def example_include_first : MenuNode :=
  .mk MENU_NODE_MENU none
    [.mk MENU_NODE_NAME (some "Games") [],
     .mk MENU_NODE_INCLUDE none [.mk MENU_NODE_ALL none []],
     .mk MENU_NODE_EXCLUDE none [.mk MENU_NODE_CATEGORY (some "Game") []]]

/-! ## Which rule nodes are evaluated -/

mutual
/-- The nodes `menu_node_to_entry_set` is called on when it is called on `node`,
in the order of the calls: the node itself, then whatever the loop of its case
evaluates.  The control flow is the one of `menu_node_to_entry_set`; this is
the record an evaluator that notes every visited node would keep. -/
def evaluated_nodes (list : EntryDirectoryList) : MenuNode → List MenuNode
  | .mk t content children =>
    .mk t content children ::
      (match t with
       | MENU_NODE_AND => and_children_evaluated list none children
       | MENU_NODE_OR => or_children_evaluated list children
       | MENU_NODE_NOT => or_children_evaluated list children
       | _ => [])
/-- The calls made by the loop of the And case, which is left as soon as the
running set is empty. -/
def and_children_evaluated (list : EntryDirectoryList) :
    Option EntrySet → List MenuNode → List MenuNode
  | _, [] => []
  | set, child :: next =>
    evaluated_nodes list child ++
      (if entry_set_get_count
          (first_or entry_set_intersection set (menu_node_to_entry_set list child)) = 0 then
        []
      else
        and_children_evaluated list
          (some (first_or entry_set_intersection set (menu_node_to_entry_set list child))) next)
/-- The calls made by the loop of the Or case and of the Not case, which visits
every child. -/
def or_children_evaluated (list : EntryDirectoryList) : List MenuNode → List MenuNode
  | [] => []
  | child :: next => evaluated_nodes list child ++ or_children_evaluated list next
end

/-- The union of the sets of all the children of a node, every child
evaluated, as the specification words it. -/
def union_of_all (list : EntryDirectoryList) (children : List MenuNode) : EntrySet :=
  children.foldl (fun set child => set ∪ menu_node_to_entry_set list child) ∅

/-! ## The resolution handle and its queries -/

mutual
/-- The record and every record below it has both a name and directory
metadata. -/
def record_complete : TreeNode → Bool
  | .mk name dir_entry _ subdirs =>
    name.isSome && dir_entry.isSome && all_records_complete subdirs
/-- Every record of the list, and every record below one, has both a name and
directory metadata. -/
def all_records_complete : List TreeNode → Bool
  | [] => true
  | d :: ds => record_complete d && all_records_complete ds
end

/-- The handle `struct _DesktopEntryTree`; `root` is the cached category tree,
`none` for `NULL`. -/
structure DesktopEntryTree where
  menu_file : String
  menu_file_dir : String
  orig_node : MenuNode
  resolved_node : MenuNode
  root : Option TreeNode
  refcount : Nat

/-- Embedding of `build_tree`; the result is the handle afterwards.  When the
resolved document has no Menu child the C code hands the `NULL` of
`find_menu_child` to `fill_tree_node_from_menu_node`, whose guard
`menu_node_get_type (menu_node) == MENU_NODE_MENU` is then evaluated by code of
`menu-layout.c` that is not under `src/`; the embedding takes the guard to
fail, so the new record stays empty and is discarded as broken. -/
def build_tree (E : MenuEntries) (tree : DesktopEntryTree) : DesktopEntryTree :=
  match tree.root with
  | some _ => tree
  | none =>
    match find_menu_child tree.resolved_node with
    | none => { tree with root := none }
    | some menu_child =>
      if tree_node_free_if_broken
          (fill_tree_node_from_menu_node E tree_node_new menu_child) then
        { tree with root := none }
      else
        { tree with root := some (fill_tree_node_from_menu_node E tree_node_new menu_child) }

/-- Embedding of `find_subdir`: the first child record whose name is `subdir`.
The C code hands `sub->name` to `strcmp`; the records of a built tree all have
a name, and a record without one is passed over here. -/
def find_subdir (parent : TreeNode) (subdir : String) : Option TreeNode :=
  parent.subdirs.find? (fun sub =>
    match sub.name with
    | none => false
    | some name => decide (strcmp name subdir = 0))

/-- The pieces of a non-empty string between its `/` characters: one more piece
than there are separators, empty pieces included. -/
def split_at_slash : List Char → List (List Char)
  | [] => [[]]
  | c :: cs =>
    if c = '/' then [] :: split_at_slash cs
    else
      match split_at_slash cs with
      | [] => [[c]]
      | piece :: pieces => (c :: piece) :: pieces

/-- GLib's `g_strsplit (name, "/", -1)` (library code, not under `src/`): the
pieces between the separators, empty pieces included; the empty string gives
the empty vector. -/
def g_strsplit_slash (name : String) : List String :=
  if name.data = [] then [] else (split_at_slash name.data).map String.mk

/-- The loop of `tree_node_find_subdir`: it runs while `iter` is not `NULL`,
there is a piece left and that piece is not the empty string. -/
def descend_pieces : Option TreeNode → List String → Option TreeNode
  | none, _ => none
  | some iter, [] => some iter
  | some iter, piece :: rest =>
    if piece.data = [] then some iter
    else descend_pieces (find_subdir iter piece) rest

/-- Embedding of `tree_node_find_subdir`. -/
def tree_node_find_subdir (node : TreeNode) (name : String) : Option TreeNode :=
  descend_pieces (some node) (g_strsplit_slash name)

/-- Modelled from the spec: `entry_get_absolute_path` of `menu-entries.c` (not
under `src/`), the absolute path that identifies an entry; `none` for `NULL`. -/
def entry_get_absolute_path (e : Option Entry) : Option String :=
  e.map Entry.absolute_path

/-- Embedding of `desktop_entry_tree_list_subdirs`: the handle afterwards, the
array stored in `*subdirs` (`none` for `NULL`) and the count stored in
`*n_subdirs`. -/
def desktop_entry_tree_list_subdirs (E : MenuEntries) (tree : DesktopEntryTree)
    (parent_dir : String) : DesktopEntryTree × Option (List (Option String)) × Nat :=
  match (build_tree E tree).root with
  | none => (build_tree E tree, none, 0)
  | some root =>
    match tree_node_find_subdir root parent_dir with
    | none => (build_tree E tree, none, 0)
    | some dir =>
      (build_tree E tree, some (dir.subdirs.map TreeNode.name), dir.subdirs.length)

/-- Embedding of `desktop_entry_tree_list_entries`: the handle afterwards, the
array stored in `*entries` (`none` for `NULL`) and the count stored in
`*n_entries`. -/
def desktop_entry_tree_list_entries (E : MenuEntries) (tree : DesktopEntryTree)
    (parent_dir : String) : DesktopEntryTree × Option (List (Option String)) × Nat :=
  match (build_tree E tree).root with
  | none => (build_tree E tree, none, 0)
  | some root =>
    match tree_node_find_subdir root parent_dir with
    | none => (build_tree E tree, none, 0)
    | some dir =>
      (build_tree E tree,
        some (dir.entries.map (fun e => entry_get_absolute_path (some e))),
        dir.entries.length)

/-- Embedding of `desktop_entry_tree_get_directory`: the handle afterwards and
the returned string (`none` for `NULL`). -/
def desktop_entry_tree_get_directory (E : MenuEntries) (tree : DesktopEntryTree)
    (dirname : String) : DesktopEntryTree × Option String :=
  match (build_tree E tree).root with
  | none => (build_tree E tree, none)
  | some root =>
    match tree_node_find_subdir root dirname with
    | none => (build_tree E tree, none)
    | some dir => (build_tree E tree, entry_get_absolute_path dir.dir_entry)

/-- The arguments of one call of a `DesktopEntryTreeForeachFunc`, the handle and
the user data apart: `is_dir`, `depth`, `menu_path` (always `NULL` in this
version) and `filesystem_path_to_entry`. -/
structure VisitorCall where
  is_dir : Bool
  depth : Nat
  menu_path : Option String
  filesystem_path_to_entry : Option String
  deriving DecidableEq, Repr

/-- The loop of `foreach_dir` over the entries of a record: the visitor is
called for each entry until it returns `FALSE`.  A visitor takes the call and
the user data and returns its answer and the user data afterwards. -/
def foreach_entries {σ : Type} (func : VisitorCall → σ → Bool × σ) :
    List Entry → Nat → σ → Bool × σ
  | [], _, user_data => (true, user_data)
  | e :: rest, depth, user_data =>
    match func ⟨false, depth, none, entry_get_absolute_path (some e)⟩ user_data with
    | (false, user_data') => (false, user_data')
    | (true, user_data') => foreach_entries func rest depth user_data'

mutual
/-- Embedding of `foreach_dir`: the returned flag and the user data
afterwards. -/
def foreach_dir {σ : Type} (func : VisitorCall → σ → Bool × σ) :
    TreeNode → Nat → σ → Bool × σ
  | .mk _ dir_entry entries subdirs, depth, user_data =>
    match func ⟨true, depth, none, entry_get_absolute_path dir_entry⟩ user_data with
    | (false, user_data') => (false, user_data')
    | (true, user_data') =>
      match foreach_entries func entries depth user_data' with
      | (false, user_data'') => (false, user_data'')
      | (true, user_data'') => foreach_subdirs func subdirs depth user_data''
/-- The loop of `foreach_dir` over the child records. -/
def foreach_subdirs {σ : Type} (func : VisitorCall → σ → Bool × σ) :
    List TreeNode → Nat → σ → Bool × σ
  | [], _, user_data => (true, user_data)
  | d :: rest, depth, user_data =>
    match foreach_dir func d (depth + 1) user_data with
    | (false, user_data') => (false, user_data')
    | (true, user_data') => foreach_subdirs func rest depth user_data'
end

/-- Embedding of `desktop_entry_tree_foreach`: the handle and the user data
afterwards. -/
def desktop_entry_tree_foreach {σ : Type} (E : MenuEntries) (tree : DesktopEntryTree)
    (parent_dir : String) (func : VisitorCall → σ → Bool × σ) (user_data : σ) :
    DesktopEntryTree × σ :=
  match (build_tree E tree).root with
  | none => (build_tree E tree, user_data)
  | some root =>
    match tree_node_find_subdir root parent_dir with
    | none => (build_tree E tree, user_data)
    | some dir => (build_tree E tree, (foreach_dir func dir 0 user_data).2)

/-! ## Vocabulary of the traversal properties -/

/-- The visitor `func` made to keep, next to its own user data, the list of the
calls it has received so far. -/
def recording {σ : Type} (func : VisitorCall → σ → Bool × σ) :
    VisitorCall → σ × List VisitorCall → Bool × (σ × List VisitorCall) :=
  fun call state => ((func call state.1).1, ((func call state.1).2, state.2 ++ [call]))

/-- The calls for the entries of a record, in the order stored in the record. -/
def entry_calls (entries : List Entry) (depth : Nat) : List VisitorCall :=
  entries.map (fun e => ⟨false, depth, none, entry_get_absolute_path (some e)⟩)

mutual
/-- The full depth-first pre-order sequence of calls for a record: the record
itself, its entries in stored order, then the sequence of each child record in
stored order, one level deeper. -/
def preorder_calls : TreeNode → Nat → List VisitorCall
  | .mk _ dir_entry entries subdirs, depth =>
    ⟨true, depth, none, entry_get_absolute_path dir_entry⟩ ::
      (entry_calls entries depth ++ preorder_calls_of_all subdirs depth)
/-- The pre-order sequences of the records of a list, one after the other. -/
def preorder_calls_of_all : List TreeNode → Nat → List VisitorCall
  | [], _ => []
  | d :: rest, depth => preorder_calls d (depth + 1) ++ preorder_calls_of_all rest depth
end

mutual
/-- Number of category records in the subtree of a record, itself included. -/
def count_records : TreeNode → Nat
  | .mk _ _ _ subdirs => 1 + count_records_of_all subdirs
/-- Number of category records in the subtrees of the records of a list. -/
def count_records_of_all : List TreeNode → Nat
  | [] => 0
  | d :: rest => count_records d + count_records_of_all rest
end

mutual
/-- Number of entries in the subtree of a record. -/
def count_entries : TreeNode → Nat
  | .mk _ _ entries subdirs => entries.length + count_entries_of_all subdirs
/-- Number of entries in the subtrees of the records of a list. -/
def count_entries_of_all : List TreeNode → Nat
  | [] => 0
  | d :: rest => count_entries d + count_entries_of_all rest
end

/-- The visitor applied to a sequence of calls in order, until it returns
`FALSE`: the flag and the user data afterwards. -/
def call_until_stop {σ : Type} (func : VisitorCall → σ → Bool × σ) :
    List VisitorCall → σ → Bool × σ
  | [], user_data => (true, user_data)
  | call :: rest, user_data =>
    match func call user_data with
    | (false, user_data') => (false, user_data')
    | (true, user_data') => call_until_stop func rest user_data'

/-- The prefix of a sequence of calls up to and including the first call for
which the visitor returns `FALSE` (the whole sequence when it never does). -/
def stopped_calls {σ : Type} (func : VisitorCall → σ → Bool × σ) :
    List VisitorCall → σ → List VisitorCall
  | [], _ => []
  | call :: rest, user_data =>
    call :: (if (func call user_data).1 then stopped_calls func rest (func call user_data).2
      else [])

/-! ## Worked examples for the tree builder and the queries -/

/-- Tree-builder services for the query examples: the application index is
`example_index`, and the directory index resolves the descriptors
`applications.directory`, `games.directory`, `action.directory` and
`office.directory` to files of the same name under `/dirs/`. -/
def example_query_entries : MenuEntries where
  menu_node_menu_get_app_entries := fun _ => example_index
  menu_node_menu_get_directory_entries := fun _ =>
    { all_desktops := ∅
      get_desktop := fun _ => none
      by_category := fun _ => ∅
      get_directory := fun name =>
        if name = some "applications.directory" then some ⟨"/dirs/applications.directory"⟩
        else if name = some "games.directory" then some ⟨"/dirs/games.directory"⟩
        else if name = some "action.directory" then some ⟨"/dirs/action.directory"⟩
        else if name = some "office.directory" then some ⟨"/dirs/office.directory"⟩
        else none }
  entry_set_list_entries := fun set =>
    [(⟨"/a.desktop"⟩ : Entry), ⟨"/b.desktop"⟩].filter (fun e => decide (e ∈ set))

/-- A Menu named `name` with the directory descriptor `directory`, the rules
`rules` and the child Menus `menus`. -/
def example_category (name directory : String) (rules menus : List MenuNode) : MenuNode :=
  .mk MENU_NODE_MENU none
    ([.mk MENU_NODE_NAME (some name) [],
      .mk MENU_NODE_DIRECTORY (some directory) [],
      .mk MENU_NODE_INCLUDE none rules] ++ menus)

/-- The document `Applications` with the categories `Games`, which holds
`Action`, and `Office`, declared in this order; `Action` lists both entries of
the index and the other categories none. -/
def example_document : MenuNode :=
  .mk MENU_NODE_ROOT none
    [example_category "Applications" "applications.directory" []
      [example_category "Games" "games.directory" []
        [example_category "Action" "action.directory" [.mk MENU_NODE_ALL none []] []],
       example_category "Office" "office.directory" [] []]]

/-- A handle whose resolved document is `example_document` as it is written,
with no root record cached yet. -/
def example_tree : DesktopEntryTree where
  menu_file := "/etc/menus/applications.menu"
  menu_file_dir := "/etc/menus"
  orig_node := example_document
  resolved_node := example_document
  root := none
  refcount := 1

/-- A document whose top-level Menu has a name and no Directory. -/
def example_broken_document : MenuNode :=
  .mk MENU_NODE_ROOT none
    [.mk MENU_NODE_MENU none
      [.mk MENU_NODE_NAME (some "Applications") [],
       .mk MENU_NODE_INCLUDE none [.mk MENU_NODE_ALL none []]]]

/-- A handle for `example_broken_document`, with no root record cached yet. -/
def example_broken_tree : DesktopEntryTree where
  menu_file := "/etc/menus/broken.menu"
  menu_file_dir := "/etc/menus"
  orig_node := example_broken_document
  resolved_node := example_broken_document
  root := none
  refcount := 1

/-- A visitor that never asks to stop and counts its calls. -/
def example_counting_visitor : VisitorCall → Nat → Bool × Nat :=
  fun _ count => (true, count + 1)

/-- A visitor that asks to stop at the first entry it is shown and counts its
calls. -/
def example_stopping_visitor : VisitorCall → Nat → Bool × Nat :=
  fun call count => (call.is_dir, count + 1)

/-- The category tree built for `example_document`: `Office` is stored before
`Games`. -/
def example_record : TreeNode :=
  .mk (some "Applications") (some ⟨"/dirs/applications.directory"⟩) []
    [.mk (some "Office") (some ⟨"/dirs/office.directory"⟩) [] [],
     .mk (some "Games") (some ⟨"/dirs/games.directory"⟩) []
       [.mk (some "Action") (some ⟨"/dirs/action.directory"⟩)
         [⟨"/a.desktop"⟩, ⟨"/b.desktop"⟩] []]]

/-! ## Further vocabulary and examples -/

/-- The initial part of the children of an And node up to and including the
first child at which the running intersection is empty; `set` is the running
set (`none` for `NULL`). -/
def and_children_visited (list : EntryDirectoryList) :
    Option EntrySet → List MenuNode → List MenuNode
  | _, [] => []
  | set, child :: next =>
    child ::
      (if entry_set_get_count
          (first_or entry_set_intersection set (menu_node_to_entry_set list child)) = 0 then
        []
      else
        and_children_visited list
          (some (first_or entry_set_intersection set (menu_node_to_entry_set list child))) next)

/-- The resolution of the last Directory child, in document order, whose lookup
in the directory index succeeds; `none` when no Directory child resolves. -/
def last_resolved_directory (dir_dirs : EntryDirectoryList) (children : List MenuNode) :
    Option Entry :=
  ((children.filter (fun child => decide (menu_node_get_type child = MENU_NODE_DIRECTORY))).filterMap
    (fun child => dir_dirs.get_directory (menu_node_get_content child))).getLast?

/-- The node is neither a simple declaration nor a Menu. -/
def is_other_node (node : MenuNode) : Bool :=
  !is_simple_node node && !is_menu_node node

/-- The records built for the child Menus of a Menu, those discarded as broken
left out, in the order in which the child Menus are declared. -/
def child_records (E : MenuEntries) (children : List MenuNode) : List TreeNode :=
  ((children.filter (fun child => decide (menu_node_get_type child = MENU_NODE_MENU))).map
    (fill_tree_node_from_menu_node E tree_node_new)).filter
      (fun record => !tree_node_free_if_broken record)

/-- The category `Games` with the entries of the index and the category `Office`
with none, each a Menu with some text of its own next to its child elements:
`node_compare_func` tells the two Menus apart by that text, so the duplicate
pass leaves both. -/
def example_sibling_menus : List MenuNode :=
  [.mk MENU_NODE_MENU (some "games")
     [.mk MENU_NODE_NAME (some "Games") [],
      .mk MENU_NODE_DIRECTORY (some "games.directory") [],
      .mk MENU_NODE_INCLUDE none [.mk MENU_NODE_ALL none []]],
   .mk MENU_NODE_MENU (some "office")
     [.mk MENU_NODE_NAME (some "Office") [],
      .mk MENU_NODE_DIRECTORY (some "office.directory") [],
      .mk MENU_NODE_INCLUDE none []]]

/-- The document `Applications` that declares `Games` before `Office`. -/
def example_sibling_document : MenuNode :=
  .mk MENU_NODE_ROOT none
    [.mk MENU_NODE_MENU none
      ([.mk MENU_NODE_NAME (some "Applications") [],
        .mk MENU_NODE_DIRECTORY (some "applications.directory") []] ++
        example_sibling_menus)]

/-- The handle `desktop_entry_tree_load` makes for `example_sibling_document`:
the document has no merge directive and the duplicate pass leaves it as it
is, so it is its own resolved document. -/
def example_sibling_tree : DesktopEntryTree where
  menu_file := "/etc/menus/siblings.menu"
  menu_file_dir := "/etc/menus"
  orig_node := example_sibling_document
  resolved_node := example_sibling_document
  root := none
  refcount := 1

/-- A document whose top-level Menu names the directory descriptor
`extra.directory`, which `example_query_entries` does not resolve. -/
def example_pending_document : MenuNode :=
  .mk MENU_NODE_ROOT none
    [.mk MENU_NODE_MENU none
      [.mk MENU_NODE_NAME (some "Extras") [],
       .mk MENU_NODE_DIRECTORY (some "extra.directory") [],
       .mk MENU_NODE_INCLUDE none [.mk MENU_NODE_ALL none []]]]

/-- The handle for `example_pending_document`, with no root record cached
yet. -/
def example_pending_tree : DesktopEntryTree where
  menu_file := "/etc/menus/extras.menu"
  menu_file_dir := "/etc/menus"
  orig_node := example_pending_document
  resolved_node := example_pending_document
  root := none
  refcount := 1

/-- The tree-builder services once `extra.directory` has been installed: as
`example_query_entries`, and the directory index resolves that descriptor
too. -/
def example_later_entries : MenuEntries where
  menu_node_menu_get_app_entries := example_query_entries.menu_node_menu_get_app_entries
  menu_node_menu_get_directory_entries := fun node =>
    { example_query_entries.menu_node_menu_get_directory_entries node with
      get_directory := fun name =>
        if name = some "extra.directory" then some ⟨"/dirs/extra.directory"⟩
        else (example_query_entries.menu_node_menu_get_directory_entries node).get_directory
          name }
  entry_set_list_entries := example_query_entries.entry_set_list_entries

/-- A root that declares the application directory `/a` three times. -/
def example_three_app_dirs : MenuNode :=
  .mk MENU_NODE_ROOT none
    [.mk MENU_NODE_APP_DIR (some "/a") [],
     .mk MENU_NODE_APP_DIR (some "/a") [],
     .mk MENU_NODE_APP_DIR (some "/a") []]

/-- A Menu that declares the application directory `/a`, then `/b`, then `/a`
twice more. -/
def example_repeated_app_dirs : MenuNode :=
  .mk MENU_NODE_MENU none
    [.mk MENU_NODE_NAME (some "Main") [],
     .mk MENU_NODE_APP_DIR (some "/a") [],
     .mk MENU_NODE_APP_DIR (some "/b") [],
     .mk MENU_NODE_APP_DIR (some "/a") [],
     .mk MENU_NODE_APP_DIR (some "/a") []]

/-- A scope with two Menus named `A` that carry different text of their own. -/
def example_text_menus : List MenuNode :=
  [.mk MENU_NODE_MENU (some "first")
     [.mk MENU_NODE_NAME (some "A") [],
      .mk MENU_NODE_INCLUDE none [.mk MENU_NODE_CATEGORY (some "one") []]],
   .mk MENU_NODE_MENU (some "second")
     [.mk MENU_NODE_NAME (some "A") [],
      .mk MENU_NODE_INCLUDE none [.mk MENU_NODE_CATEGORY (some "two") []]]]

/-- A root that declares the Menu `A`, then the Menu `B`, then the Menu `A`
again. -/
def example_interleaved_menus : MenuNode :=
  .mk MENU_NODE_ROOT none
    [example_menu "A" "one", example_menu "B" "two", example_menu "A" "three"]

/-- A scope that declares the Menu `A` three times. -/
def example_three_menus : List MenuNode :=
  [example_menu "A" "one", example_menu "A" "two", example_menu "A" "three"]

/-- A Menu without a Name whose only rule includes the category `category`. -/
def example_nameless_menu (category : String) : MenuNode :=
  .mk MENU_NODE_MENU none
    [.mk MENU_NODE_INCLUDE none [.mk MENU_NODE_CATEGORY (some category) []]]

/-- A scope with two Menu children that have no Name. -/
def example_nameless_menus : List MenuNode :=
  [example_nameless_menu "one", example_nameless_menu "two"]

/-- A menu installation with two more files: `empty.menu` loads as a Root
without any child, and `commented.menu` as a Root whose Menu comes after a
Passthrough node. -/
def example_odd_files : MenuFiles where
  menu_node_get_content_as_path := menu_node_get_content
  menu_node_get_for_file := fun filename =>
    if filename = "empty.menu" then some (.mk MENU_NODE_ROOT none [])
    else if filename = "commented.menu" then
      some (.mk MENU_NODE_ROOT none
        [.mk MENU_NODE_PASSTHROUGH (some "comment") [],
         .mk MENU_NODE_MENU none
           [.mk MENU_NODE_NAME (some "Apps") [], .mk MENU_NODE_APP_DIR (some "/a") []]])
    else none

/-! ## The desktop file validator (`src/validate.c`) -/

/-- What the validator reads of a `GnomeDesktopFile` (`desktop_file.c`, not
under `src/`): the names of its sections in file order, as
`gnome_desktop_file_foreach_section` presents them (`none` for `NULL`), and the
raw value of a key of the main section, as
`gnome_desktop_file_get_raw (df, NULL, key, NULL, &val)` finds it (`none` when
it returns `FALSE`). -/
structure GnomeDesktopFile where
  sections : List (Option String)
  get_raw : String → Option String

/-- The messages of `required_section` and `required_keys`. -/
inductive Diagnostic where
  | section_not_extension (name : String)
  | multiple_sections (name : String)
  | no_desktop_entry_section
  | kde_desktop_entry_deprecated
  | unknown_encoding (val : String)
  | missing_encoding
  | missing_name
  | invalid_type (val : String)
  | missing_type
  | name_equals_comment
  deriving DecidableEq, Repr

/-- The observable state of the validator: the flag `fatal_error_occurred` and
the messages printed so far. -/
structure ValidatorOutput where
  fatal_error_occurred : Bool
  printed : List Diagnostic
  deriving DecidableEq, Repr

/-- Embedding of `print_fatal`: the message is printed and the flag is set. -/
def print_fatal (out : ValidatorOutput) (message : Diagnostic) : ValidatorOutput :=
  { fatal_error_occurred := true, printed := out.printed ++ [message] }

/-- Embedding of `print_warning`: the message is printed. -/
def print_warning (out : ValidatorOutput) (message : Diagnostic) : ValidatorOutput :=
  { out with printed := out.printed ++ [message] }

/-- The fields of `struct SectionData` the checks use; `hash` holds the section
names seen so far. -/
structure SectionData where
  has_desktop_entry : Bool
  has_kde_desktop_entry : Bool
  hash : List String

/-- Embedding of `enum_sections` for one section name. -/
def enum_sections (name : Option String) (state : SectionData × ValidatorOutput) :
    SectionData × ValidatorOutput :=
  match name with
  | none => state
  | some name =>
    let classified : SectionData × ValidatorOutput :=
      if strcmp name "Desktop Entry" = 0 then
        ({ state.1 with has_desktop_entry := true }, state.2)
      else if strcmp name "KDE Desktop Entry" = 0 then
        ({ state.1 with has_kde_desktop_entry := true }, state.2)
      else if name.data.take 2 ≠ ['X', '-'] then
        (state.1, print_fatal state.2 (.section_not_extension name))
      else state
    if name ∈ classified.1.hash then
      (classified.1, print_fatal classified.2 (.multiple_sections name))
    else
      ({ classified.1 with hash := name :: classified.1.hash }, classified.2)

/-- Embedding of `required_section`: the returned flag and the output
afterwards. -/
def required_section (df : GnomeDesktopFile) (out : ValidatorOutput) :
    Bool × ValidatorOutput :=
  match df.sections.foldl (fun state name => enum_sections name state)
      ({ has_desktop_entry := false, has_kde_desktop_entry := false, hash := [] }, out) with
  | (section_data, out') =>
    if !section_data.has_desktop_entry && !section_data.has_kde_desktop_entry then
      (false, print_fatal out' .no_desktop_entry_section)
    else if section_data.has_kde_desktop_entry then
      (true, print_warning out' .kde_desktop_entry_deprecated)
    else (true, out')

/-- The test of `required_keys` on the value of the Type key: it is none of the
seven known types. -/
def is_invalid_type (val : String) : Bool :=
  decide (strcmp val "Application" ≠ 0) && decide (strcmp val "Link" ≠ 0) &&
    decide (strcmp val "FSDevice" ≠ 0) && decide (strcmp val "MimeType" ≠ 0) &&
    decide (strcmp val "Directory" ≠ 0) && decide (strcmp val "Service" ≠ 0) &&
    decide (strcmp val "ServiceType" ≠ 0)

/-- Embedding of `required_keys`: the returned flag and the output afterwards.
In the Encoding branch the `return FALSE` is the second statement of the
block: only the `print_fatal` before it is governed by the inner `if`. -/
def required_keys (df : GnomeDesktopFile) (out : ValidatorOutput) : Bool × ValidatorOutput :=
  match df.get_raw "Encoding" with
  | some val =>
    (false,
      if strcmp val "UTF-8" ≠ 0 ∧ strcmp val "Legacy-Mixed" ≠ 0 then
        print_fatal out (.unknown_encoding val)
      else out)
  | none =>
    let after_encoding := print_fatal out .missing_encoding
    let after_name :=
      match df.get_raw "Name" with
      | some _ => after_encoding
      | none => print_fatal after_encoding .missing_name
    match df.get_raw "Type" with
    | some val =>
      if is_invalid_type val then (false, print_fatal after_name (.invalid_type val))
      else (true, after_name)
    | none => (true, print_fatal after_name .missing_type)

/-- Embedding of `validate_desktop_file`: the output afterwards.  The per-key
checks of `generic_keys` are a parameter: the function maps the output before
them to the output after them. -/
def validate_desktop_file (generic_keys : GnomeDesktopFile → ValidatorOutput → ValidatorOutput)
    (df : GnomeDesktopFile) (out : ValidatorOutput) : ValidatorOutput :=
  match required_section df out with
  | (false, out') => out'
  | (true, out') =>
    match required_keys df out' with
    | (false, out'') => out''
    | (true, out'') =>
      match df.get_raw "Name", df.get_raw "Comment" with
      | some name, some comment =>
        if strcmp name comment = 0 then
          print_warning (generic_keys df out'') .name_equals_comment
        else generic_keys df out''
      | _, _ => generic_keys df out''

/-- A desktop file with the section `Desktop Entry` and the keys
`Encoding=UTF-8`, `Name=Editor` and `Type=Application`. -/
def example_desktop_file : GnomeDesktopFile where
  sections := [some "Desktop Entry"]
  get_raw := fun key =>
    if key = "Encoding" then some "UTF-8"
    else if key = "Name" then some "Editor"
    else if key = "Type" then some "Application"
    else none

/-! ## Encoding names and language tags (`validate.c`)

A NUL-terminated string is modelled by its characters before the terminating
NUL, and a pointer into it by the characters from the pointer to the NUL: the
empty list is the pointer at the NUL itself.  The C functions compare bytes;
the bytes of the separators and of the ASCII letters occur only as these
characters in UTF-8, so the comparisons are made character by character. -/

/-- Result of a scan over NUL-terminated strings: the value returned; or the
scan has moved a pointer past the terminating NUL and dereferenced it, an
access at an index greater than the length of the string; or the bound on the
number of iterations of the model was not enough. -/
inductive Scanned (α : Type) where
  | returned (value : α)
  | read_past_nul
  | out_of_fuel
  deriving DecidableEq

/-- The characters `aliases_equal` steps over: `-`, `.` and `_`. -/
def is_alias_separator (c : Char) : Bool :=
  c == '-' || c == '.' || c == '_'

/-- The function `g_ascii_tolower` of GLib: an ASCII upper-case letter is mapped
to its lower-case letter, every other character to itself. -/
def g_ascii_tolower (c : Char) : Char :=
  if 'A'.toNat ≤ c.toNat ∧ c.toNat ≤ 'Z'.toNat then
    Char.ofNat (c.toNat - 'A'.toNat + 'a'.toNat)
  else c

/-- The inner loops of `aliases_equal`: the pointer is advanced while it is at a
separator.  The NUL is not a separator, so the loop stops there at the
latest. -/
def skip_separators : List Char → List Char
  | [] => []
  | c :: rest => if is_alias_separator c then skip_separators rest else c :: rest

/-- The loops of `aliases_equal`, with a bound on the number of iterations of
the outer loop.  In an iteration of the outer loop, when both pointers are at
the NUL after the separators have been skipped, the two characters compare
equal, both pointers are incremented, and the loop condition dereferences
`enc1` past the NUL. -/
def aliases_equal_loop : Nat → List Char → List Char → Scanned Bool
  | 0, _, _ => .out_of_fuel
  | fuel + 1, enc1, enc2 =>
    if enc1 ≠ [] ∧ enc2 ≠ [] then
      match skip_separators enc1, skip_separators enc2 with
      | [], [] => .read_past_nul
      | [], _ :: _ => .returned false
      | _ :: _, [] => .returned false
      | c1 :: next1, c2 :: next2 =>
        if g_ascii_tolower c1 ≠ g_ascii_tolower c2 then .returned false
        else aliases_equal_loop fuel next1 next2
    else
      match skip_separators enc1, skip_separators enc2 with
      | [], [] => .returned true
      | _, _ => .returned false

/-- Embedding of `aliases_equal`.  Every iteration of the outer loop advances
`enc1` by at least one character, so the length of `enc1` plus one bounds the
number of iterations. -/
def aliases_equal (enc1 enc2 : String) : Scanned Bool :=
  aliases_equal_loop (enc1.length + 1) enc1.data enc2.data

/-- The specification's normal form of an encoding name: every `-`, `.` and
`_` deleted, ASCII letters in lower case. -/
def alias_normal_form (name : List Char) : List Char :=
  (name.filter (fun c => !is_alias_separator c)).map g_ascii_tolower

/-- The last character of the string is a separator. -/
def ends_in_separator : List Char → Bool
  | [] => false
  | [c] => is_alias_separator c
  | _ :: c :: rest => ends_in_separator (c :: rest)

/-- The table `known_encodings`: an encoding and the languages it is used
for. -/
def known_encodings : List (String × List String) :=
  [("ARMSCII-8", ["by"]),
   ("BIG5", ["zh_TW"]),
   ("CP1251", ["be", "bg"]),
   ("EUC-CN", ["zh_TW"]),
   ("EUC-JP", ["ja"]),
   ("EUC-KR", ["ko"]),
   ("GEORGIAN-ACADEMY", []),
   ("GEORGIAN-PS", ["ka"]),
   ("ISO-8859-1", ["br", "ca", "da", "de", "en", "es", "eu", "fi", "fr", "gl", "it", "nl",
      "wa", "no", "pt", "pt", "sv"]),
   ("ISO-8859-2", ["cs", "hr", "hu", "pl", "ro", "sk", "sl", "sq", "sr"]),
   ("ISO-8859-3", ["eo"]),
   ("ISO-8859-5", ["mk", "sp"]),
   ("ISO-8859-7", ["el"]),
   ("ISO-8859-9", ["tr"]),
   ("ISO-8859-13", ["lv", "lt", "mi"]),
   ("ISO-8859-14", ["ga", "cy"]),
   ("ISO-8859-15", ["et"]),
   ("KOI8-R", ["ru"]),
   ("KOI8-U", ["uk"]),
   ("TCVN-5712", ["vi"]),
   ("TIS-620", ["th"]),
   ("VISCII", [])]

/-- The table `enc_aliases`: an alias and the encoding it stands for. -/
def enc_aliases : List (String × String) :=
  [("GB2312", "EUC-CN"),
   ("TCVN", "TCVN-5712")]

/-- The second loop of `get_canonical_encoding`: the first known encoding that
`aliases_equal` finds equal to `encoding`, and `encoding` itself when there is
none. -/
def canonical_among_known (encoding : String) : List (String × List String) → Scanned String
  | [] => .returned encoding
  | known :: rest =>
    match aliases_equal known.1 encoding with
    | .returned true => .returned known.1
    | .returned false => canonical_among_known encoding rest
    | .read_past_nul => .read_past_nul
    | .out_of_fuel => .out_of_fuel

/-- The first loop of `get_canonical_encoding`, followed by the second: the
value of the first alias that `aliases_equal` finds equal to `encoding`. -/
def canonical_among_aliases (encoding : String) : List (String × String) → Scanned String
  | [] => canonical_among_known encoding known_encodings
  | entry :: rest =>
    match aliases_equal entry.1 encoding with
    | .returned true => .returned entry.2
    | .returned false => canonical_among_aliases encoding rest
    | .read_past_nul => .read_past_nul
    | .out_of_fuel => .out_of_fuel

/-- Embedding of `get_canonical_encoding`. -/
def get_canonical_encoding (encoding : String) : Scanned String :=
  canonical_among_aliases encoding enc_aliases

/-- The search of the C library `strchr` for a character other than NUL: the
offset of its first occurrence from the start of the string, `none` for the
`NULL` returned when it does not occur. -/
def strchr_offset (c : Char) : List Char → Option Nat
  | [] => none
  | x :: rest => if x = c then some 0 else (strchr_offset c rest).map (fun n => n + 1)

/-- Comparison of at most `n` characters of two NUL-terminated strings
(`strncmp` of the C library); only whether the result is 0 is used. -/
def strncmp_chars : Nat → List Char → List Char → Int
  | 0, _, _ => 0
  | _ + 1, [], [] => 0
  | _ + 1, [], _ :: _ => -1
  | _ + 1, _ :: _, [] => 1
  | n + 1, a :: as, b :: bs =>
    if a.toNat < b.toNat then -1
    else if b.toNat < a.toNat then 1
    else strncmp_chars n as bs

/-- Embedding of `lang_tag_matches`.  The count given to `strncmp` is `l2 - l`,
the offset of the first `_` of `l`. -/
def lang_tag_matches (l spec : String) : Bool :=
  if strcmp l spec = 0 then true
  else
    match strchr_offset '_' l.data with
    | some l2 =>
      if strchr_offset '_' spec.data = none ∧ strncmp_chars l2 l.data spec.data = 0 then true
      else false
    | none => false

/-- The inner loop of `get_encoding_from_lang` over the languages of one
encoding (the unused entries of the array `langs` are `NULL` and skipped). -/
def any_lang_tag_matches (lang : String) : List String → Bool
  | [] => false
  | spec :: rest => if lang_tag_matches lang spec then true else any_lang_tag_matches lang rest

/-- The outer loop of `get_encoding_from_lang`. -/
def encoding_from_lang_among (lang : String) : List (String × List String) → Option String
  | [] => none
  | known :: rest =>
    if any_lang_tag_matches lang known.2 then some known.1
    else encoding_from_lang_among lang rest

/-- Embedding of `get_encoding_from_lang`; `none` is `NULL`. -/
def get_encoding_from_lang (lang : String) : Option String :=
  encoding_from_lang_among lang known_encodings

/-- The language part of a tag, in the words of the specification: the text
before its first `_`. -/
def language_part (l : List Char) : List Char :=
  l.takeWhile (fun c => c != '_')

/-! # Properties -/

/-! ## Accessors -/

@[simp] theorem menu_node_get_type_mk (t : MenuNodeType) (c : Option String)
    (cs : List MenuNode) : menu_node_get_type (.mk t c cs) = t := rfl

@[simp] theorem menu_node_get_content_mk (t : MenuNodeType) (c : Option String)
    (cs : List MenuNode) : menu_node_get_content (.mk t c cs) = c := rfl

@[simp] theorem menu_node_get_children_mk (t : MenuNodeType) (c : Option String)
    (cs : List MenuNode) : menu_node_get_children (.mk t c cs) = cs := rfl

@[simp] theorem menu_node_get_type_with_children (node : MenuNode) (cs : List MenuNode) :
    menu_node_get_type (menu_node_with_children node cs) = menu_node_get_type node := by
  cases node; rfl

@[simp] theorem menu_node_get_content_with_children (node : MenuNode) (cs : List MenuNode) :
    menu_node_get_content (menu_node_with_children node cs) = menu_node_get_content node := by
  cases node; rfl

@[simp] theorem menu_node_get_children_with_children (node : MenuNode) (cs : List MenuNode) :
    menu_node_get_children (menu_node_with_children node cs) = cs := by
  cases node; rfl

theorem menu_node_eta (node : MenuNode) :
    MenuNode.mk (menu_node_get_type node) (menu_node_get_content node)
      (menu_node_get_children node) = node := by
  cases node; rfl

/-! ## Merge resolver -/

theorem resolve_children_append (F : MenuFiles) (resolve : MenuNode → Outcome MenuNode)
    (xs ys : List MenuNode) :
    resolve_children F resolve (xs ++ ys) =
      (resolve_children F resolve xs).append_lists (resolve_children F resolve ys) := by
  induction xs with
  | nil =>
    simp only [List.nil_append, resolve_children]
    cases resolve_children F resolve ys <;> simp [Outcome.append_lists]
  | cons x xs ih =>
    have e : (x :: xs) ++ ys = x :: (xs ++ ys) := rfl
    rw [e]
    simp only [resolve_children, ih]
    have plain : ∀ (a b : Outcome (List MenuNode)),
        (match a.append_lists b with
          | .done rest => Outcome.done (x :: rest)
          | .assert_failed => .assert_failed
          | .out_of_fuel => .out_of_fuel) =
        (match a with
          | .done rest => Outcome.done (x :: rest)
          | .assert_failed => .assert_failed
          | .out_of_fuel => .out_of_fuel).append_lists b := by
      intro a b
      cases a <;> cases b <;> simp [Outcome.append_lists]
    have merged : ∀ (m : List MenuNode) (a b : Outcome (List MenuNode)),
        (match a.append_lists b with
          | .done rest => Outcome.done (m ++ rest)
          | .assert_failed => .assert_failed
          | .out_of_fuel => .out_of_fuel) =
        (match a with
          | .done rest => Outcome.done (m ++ rest)
          | .assert_failed => .assert_failed
          | .out_of_fuel => .out_of_fuel).append_lists b := by
      intro m a b
      cases a <;> cases b <;> simp [Outcome.append_lists]
    cases hx : menu_node_get_type x
    case MENU_NODE_MERGE_FILE =>
      simp only []
      cases F.menu_node_get_content_as_path x with
      | none => rfl
      | some filename =>
        simp only []
        cases F.menu_node_get_for_file filename with
        | none => rfl
        | some to_merge =>
          simp only []
          cases merge_resolved_copy_of_children resolve to_merge with
          | done m => exact merged m _ _
          | assert_failed => rfl
          | out_of_fuel => rfl
    case MENU_NODE_MERGE_DIR => rfl
    case MENU_NODE_LEGACY_DIR => rfl
    all_goals exact plain _ _

theorem resolve_children_plain (F : MenuFiles) (resolve : MenuNode → Outcome MenuNode)
    (xs : List MenuNode)
    (h : ∀ x ∈ xs, menu_node_get_type x ≠ MENU_NODE_MERGE_FILE) :
    resolve_children F resolve xs =
      .done (xs.filter (fun x => !is_merge_directive (menu_node_get_type x))) := by
  induction xs with
  | nil => rfl
  | cons x xs ih =>
    have hx := h x (List.mem_cons_self _ _)
    have ih' := ih (fun y hy => h y (List.mem_cons_of_mem _ hy))
    simp only [resolve_children, ih']
    cases hk : menu_node_get_type x <;> simp_all [is_merge_directive]

theorem resolve_children_no_directive (F : MenuFiles) (resolve : MenuNode → Outcome MenuNode)
    (xs : List MenuNode)
    (h : ∀ x ∈ xs, is_merge_directive (menu_node_get_type x) = false) :
    resolve_children F resolve xs = .done xs := by
  rw [resolve_children_plain F resolve xs]
  · congr 1
    rw [List.filter_eq_self]
    intro x hx
    simp [h x hx]
  · intro x hx hk
    have := h x hx
    simp [hk, is_merge_directive] at this

theorem menu_node_resolve_files_eq (F : MenuFiles) (depth : Nat) (node : MenuNode) :
    menu_node_resolve_files F (depth + 1) node =
      resolved_node node
        (resolve_children F (menu_node_resolve_files F depth) (menu_node_get_children node)) := by
  rfl

/-- C1 (code evaluated at the failing input): `menu_node_resolve_files` scans
only the direct children of the node it is given.  On the root document
`example_root`, whose top-level Menu holds a MergeFile for the existing file
`apps.menu`, it returns the document unchanged whatever nesting bound it is
given, so the MergeFile directive is still there, nested inside the Menu. -/
theorem resolve_files_leaves_nested_merge_file :
    (∀ depth, menu_node_resolve_files example_files depth example_root = .done example_root) ∧
      contains_merge_directive example_root = true := by
  refine ⟨fun depth => ?_, by decide⟩
  cases depth <;> rfl

/-- A MergeFile child whose referenced document loads, with a Menu as the first
child of its root, is replaced in place.  If the file-resolved copy of the
referenced document is a Root whose first child is the Menu `menu_child`, the
resulting child list is what the loop leaves
of the children before the MergeFile, then the children of `menu_child` without
the Name nodes in their original order, then what the loop leaves of the
children after it; siblings that are no merge directives are left as they are,
so for them the list is literally `before`, the spliced children, `after`. -/
theorem resolve_files_splices_merge_file (F : MenuFiles) (depth : Nat)
    (t : MenuNodeType) (c : Option String) (before after before' after' : List MenuNode)
    (merge_file to_merge menu_child : MenuNode) (filename : String)
    (c_root : Option String) (others : List MenuNode)
    (h_kind : menu_node_get_type merge_file = MENU_NODE_MERGE_FILE)
    (h_path : F.menu_node_get_content_as_path merge_file = some filename)
    (h_load : F.menu_node_get_for_file filename = some to_merge)
    (h_copy : menu_node_resolve_files F depth to_merge =
      .done (.mk MENU_NODE_ROOT c_root (menu_child :: others)))
    (h_menu : menu_node_get_type menu_child = MENU_NODE_MENU)
    (h_before : resolve_children F (menu_node_resolve_files F depth) before = .done before')
    (h_after : resolve_children F (menu_node_resolve_files F depth) after = .done after') :
    menu_node_resolve_files F (depth + 1) (.mk t c (before ++ merge_file :: after)) =
        .done (.mk t c (before' ++
          (menu_node_get_children menu_child).filter
            (fun child => decide (menu_node_get_type child ≠ MENU_NODE_NAME)) ++ after')) ∧
      ((∀ x ∈ before ++ after, is_merge_directive (menu_node_get_type x) = false) →
        before' = before ∧ after' = after) := by
  constructor
  · rw [menu_node_resolve_files_eq]
    simp only [menu_node_get_children_mk]
    rw [resolve_children_append, h_before]
    have h_merge : merge_resolved_copy_of_children (menu_node_resolve_files F depth) to_merge =
        .done (children_to_splice menu_child) := by
      simp [merge_resolved_copy_of_children, h_copy, find_menu_child, h_menu,
        copy_is_root_with_menu_first]
    simp only [resolve_children, h_kind, h_path, h_load, h_merge, h_after]
    simp [Outcome.append_lists, resolved_node, menu_node_with_children, children_to_splice]
  · intro h
    have hb := resolve_children_no_directive F (menu_node_resolve_files F depth) before
      (fun x hx => h x (List.mem_append_left _ hx))
    have ha := resolve_children_no_directive F (menu_node_resolve_files F depth) after
      (fun x hx => h x (List.mem_append_right _ hx))
    rw [hb] at h_before
    rw [ha] at h_after
    injection h_before with h1
    injection h_after with h2
    exact ⟨h1.symm, h2.symm⟩

/-- Worked example: a Menu that merges `apps.menu` between its Name and its
Directory gets the AppDir and the Include of that file's Menu in place of the
MergeFile, without the merged file's Name. -/
theorem resolve_files_splices_merge_file_witness :
    menu_node_resolve_files example_files 1
        (.mk MENU_NODE_MENU none
          ([.mk MENU_NODE_NAME (some "Main") []] ++
            .mk MENU_NODE_MERGE_FILE (some "apps.menu") [] ::
            [.mk MENU_NODE_DIRECTORY (some "main.directory") []])) =
      .done (.mk MENU_NODE_MENU none
        ([.mk MENU_NODE_NAME (some "Main") []] ++
          [.mk MENU_NODE_APP_DIR (some "/a") [],
           .mk MENU_NODE_INCLUDE none [.mk MENU_NODE_ALL none []]] ++
          [.mk MENU_NODE_DIRECTORY (some "main.directory") []])) :=
  (resolve_files_splices_merge_file example_files 0 MENU_NODE_MENU none
    [.mk MENU_NODE_NAME (some "Main") []]
    [.mk MENU_NODE_DIRECTORY (some "main.directory") []]
    [.mk MENU_NODE_NAME (some "Main") []]
    [.mk MENU_NODE_DIRECTORY (some "main.directory") []]
    (.mk MENU_NODE_MERGE_FILE (some "apps.menu") [])
    (.mk MENU_NODE_ROOT none
        [.mk MENU_NODE_MENU none
          [.mk MENU_NODE_NAME (some "Apps") [],
           .mk MENU_NODE_APP_DIR (some "/a") [],
           .mk MENU_NODE_INCLUDE none [.mk MENU_NODE_ALL none []]]])
    (.mk MENU_NODE_MENU none
          [.mk MENU_NODE_NAME (some "Apps") [],
           .mk MENU_NODE_APP_DIR (some "/a") [],
           .mk MENU_NODE_INCLUDE none [.mk MENU_NODE_ALL none []]])
    "apps.menu" none [] rfl rfl rfl rfl rfl rfl rfl).1

/-- C2 (code evaluated at the failing input): `commented.menu` loads, and its
root has a top-level Menu, declared after a Passthrough node.  A Menu that
merges it between its Name and its Directory does not get the children of that
Menu in place of the MergeFile: `merge_resolved_copy_of_children` finds the
Menu, then fails its assertion that the first child of the root is a Menu, and
`menu_node_resolve_files` does not complete. -/
theorem resolve_files_does_not_splice_after_passthrough :
    ((example_odd_files.menu_node_get_for_file "commented.menu").bind find_menu_child) =
        some (.mk MENU_NODE_MENU none
          [.mk MENU_NODE_NAME (some "Apps") [], .mk MENU_NODE_APP_DIR (some "/a") []]) ∧
      menu_node_resolve_files example_odd_files 1
        (.mk MENU_NODE_MENU none
          [.mk MENU_NODE_NAME (some "Main") [],
           .mk MENU_NODE_MERGE_FILE (some "commented.menu") [],
           .mk MENU_NODE_DIRECTORY (some "main.directory") []]) = .assert_failed ∧
      menu_node_resolve_files example_odd_files 1
        (.mk MENU_NODE_MENU none
          [.mk MENU_NODE_NAME (some "Main") [],
           .mk MENU_NODE_MERGE_FILE (some "commented.menu") [],
           .mk MENU_NODE_DIRECTORY (some "main.directory") []]) ≠
        .done (.mk MENU_NODE_MENU none
          [.mk MENU_NODE_NAME (some "Main") [],
           .mk MENU_NODE_APP_DIR (some "/a") [],
           .mk MENU_NODE_DIRECTORY (some "main.directory") []]) := by
  have h : menu_node_resolve_files example_odd_files 1
      (.mk MENU_NODE_MENU none
        [.mk MENU_NODE_NAME (some "Main") [],
         .mk MENU_NODE_MERGE_FILE (some "commented.menu") [],
         .mk MENU_NODE_DIRECTORY (some "main.directory") []]) = .assert_failed := rfl
  refine ⟨rfl, h, ?_⟩
  rw [h]
  simp

/-- C3: a MergeFile child whose path is missing, or whose referenced document
cannot be loaded, contributes nothing.  For every nesting bound the outcome on
the child list is the outcome on the child list without that node; and when no
other sibling is a MergeFile the call completes, for every nesting bound, with
the siblings in their order (MergeDir and LegacyDir siblings are dropped, as
they are without the MergeFile). -/
theorem resolve_files_drops_unloadable_merge_file (F : MenuFiles) (depth : Nat)
    (t : MenuNodeType) (c : Option String) (before after : List MenuNode)
    (merge_file : MenuNode)
    (h_kind : menu_node_get_type merge_file = MENU_NODE_MERGE_FILE)
    (h_missing : F.menu_node_get_content_as_path merge_file = none ∨
      ∃ filename, F.menu_node_get_content_as_path merge_file = some filename ∧
        F.menu_node_get_for_file filename = none) :
    menu_node_resolve_files F depth (.mk t c (before ++ merge_file :: after)) =
        menu_node_resolve_files F depth (.mk t c (before ++ after)) ∧
      ((∀ x ∈ before ++ after, menu_node_get_type x ≠ MENU_NODE_MERGE_FILE) →
        menu_node_resolve_files F depth (.mk t c (before ++ merge_file :: after)) =
          .done (.mk t c
            ((before ++ after).filter (fun x => !is_merge_directive (menu_node_get_type x))))) := by
  have key : ∀ resolve : MenuNode → Outcome MenuNode,
      resolve_children F resolve (before ++ merge_file :: after) =
        resolve_children F resolve (before ++ after) := by
    intro resolve
    have h_drop : resolve_children F resolve (merge_file :: after) =
        resolve_children F resolve after := by
      rcases h_missing with h | ⟨filename, h, h'⟩
      · simp only [resolve_children, h_kind, h]
      · simp only [resolve_children, h_kind, h, h']
    rw [resolve_children_append, h_drop, ← resolve_children_append]
  have eq : menu_node_resolve_files F depth (.mk t c (before ++ merge_file :: after)) =
      menu_node_resolve_files F depth (.mk t c (before ++ after)) := by
    cases depth <;> simp only [menu_node_resolve_files, menu_node_get_children_mk, key] <;>
      cases resolve_children F _ (before ++ after) <;> rfl
  refine ⟨eq, fun h => ?_⟩
  rw [eq]
  cases depth <;>
    simp only [menu_node_resolve_files, menu_node_get_children_mk,
      resolve_children_plain F _ _ h, resolved_node, menu_node_with_children]

/-- C3, worked example: a MergeFile naming the missing file `gone.menu` between
a Name and an AppDir is removed and both siblings stay. -/
theorem resolve_files_drops_unloadable_merge_file_witness :
    menu_node_resolve_files example_files 0
        (.mk MENU_NODE_MENU none
          ([.mk MENU_NODE_NAME (some "Main") []] ++
            .mk MENU_NODE_MERGE_FILE (some "gone.menu") [] ::
            [.mk MENU_NODE_APP_DIR (some "/a") []])) =
      .done (.mk MENU_NODE_MENU none
        [.mk MENU_NODE_NAME (some "Main") [], .mk MENU_NODE_APP_DIR (some "/a") []]) :=
  (resolve_files_drops_unloadable_merge_file example_files 0 MENU_NODE_MENU none
    [.mk MENU_NODE_NAME (some "Main") []] [.mk MENU_NODE_APP_DIR (some "/a") []]
    (.mk MENU_NODE_MERGE_FILE (some "gone.menu") []) rfl
    (Or.inr ⟨"gone.menu", rfl, rfl⟩)).2 (by decide)

/-! ## Comparison functions -/

theorem char_toNat_inj (a b : Char) (h : a.toNat = b.toNat) : a = b := by
  apply Char.ext
  cases ha : a.val with
  | mk va =>
    cases hb : b.val with
    | mk vb =>
      simp only [Char.toNat, UInt32.toNat, ha, hb] at h
      congr 1
      exact BitVec.eq_of_toNat_eq h

theorem strcmp_chars_eq_zero (a b : List Char) : strcmp_chars a b = 0 ↔ a = b := by
  induction a generalizing b with
  | nil => cases b <;> simp [strcmp_chars]
  | cons x xs ih =>
    cases b with
    | nil => simp [strcmp_chars]
    | cons y ys =>
      simp only [strcmp_chars]
      split
      · rename_i h
        simp only [List.cons.injEq]
        constructor
        · intro h'; omega
        · rintro ⟨rfl, -⟩; omega
      · split
        · rename_i h1 h2
          simp only [List.cons.injEq]
          constructor
          · intro h'; omega
          · rintro ⟨rfl, -⟩; omega
        · rename_i h1 h2
          have : x = y := char_toNat_inj x y (by omega)
          simp [ih, this]

theorem strcmp_chars_total (a b : List Char) :
    strcmp_chars a b ≤ 0 ∨ strcmp_chars b a ≤ 0 := by
  induction a generalizing b with
  | nil => cases b <;> simp [strcmp_chars]
  | cons x xs ih =>
    cases b with
    | nil => simp [strcmp_chars]
    | cons y ys =>
      simp only [strcmp_chars]
      by_cases h1 : x.toNat < y.toNat
      · simp [h1]
      · by_cases h2 : y.toNat < x.toNat
        · simp [h1, h2]
        · simp only [h1, h2, if_false]
          exact ih ys

theorem strcmp_chars_trans (a b c : List Char) (h1 : strcmp_chars a b ≤ 0)
    (h2 : strcmp_chars b c ≤ 0) : strcmp_chars a c ≤ 0 := by
  induction a generalizing b c with
  | nil => cases c <;> simp [strcmp_chars]
  | cons x xs ih =>
    cases b with
    | nil => simp [strcmp_chars] at h1
    | cons y ys =>
      cases c with
      | nil => simp [strcmp_chars] at h2
      | cons z zs =>
        simp only [strcmp_chars] at h1 h2 ⊢
        by_cases hxy : x.toNat < y.toNat
        · by_cases hyz : y.toNat < z.toNat
          · have : x.toNat < z.toNat := by omega
            simp [this]
          · by_cases hzy : z.toNat < y.toNat
            · simp [hyz, hzy] at h2
            · have : x.toNat < z.toNat := by omega
              simp [this]
        · by_cases hyx : y.toNat < x.toNat
          · simp [hxy, hyx] at h1
          · simp only [hxy, hyx, if_false] at h1
            by_cases hyz : y.toNat < z.toNat
            · have : x.toNat < z.toNat := by omega
              simp [this]
            · by_cases hzy : z.toNat < y.toNat
              · simp [hyz, hzy] at h2
              · simp only [hyz, hzy, if_false] at h2
                have e1 : ¬ x.toNat < z.toNat := by omega
                have e2 : ¬ z.toNat < x.toNat := by omega
                simp only [e1, e2, if_false]
                exact ih ys zs h1 h2

theorem strcmp_chars_refl_le (a b : List Char) (h : strcmp_chars a b = 0) :
    strcmp_chars b a ≤ 0 := by
  rw [strcmp_chars_eq_zero] at h
  subst h
  exact le_of_eq ((strcmp_chars_eq_zero a a).2 rfl)

theorem strcmp_chars_antisymm (a b : List Char) (h1 : strcmp_chars a b ≤ 0)
    (h2 : strcmp_chars b a ≤ 0) : strcmp_chars a b = 0 := by
  induction a generalizing b with
  | nil => cases b <;> simp_all [strcmp_chars]
  | cons x xs ih =>
    cases b with
    | nil => simp [strcmp_chars] at h1
    | cons y ys =>
      simp only [strcmp_chars] at h1 h2 ⊢
      by_cases hxy : x.toNat < y.toNat
      · have : ¬ y.toNat < x.toNat := by omega
        simp [hxy, this] at h2
      · by_cases hyx : y.toNat < x.toNat
        · simp [hxy, hyx] at h1
        · simp only [hxy, hyx, if_false] at h1 h2 ⊢
          exact ih ys h1 h2

theorem null_safe_strcmp_isComparison : IsComparison null_safe_strcmp where
  total := by
    intro a b
    cases a <;> cases b <;> simp [null_safe_strcmp, strcmp]
    exact strcmp_chars_total _ _
  trans := by
    intro a b c h1 h2
    cases a <;> cases b <;> cases c <;> simp_all [null_safe_strcmp, strcmp]
    exact strcmp_chars_trans _ _ _ h1 h2
  eq_zero := by
    intro a b
    cases a <;> cases b <;> simp [null_safe_strcmp, strcmp]
    constructor
    · intro h
      exact ⟨le_of_eq h, strcmp_chars_refl_le _ _ h⟩
    · rintro ⟨h1, h2⟩
      exact strcmp_chars_antisymm _ _ h1 h2

theorem null_safe_strcmp_eq_zero (a b : Option String) :
    null_safe_strcmp a b = 0 ↔ a = b := by
  cases a <;> cases b <;> simp [null_safe_strcmp, strcmp, strcmp_chars_eq_zero]
  rename_i x y
  constructor
  · intro h; exact String.ext h
  · intro h; rw [h]

theorem code_injective (s t : MenuNodeType) (h : s.code = t.code) : s = t := by
  cases s <;> cases t <;> first | rfl | (simp [MenuNodeType.code] at h)

theorem node_compare_func_eq_zero (a b : MenuNode) :
    node_compare_func a b = 0 ↔
      menu_node_get_type a = menu_node_get_type b ∧
        menu_node_get_content a = menu_node_get_content b := by
  unfold node_compare_func
  split
  · rename_i h
    constructor
    · intro h'; omega
    · rintro ⟨h', -⟩; rw [h'] at h; omega
  · split
    · rename_i h1 h2
      constructor
      · intro h'; omega
      · rintro ⟨h', -⟩; rw [h'] at h2; omega
    · rename_i h1 h2
      rw [null_safe_strcmp_eq_zero]
      have : menu_node_get_type a = menu_node_get_type b := code_injective _ _ (by omega)
      simp [this]

theorem node_compare_func_isComparison : IsComparison node_compare_func where
  total := by
    intro a b
    unfold node_compare_func
    by_cases h1 : (menu_node_get_type a).code < (menu_node_get_type b).code
    · simp [h1]
    · by_cases h2 : (menu_node_get_type b).code < (menu_node_get_type a).code
      · simp [h1, h2]
      · simp only [h1, h2, if_false]
        exact null_safe_strcmp_isComparison.total _ _
  trans := by
    intro a b c
    unfold node_compare_func
    intro h1 h2
    by_cases hab : (menu_node_get_type a).code < (menu_node_get_type b).code
    · by_cases hbc : (menu_node_get_type b).code < (menu_node_get_type c).code
      · have : (menu_node_get_type a).code < (menu_node_get_type c).code := by omega
        simp [this]
      · by_cases hcb : (menu_node_get_type c).code < (menu_node_get_type b).code
        · simp [hbc, hcb] at h2
        · have : (menu_node_get_type a).code < (menu_node_get_type c).code := by omega
          simp [this]
    · by_cases hba : (menu_node_get_type b).code < (menu_node_get_type a).code
      · simp [hab, hba] at h1
      · simp only [hab, hba, if_false] at h1
        by_cases hbc : (menu_node_get_type b).code < (menu_node_get_type c).code
        · have : (menu_node_get_type a).code < (menu_node_get_type c).code := by omega
          simp [this]
        · by_cases hcb : (menu_node_get_type c).code < (menu_node_get_type b).code
          · simp [hbc, hcb] at h2
          · simp only [hbc, hcb, if_false] at h2
            have e1 : ¬ (menu_node_get_type a).code < (menu_node_get_type c).code := by omega
            have e2 : ¬ (menu_node_get_type c).code < (menu_node_get_type a).code := by omega
            simp only [e1, e2, if_false]
            exact null_safe_strcmp_isComparison.trans _ _ _ h1 h2
  eq_zero := by
    intro a b
    constructor
    · intro h
      refine ⟨le_of_eq h, ?_⟩
      rw [node_compare_func_eq_zero] at h
      have : node_compare_func b a = 0 := (node_compare_func_eq_zero b a).2 ⟨h.1.symm, h.2.symm⟩
      exact le_of_eq this
    · unfold node_compare_func
      rintro ⟨h1, h2⟩
      by_cases hab : (menu_node_get_type a).code < (menu_node_get_type b).code
      · have : ¬ (menu_node_get_type b).code < (menu_node_get_type a).code := by omega
        simp [hab, this] at h2
      · by_cases hba : (menu_node_get_type b).code < (menu_node_get_type a).code
        · simp [hab, hba] at h1
        · simp only [hab, hba, if_false] at h1 h2 ⊢
          exact (null_safe_strcmp_isComparison.eq_zero _ _).2 ⟨h1, h2⟩

theorem IsComparison.comap {α β : Type} {compare_func : α → α → Int}
    (h : IsComparison compare_func) (f : β → α) :
    IsComparison (fun a b => compare_func (f a) (f b)) where
  total := fun a b => h.total (f a) (f b)
  trans := fun a b c => h.trans (f a) (f b) (f c)
  eq_zero := fun a b => h.eq_zero (f a) (f b)

theorem node_menu_compare_func_isComparison : IsComparison node_menu_compare_func :=
  null_safe_strcmp_isComparison.comap menu_node_menu_get_name

theorem IsComparison.eq_zero_trans {α : Type} {compare_func : α → α → Int}
    (h : IsComparison compare_func) {a b c : α} (h1 : compare_func a b = 0)
    (h2 : compare_func b c = 0) : compare_func a c = 0 := by
  rw [h.eq_zero] at h1 h2 ⊢
  exact ⟨h.trans _ _ _ h1.1 h2.1, h.trans _ _ _ h2.2 h1.2⟩

theorem IsComparison.eq_zero_symm {α : Type} {compare_func : α → α → Int}
    (h : IsComparison compare_func) {a b : α} (h1 : compare_func a b = 0) :
    compare_func b a = 0 := by
  rw [h.eq_zero] at h1 ⊢
  exact ⟨h1.2, h1.1⟩

/-! ## The stable sort -/

theorem insert_sorted_perm {α : Type} (compare_func : α → α → Int) (x : α) (l : List α) :
    (insert_sorted compare_func x l).Perm (x :: l) := by
  induction l with
  | nil => exact List.Perm.refl _
  | cons y ys ih =>
    simp only [insert_sorted]
    split
    · exact List.Perm.refl _
    · exact (List.Perm.cons y ih).trans (List.Perm.swap x y ys)

theorem g_slist_sort_perm {α : Type} (compare_func : α → α → Int) (l : List α) :
    (g_slist_sort l compare_func).Perm l := by
  induction l with
  | nil => exact List.Perm.refl _
  | cons x xs ih =>
    exact (insert_sorted_perm compare_func x _).trans (List.Perm.cons x ih)

theorem insert_sorted_sorted {α : Type} {compare_func : α → α → Int}
    (h : IsComparison compare_func) (x : α) (l : List α)
    (hl : l.Pairwise (fun a b => compare_func a b ≤ 0)) :
    (insert_sorted compare_func x l).Pairwise (fun a b => compare_func a b ≤ 0) := by
  induction l with
  | nil => simp [insert_sorted]
  | cons y ys ih =>
    simp only [insert_sorted]
    rw [List.pairwise_cons] at hl
    split
    · rename_i hxy
      refine List.Pairwise.cons ?_ (List.Pairwise.cons hl.1 hl.2)
      intro z hz
      rcases List.mem_cons.1 hz with rfl | hz
      · exact hxy
      · exact h.trans _ _ _ hxy (hl.1 z hz)
    · rename_i hxy
      refine List.Pairwise.cons ?_ (ih hl.2)
      intro z hz
      rcases List.mem_cons.1 ((insert_sorted_perm compare_func x ys).mem_iff.1 hz) with rfl | hz
      · rcases h.total z y with h' | h'
        · exact absurd h' hxy
        · exact h'
      · exact hl.1 z hz

theorem g_slist_sort_sorted {α : Type} {compare_func : α → α → Int}
    (h : IsComparison compare_func) (l : List α) :
    (g_slist_sort l compare_func).Pairwise (fun a b => compare_func a b ≤ 0) := by
  induction l with
  | nil => exact List.Pairwise.nil
  | cons x xs ih => exact insert_sorted_sorted h x _ ih

theorem find?_insert_sorted_of_false {α : Type} (compare_func : α → α → Int) (p : α → Bool)
    (x : α) (l : List α) (hx : p x = false) :
    (insert_sorted compare_func x l).find? p = l.find? p := by
  induction l with
  | nil => simp [insert_sorted, hx]
  | cons y ys ih =>
    simp only [insert_sorted]
    split
    · simp [List.find?_cons, hx]
    · simp only [List.find?_cons, ih]

theorem find?_insert_sorted_of_true {α : Type} (compare_func : α → α → Int) (p : α → Bool)
    (x : α) (l : List α) (hx : p x = true)
    (hp : ∀ y, p y = true → compare_func x y ≤ 0) :
    (insert_sorted compare_func x l).find? p = some x := by
  induction l with
  | nil => simp [insert_sorted, hx]
  | cons y ys ih =>
    simp only [insert_sorted]
    split
    · simp [List.find?_cons, hx]
    · rename_i hxy
      have : p y = false := by
        cases hpy : p y
        · rfl
        · exact absurd (hp y hpy) hxy
      simp only [List.find?_cons, this, ih]

/-- Stability of the sort, in the form the duplicate loops use it: the first
element of the sorted list that compares equal to `n` is the first such element
of the input list. -/
theorem find?_g_slist_sort {α : Type} {compare_func : α → α → Int}
    (h : IsComparison compare_func) (n : α) (l : List α) :
    (g_slist_sort l compare_func).find? (fun m => decide (compare_func m n = 0)) =
      l.find? (fun m => decide (compare_func m n = 0)) := by
  induction l with
  | nil => rfl
  | cons x xs ih =>
    show (insert_sorted compare_func x (g_slist_sort xs compare_func)).find? _ = _
    by_cases hx : compare_func x n = 0
    · rw [find?_insert_sorted_of_true]
      · simp [List.find?_cons, hx]
      · simp [hx]
      · intro y hy
        have hy' : compare_func y n = 0 := by simpa using hy
        exact ((h.eq_zero _ _).1 (h.eq_zero_trans hx (h.eq_zero_symm hy'))).1
    · rw [find?_insert_sorted_of_false _ _ _ _ (by simp [hx]), ih]
      simp [List.find?_cons, hx]

/-! ## The loop over the sorted simple declarations -/

theorem unlink_if_equal_nodes (s : Scope) (p n : Nat) :
    (unlink_if_equal s p n).nodes = s.nodes := by
  unfold unlink_if_equal
  split <;> rfl

theorem walk_unlink_nodes (prev : Option Nat) (l : List Nat) (s : Scope) :
    (walk_adjacent unlink_if_equal prev l s).nodes = s.nodes := by
  induction l generalizing prev s with
  | nil => cases prev <;> rfl
  | cons t rest ih =>
    cases prev with
    | none => simp only [walk_adjacent, ih]
    | some p => simp only [walk_adjacent, ih, unlink_if_equal_nodes]

theorem walk_unlink_unlinked_some (nodes : List MenuNode) (p : Nat) (l : List Nat) (s : Scope)
    (hs : s.nodes = nodes)
    (hsorted : (p :: l).Pairwise
      (fun a b => node_compare_func (node_at nodes a) (node_at nodes b) ≤ 0))
    (hnodup : (p :: l).Nodup) (n : Nat) :
    n ∈ (walk_adjacent unlink_if_equal (some p) l s).unlinked ↔
      n ∈ s.unlinked ∨ (n ∈ l ∧
        (p :: l).find? (fun m =>
          decide (node_compare_func (node_at nodes m) (node_at nodes n) = 0)) ≠ some n) := by
  have hc : IsComparison (fun a b => node_compare_func (node_at nodes a) (node_at nodes b)) :=
    node_compare_func_isComparison.comap (node_at nodes)
  induction l generalizing p s with
  | nil => simp [walk_adjacent]
  | cons t rest ih =>
    simp only [walk_adjacent]
    have hnodup' : (t :: rest).Nodup := (List.nodup_cons.1 hnodup).2
    have hsorted' := (List.pairwise_cons.1 hsorted).2
    have hpt : p ≠ t := by
      intro h
      exact (List.nodup_cons.1 hnodup).1 (h ▸ List.mem_cons_self _ _)
    have htt : node_compare_func (node_at nodes t) (node_at nodes t) = 0 :=
      (node_compare_func_eq_zero _ _).2 ⟨rfl, rfl⟩
    have ih' := ih t (unlink_if_equal s p t) (by rw [unlink_if_equal_nodes, hs]) hsorted' hnodup'
    refine ih'.trans ?_
    by_cases hnt : n = t
    · subst hnt
      have hn_rest : n ∉ rest := (List.nodup_cons.1 hnodup').1
      by_cases hpn : node_compare_func (node_at nodes p) (node_at nodes n) = 0
      · simp [unlink_if_equal, hs, hpn, List.find?_cons, hpt]
      · simp [unlink_if_equal, hs, hpn, List.find?_cons, hn_rest, htt]
    · have hmem : n ∈ (unlink_if_equal s p t).unlinked ↔ n ∈ s.unlinked := by
        unfold unlink_if_equal
        split <;> simp [hnt]
      rw [hmem]
      by_cases hn_rest : n ∈ rest
      · have hpn' : p ≠ n := by
          intro h
          exact (List.nodup_cons.1 hnodup).1 (h ▸ List.mem_cons_of_mem _ hn_rest)
        by_cases hpn : node_compare_func (node_at nodes p) (node_at nodes n) = 0
        · have h_pt := (List.pairwise_cons.1 hsorted).1 t (List.mem_cons_self _ _)
          have h_tn := (List.pairwise_cons.1 hsorted').1 n hn_rest
          have h_np := ((hc.eq_zero p n).1 hpn).2
          have htn : node_compare_func (node_at nodes t) (node_at nodes n) = 0 :=
            (hc.eq_zero t n).2 ⟨h_tn, hc.trans n p t h_np h_pt⟩
          simp [List.find?_cons, hpn, htn, hpn', hn_rest, Ne.symm hnt]
        · simp [List.find?_cons, hpn, hn_rest, hnt]
      · simp [hn_rest, hnt]

theorem walk_unlink_unlinked (nodes : List MenuNode) (l : List Nat) (s : Scope)
    (hs : s.nodes = nodes)
    (hsorted : l.Pairwise
      (fun a b => node_compare_func (node_at nodes a) (node_at nodes b) ≤ 0))
    (hnodup : l.Nodup) (n : Nat) :
    n ∈ (walk_adjacent unlink_if_equal none l s).unlinked ↔
      n ∈ s.unlinked ∨ (n ∈ l ∧
        l.find? (fun m =>
          decide (node_compare_func (node_at nodes m) (node_at nodes n) = 0)) ≠ some n) := by
  cases l with
  | nil => simp [walk_adjacent]
  | cons t rest =>
    simp only [walk_adjacent]
    rw [walk_unlink_unlinked_some nodes t rest s hs hsorted hnodup n]
    have htt : node_compare_func (node_at nodes t) (node_at nodes t) = 0 :=
      (node_compare_func_eq_zero _ _).2 ⟨rfl, rfl⟩
    by_cases hnt : n = t
    · subst hnt
      simp [List.find?_cons, htt, (List.nodup_cons.1 hnodup).1]
    · simp [hnt]

/-! ## Candidate lists -/

theorem collect_candidates_foldl (selected : MenuNodeType → Bool)
    (l : List (Nat × MenuNode)) (acc : List Nat) :
    l.foldl (fun list child =>
        if selected (menu_node_get_type child.2) then child.1 :: list else list) acc =
      ((l.filter (fun child => selected (menu_node_get_type child.2))).map Prod.fst).reverse
        ++ acc := by
  induction l generalizing acc with
  | nil => simp
  | cons x xs ih =>
    simp only [List.foldl_cons, ih, List.filter_cons]
    split <;> simp

theorem collect_candidates_eq (selected : MenuNodeType → Bool) (children : List MenuNode) :
    collect_candidates selected children =
      ((children.enum.filter
        (fun child => selected (menu_node_get_type child.2))).map Prod.fst).reverse := by
  unfold collect_candidates
  rw [collect_candidates_foldl]
  simp

theorem node_at_eq_of_getElem? {nodes : List MenuNode} {i : Nat} {x : MenuNode}
    (h : nodes[i]? = some x) : node_at nodes i = x := by
  simp [node_at, List.getD_eq_getElem?_getD, h]

theorem node_at_of_lt {nodes : List MenuNode} {i : Nat} (h : i < nodes.length) :
    node_at nodes i = nodes[i] := by
  simp [node_at, List.getD_eq_getElem?_getD, List.getElem?_eq_getElem h]

theorem mem_collect_candidates (selected : MenuNodeType → Bool) (children : List MenuNode)
    (i : Nat) :
    i ∈ collect_candidates selected children ↔
      i < children.length ∧ selected (menu_node_get_type (node_at children i)) = true := by
  rw [collect_candidates_eq]
  simp only [List.mem_reverse, List.mem_map, List.mem_filter, Prod.exists,
    exists_and_right, exists_eq_right, List.mk_mem_enum_iff_getElem?]
  constructor
  · rintro ⟨x, hx, hsel⟩
    have hlt : i < children.length := (List.getElem?_eq_some.1 hx).1
    exact ⟨hlt, by rw [node_at_eq_of_getElem? hx]; exact hsel⟩
  · rintro ⟨hlt, hsel⟩
    refine ⟨children[i], List.getElem?_eq_getElem hlt, ?_⟩
    rw [← node_at_of_lt hlt]; exact hsel

theorem collect_candidates_decreasing (selected : MenuNodeType → Bool)
    (children : List MenuNode) :
    (collect_candidates selected children).Pairwise (fun a b => b < a) := by
  rw [collect_candidates_eq, List.pairwise_reverse]
  have hsub : ((children.enum.filter
      (fun child => selected (menu_node_get_type child.2))).map Prod.fst).Sublist
        (children.enum.map Prod.fst) :=
    (List.filter_sublist _).map _
  rw [List.enum_map_fst] at hsub
  exact (List.pairwise_lt_range _).sublist hsub

theorem collect_candidates_nodup (selected : MenuNodeType → Bool)
    (children : List MenuNode) : (collect_candidates selected children).Nodup :=
  (collect_candidates_decreasing selected children).imp (fun h => Nat.ne_of_gt h)

theorem find?_ne_self_iff_of_decreasing (l : List Nat) (hl : l.Pairwise (fun a b => b < a))
    (p : Nat → Bool) (n : Nat) (hn : n ∈ l) (hpn : p n = true) :
    l.find? p ≠ some n ↔ ∃ j ∈ l, n < j ∧ p j = true := by
  induction l with
  | nil => simp at hn
  | cons a rest ih =>
    rw [List.pairwise_cons] at hl
    by_cases han : a = n
    · subst han
      simp only [List.find?_cons, hpn, ne_eq, not_true_eq_false, List.mem_cons, exists_eq_or_imp,
        lt_self_iff_false, false_and, false_or, false_iff, not_exists, not_and]
      intro j hj hlt
      exact absurd (hl.1 j hj) (by omega)
    · have hn' : n ∈ rest := by
        rcases List.mem_cons.1 hn with h | h
        · exact absurd h.symm han
        · exact h
      have hlt : n < a := hl.1 n hn'
      cases hpa : p a
      · simp only [List.find?_cons, hpa, ih hl.2 hn', List.mem_cons, exists_eq_or_imp,
          Bool.false_eq_true, and_false, false_or]
      · simp only [List.find?_cons, hpa, ne_eq, Option.some.injEq, han, not_false_eq_true,
          List.mem_cons, exists_eq_or_imp, hlt, and_self, true_or]

/-! ## Effect of the simple-declaration loop -/

theorem strip_simple_nodes_nodes (s : Scope) : (strip_simple_nodes s).nodes = s.nodes :=
  walk_unlink_nodes _ _ _

theorem same_kind_and_content_iff (a b : MenuNode) :
    same_kind_and_content a b = true ↔ node_compare_func a b = 0 := by
  rw [node_compare_func_eq_zero]
  simp [same_kind_and_content]

theorem same_kind_and_content_symm (a b : MenuNode) :
    same_kind_and_content a b = same_kind_and_content b a := by
  simp only [same_kind_and_content]
  rw [Bool.eq_iff_iff]
  simp only [Bool.and_eq_true, decide_eq_true_eq]
  constructor <;> rintro ⟨h1, h2⟩ <;> exact ⟨h1.symm, h2.symm⟩

/-- A position is unlinked by the simple-declaration loop exactly when it holds
a simple declaration and a later sibling has the same kind and content. -/
theorem mem_strip_simple_nodes_unlinked (s : Scope) (n : Nat) :
    n ∈ (strip_simple_nodes s).unlinked ↔
      n ∈ s.unlinked ∨
        (n < s.nodes.length ∧ is_simple_node (node_at s.nodes n) = true ∧
          (s.nodes.drop (n + 1)).any (same_kind_and_content (node_at s.nodes n)) = true) := by
  have hc : IsComparison (fun a b => node_compare_func (node_at s.nodes a) (node_at s.nodes b)) :=
    node_compare_func_isComparison.comap (node_at s.nodes)
  unfold strip_simple_nodes
  rw [walk_unlink_unlinked s.nodes _ s rfl (g_slist_sort_sorted hc _)
    ((g_slist_sort_perm _ _).nodup_iff.2 (collect_candidates_nodup _ _)) n]
  rw [find?_g_slist_sort hc, (g_slist_sort_perm _ _).mem_iff]
  apply or_congr Iff.rfl
  constructor
  · rintro ⟨hmem, hfind⟩
    have hfind' := (find?_ne_self_iff_of_decreasing _ (collect_candidates_decreasing _ _)
      _ n hmem (by simp [(node_compare_func_eq_zero _ _).2 ⟨rfl, rfl⟩])).1 hfind
    rw [mem_collect_candidates] at hmem
    refine ⟨hmem.1, hmem.2, ?_⟩
    obtain ⟨j, hj, hlt, hp⟩ := hfind'
    rw [mem_collect_candidates] at hj
    rw [List.any_eq_true]
    refine ⟨node_at s.nodes j, ?_, ?_⟩
    · rw [List.mem_drop_iff_getElem]
      refine ⟨j - (n + 1), by omega, ?_⟩
      have e : n + 1 + (j - (n + 1)) = j := by omega
      simp only [e]
      exact (node_at_of_lt hj.1).symm
    · rw [same_kind_and_content_symm, same_kind_and_content_iff]
      simpa using hp
  · rintro ⟨hlt, hsimple, hany⟩
    have hmem : n ∈ collect_candidates is_simple_kind s.nodes :=
      (mem_collect_candidates _ _ _).2 ⟨hlt, hsimple⟩
    refine ⟨hmem, ?_⟩
    rw [find?_ne_self_iff_of_decreasing _ (collect_candidates_decreasing _ _)
      _ n hmem (by simp [(node_compare_func_eq_zero _ _).2 ⟨rfl, rfl⟩])]
    rw [List.any_eq_true] at hany
    obtain ⟨x, hx, hsame⟩ := hany
    rw [List.mem_drop_iff_getElem] at hx
    obtain ⟨i, hi, hxi⟩ := hx
    have hj : n + 1 + i < s.nodes.length := by omega
    refine ⟨n + 1 + i, ?_, by omega, ?_⟩
    · rw [mem_collect_candidates]
      refine ⟨hj, ?_⟩
      rw [node_at_of_lt hj, hxi]
      have := (node_compare_func_eq_zero _ _).1 ((same_kind_and_content_iff _ _).1 hsame)
      rw [← this.1]
      exact hsimple
    · rw [node_at_of_lt hj, hxi]
      rw [same_kind_and_content_symm, same_kind_and_content_iff] at hsame
      simpa using hsame

/-! ## Effect of the Menu loop -/

theorem node_at_set (nodes : List MenuNode) (i j : Nat) (a : MenuNode) :
    node_at (nodes.set i a) j =
      if i = j ∧ i < nodes.length then a else node_at nodes j := by
  simp only [node_at, List.getD_eq_getElem?_getD, List.getElem?_set]
  by_cases h : i = j
  · subst h
    by_cases h' : i < nodes.length
    · simp [h']
    · simp [h', List.getElem?_eq_none (Nat.le_of_not_lt h')]
  · simp [h]

theorem node_at_of_le {nodes : List MenuNode} {i : Nat} (h : nodes.length ≤ i) :
    node_at nodes i = .mk MENU_NODE_PASSTHROUGH none [] := by
  simp [node_at, List.getD_eq_getElem?_getD, List.getElem?_eq_none h]

theorem move_children_fst (a b : MenuNode) :
    (move_children a b).1 = menu_node_with_children a [] := by
  unfold move_children
  split <;> rfl

theorem move_children_snd_type (a b : MenuNode) :
    menu_node_get_type (move_children a b).2 = menu_node_get_type b := by
  unfold move_children
  split <;> simp

theorem move_children_snd_content (a b : MenuNode) :
    menu_node_get_content (move_children a b).2 = menu_node_get_content b := by
  unfold move_children
  split <;> simp

theorem move_children_snd_children (a b : MenuNode) (g : MenuNode)
    (h : g ∈ menu_node_get_children (move_children a b).2) :
    g ∈ menu_node_get_children a ∨ g ∈ menu_node_get_children b := by
  unfold move_children at h
  split at h
  · exact Or.inr h
  · rename_i x xs hb
    simp only [menu_node_get_children_with_children, List.mem_append] at h
    rcases h with h | h
    · exact Or.inl h
    · exact Or.inr (hb ▸ h)

/-- What a single step of the Menu loop keeps: the number of positions, and at
every position the kind and the content of the node; the children of every
node afterwards are children of nodes before; the nodes at other positions. -/
theorem coalesce_if_equal_length (s : Scope) (p n : Nat) :
    (coalesce_if_equal s p n).nodes.length = s.nodes.length := by
  unfold coalesce_if_equal
  split <;> simp

theorem coalesce_if_equal_type (s : Scope) (p n i : Nat) :
    menu_node_get_type (node_at (coalesce_if_equal s p n).nodes i) =
      menu_node_get_type (node_at s.nodes i) := by
  unfold coalesce_if_equal
  split
  · simp only [node_at_set, List.length_set]
    split
    · rename_i h; rw [move_children_snd_type, h.1]
    · split
      · rename_i h; rw [move_children_fst, menu_node_get_type_with_children, h.1]
      · rfl
  · rfl

theorem coalesce_if_equal_content (s : Scope) (p n i : Nat) :
    menu_node_get_content (node_at (coalesce_if_equal s p n).nodes i) =
      menu_node_get_content (node_at s.nodes i) := by
  unfold coalesce_if_equal
  split
  · simp only [node_at_set, List.length_set]
    split
    · rename_i h; rw [move_children_snd_content, h.1]
    · split
      · rename_i h; rw [move_children_fst, menu_node_get_content_with_children, h.1]
      · rfl
  · rfl

theorem coalesce_if_equal_other (s : Scope) (p n i : Nat) (hp : i ≠ p) (hn : i ≠ n) :
    node_at (coalesce_if_equal s p n).nodes i = node_at s.nodes i := by
  unfold coalesce_if_equal
  split
  · simp [node_at_set, Ne.symm hp, Ne.symm hn]
  · rfl

theorem coalesce_if_equal_children (s : Scope) (p n i : Nat) (g : MenuNode)
    (h : g ∈ menu_node_get_children (node_at (coalesce_if_equal s p n).nodes i)) :
    ∃ j, g ∈ menu_node_get_children (node_at s.nodes j) := by
  unfold coalesce_if_equal at h
  split at h
  · simp only [node_at_set, List.length_set] at h
    split at h
    · rcases move_children_snd_children _ _ g h with h' | h'
      · exact ⟨n, h'⟩
      · exact ⟨p, h'⟩
    · split at h
      · rw [move_children_fst, menu_node_get_children_with_children] at h
        simp at h
      · exact ⟨i, h⟩
  · exact ⟨i, h⟩

theorem coalesce_if_equal_unlinked (s : Scope) (p n i : Nat) :
    i ∈ (coalesce_if_equal s p n).unlinked ↔
      i ∈ s.unlinked ∨
        (i = n ∧ node_compare_func (node_at s.nodes p) (node_at s.nodes n) = 0) := by
  unfold coalesce_if_equal
  split
  · rename_i h
    simp [h, or_comm]
  · rename_i h
    simp [h]

theorem walk_coalesce_length (prev : Option Nat) (l : List Nat) (s : Scope) :
    (walk_adjacent coalesce_if_equal prev l s).nodes.length = s.nodes.length := by
  induction l generalizing prev s with
  | nil => cases prev <;> rfl
  | cons t rest ih =>
    cases prev with
    | none => simp only [walk_adjacent, ih]
    | some p => simp only [walk_adjacent, ih, coalesce_if_equal_length]

theorem walk_coalesce_type (prev : Option Nat) (l : List Nat) (s : Scope) (i : Nat) :
    menu_node_get_type (node_at (walk_adjacent coalesce_if_equal prev l s).nodes i) =
      menu_node_get_type (node_at s.nodes i) := by
  induction l generalizing prev s with
  | nil => cases prev <;> rfl
  | cons t rest ih =>
    cases prev with
    | none => simp only [walk_adjacent, ih]
    | some p => simp only [walk_adjacent, ih, coalesce_if_equal_type]

theorem walk_coalesce_content (prev : Option Nat) (l : List Nat) (s : Scope) (i : Nat) :
    menu_node_get_content (node_at (walk_adjacent coalesce_if_equal prev l s).nodes i) =
      menu_node_get_content (node_at s.nodes i) := by
  induction l generalizing prev s with
  | nil => cases prev <;> rfl
  | cons t rest ih =>
    cases prev with
    | none => simp only [walk_adjacent, ih]
    | some p => simp only [walk_adjacent, ih, coalesce_if_equal_content]

theorem walk_coalesce_other (prev : Option Nat) (l : List Nat) (s : Scope) (i : Nat)
    (hp : prev ≠ some i) (hl : i ∉ l) :
    node_at (walk_adjacent coalesce_if_equal prev l s).nodes i = node_at s.nodes i := by
  induction l generalizing prev s with
  | nil => cases prev <;> rfl
  | cons t rest ih =>
    have ht : i ≠ t := fun h => hl (h ▸ List.mem_cons_self _ _)
    have hrest : i ∉ rest := fun h => hl (List.mem_cons_of_mem _ h)
    cases prev with
    | none =>
      simp only [walk_adjacent]
      exact ih (some t) s (by simpa using Ne.symm ht) hrest
    | some p =>
      simp only [walk_adjacent]
      rw [ih (some t) _ (by simpa using Ne.symm ht) hrest]
      exact coalesce_if_equal_other s p t i (fun h => hp (by rw [h])) ht

theorem walk_coalesce_children (prev : Option Nat) (l : List Nat) (s : Scope) (i : Nat)
    (g : MenuNode)
    (h : g ∈ menu_node_get_children (node_at (walk_adjacent coalesce_if_equal prev l s).nodes i)) :
    ∃ j, g ∈ menu_node_get_children (node_at s.nodes j) := by
  induction l generalizing prev s i with
  | nil => cases prev <;> exact ⟨i, h⟩
  | cons t rest ih =>
    cases prev with
    | none => exact ih (some t) s i h
    | some p =>
      obtain ⟨j, hj⟩ := ih (some t) _ i h
      exact coalesce_if_equal_children s p t j g hj

theorem walk_coalesce_unlinked_mono (prev : Option Nat) (l : List Nat) (s : Scope) (i : Nat)
    (h : i ∈ s.unlinked) : i ∈ (walk_adjacent coalesce_if_equal prev l s).unlinked := by
  induction l generalizing prev s with
  | nil => cases prev <;> exact h
  | cons t rest ih =>
    cases prev with
    | none => exact ih (some t) s h
    | some p => exact ih (some t) _ ((coalesce_if_equal_unlinked s p t i).2 (Or.inl h))

theorem walk_coalesce_unlinked_mem (prev : Option Nat) (l : List Nat) (s : Scope) (i : Nat)
    (h : i ∈ (walk_adjacent coalesce_if_equal prev l s).unlinked) :
    i ∈ s.unlinked ∨ i ∈ l := by
  induction l generalizing prev s with
  | nil => cases prev <;> exact Or.inl h
  | cons t rest ih =>
    cases prev with
    | none =>
      rcases ih (some t) s h with h' | h'
      · exact Or.inl h'
      · exact Or.inr (List.mem_cons_of_mem _ h')
    | some p =>
      rcases ih (some t) _ h with h' | h'
      · rcases (coalesce_if_equal_unlinked s p t i).1 h' with h'' | ⟨h'', -⟩
        · exact Or.inl h''
        · exact Or.inr (h'' ▸ List.mem_cons_self _ _)
      · exact Or.inr (List.mem_cons_of_mem _ h')

/-! ## Selections by position -/

theorem linked_children_eq_select (s : Scope) :
    s.linked_children = select_by_position (fun i _ => decide (i ∉ s.unlinked)) s.nodes := rfl

@[simp] theorem node_at_cons_zero (x : MenuNode) (xs : List MenuNode) :
    node_at (x :: xs) 0 = x := rfl

@[simp] theorem node_at_cons_succ (x : MenuNode) (xs : List MenuNode) (i : Nat) :
    node_at (x :: xs) (i + 1) = node_at xs i := rfl

theorem select_by_position_nil (keep : Nat → MenuNode → Bool) :
    select_by_position keep [] = [] := rfl

theorem select_by_position_cons (keep : Nat → MenuNode → Bool) (x : MenuNode)
    (xs : List MenuNode) :
    select_by_position keep (x :: xs) =
      (if keep 0 x then [x] else []) ++ select_by_position (fun i => keep (i + 1)) xs := by
  unfold select_by_position
  rw [List.enum_cons', List.filter_cons]
  have : List.map Prod.snd (List.filter (fun child => keep child.1 child.2)
      (List.map (Prod.map (fun x => x + 1) id) xs.enum)) =
      List.map Prod.snd (List.filter (fun child => keep (child.1 + 1) child.2) xs.enum) := by
    rw [List.filter_map, List.map_map]
    congr 1
  split <;> simp [this]

theorem filter_select_by_position (q : MenuNode → Bool) (keep : Nat → MenuNode → Bool)
    (nodes : List MenuNode) :
    (select_by_position keep nodes).filter q =
      select_by_position (fun i x => keep i x && q x) nodes := by
  induction nodes generalizing keep with
  | nil => rfl
  | cons x xs ih =>
    rw [select_by_position_cons, select_by_position_cons, List.filter_append, ih]
    congr 1
    by_cases h1 : keep 0 x = true <;> by_cases h2 : q x = true <;> simp [h1, h2]

theorem select_by_position_congr (k1 k2 : Nat → MenuNode → Bool) (xs ys : List MenuNode)
    (hlen : xs.length = ys.length)
    (h : ∀ i, i < xs.length →
      k1 i (node_at xs i) = k2 i (node_at ys i) ∧
        (k1 i (node_at xs i) = true → node_at xs i = node_at ys i)) :
    select_by_position k1 xs = select_by_position k2 ys := by
  induction xs generalizing ys k1 k2 with
  | nil =>
    cases ys with
    | nil => rfl
    | cons y ys => simp at hlen
  | cons x xs ih =>
    cases ys with
    | nil => simp at hlen
    | cons y ys =>
      rw [select_by_position_cons, select_by_position_cons]
      have h0 := h 0 (by simp)
      simp only [node_at_cons_zero] at h0
      have htail := ih (fun i => k1 (i + 1)) (fun i => k2 (i + 1)) ys (by simpa using hlen)
        (fun i hi => by
          have := h (i + 1) (by simpa using hi)
          simpa using this)
      rw [htail]
      congr 1
      by_cases hk : k1 0 x = true
      · rw [← h0.1, h0.2 hk]
      · have hk' : k1 0 x = false := by simpa using hk
        rw [← h0.1, hk']
        simp

theorem mem_select_by_position (keep : Nat → MenuNode → Bool) (nodes : List MenuNode)
    (x : MenuNode) :
    x ∈ select_by_position keep nodes ↔
      ∃ i, i < nodes.length ∧ node_at nodes i = x ∧ keep i x = true := by
  induction nodes generalizing keep with
  | nil => simp [select_by_position_nil]
  | cons y ys ih =>
    rw [select_by_position_cons, List.mem_append, ih]
    constructor
    · rintro (h | ⟨i, hi, hx, hk⟩)
      · by_cases hk : keep 0 y = true
        · simp only [hk, if_true, List.mem_singleton] at h
          exact ⟨0, by simp, by simp [h], by rw [h]; exact hk⟩
        · simp [hk] at h
      · exact ⟨i + 1, by simpa using hi, by simpa using hx, hk⟩
    · rintro ⟨i, hi, hx, hk⟩
      cases i with
      | zero =>
        left
        simp only [node_at_cons_zero] at hx
        subst hx
        simp [hk]
      | succ j =>
        right
        exact ⟨j, by simpa using hi, by simpa using hx, hk⟩

theorem select_by_position_pairwise (R : MenuNode → MenuNode → Prop)
    (keep : Nat → MenuNode → Bool) (nodes : List MenuNode)
    (h : ∀ i j, i < j → j < nodes.length → keep i (node_at nodes i) = true →
      keep j (node_at nodes j) = true → R (node_at nodes i) (node_at nodes j)) :
    (select_by_position keep nodes).Pairwise R := by
  induction nodes generalizing keep with
  | nil => simp [select_by_position_nil]
  | cons y ys ih =>
    rw [select_by_position_cons]
    have htail : (select_by_position (fun i => keep (i + 1)) ys).Pairwise R :=
      ih (fun i => keep (i + 1)) (fun i j hij hj hi' hj' => by
        have := h (i + 1) (j + 1) (by omega) (by simpa using hj) (by simpa using hi')
          (by simpa using hj')
        simpa using this)
    by_cases hk : keep 0 y = true
    · simp only [hk, if_true, List.singleton_append]
      refine List.Pairwise.cons ?_ htail
      intro z hz
      rw [mem_select_by_position] at hz
      obtain ⟨i, hi, hz, hkz⟩ := hz
      have := h 0 (i + 1) (by omega) (by simpa using hi) (by simpa using hk)
        (by simp only [node_at_cons_succ]; rw [hz]; exact hkz)
      simpa [hz] using this
    · simp [hk, htail]

/-! ## Last declaration wins -/

theorem keep_last_declared_sublist (l : List MenuNode) : (keep_last_declared l).Sublist l := by
  induction l with
  | nil => exact List.Sublist.refl _
  | cons x xs ih =>
    simp only [keep_last_declared]
    split
    · exact ih.cons x
    · exact ih.cons₂ x

theorem keep_last_declared_pairwise (l : List MenuNode) :
    (keep_last_declared l).Pairwise
      (fun a b => ¬ (menu_node_get_type a = menu_node_get_type b ∧
        menu_node_get_content a = menu_node_get_content b)) := by
  induction l with
  | nil => exact List.Pairwise.nil
  | cons x xs ih =>
    simp only [keep_last_declared]
    split
    · exact ih
    · rename_i hany
      refine List.Pairwise.cons ?_ ih
      intro y hy hxy
      apply hany
      rw [List.any_eq_true]
      exact ⟨y, (keep_last_declared_sublist xs).subset hy, by
        simp [same_kind_and_content, hxy.1, hxy.2]⟩

theorem select_keep_last_declared (cs : List MenuNode) :
    select_by_position
        (fun i x => is_simple_node x && !(cs.drop (i + 1)).any (same_kind_and_content x)) cs =
      keep_last_declared (cs.filter is_simple_node) := by
  induction cs with
  | nil => rfl
  | cons x rest ih =>
    rw [select_by_position_cons]
    simp only [List.drop_succ_cons, List.drop_zero, Nat.zero_add]
    rw [ih, List.filter_cons]
    by_cases hs : is_simple_node x = true
    · have hany : (rest.filter is_simple_node).any (same_kind_and_content x) =
          rest.any (same_kind_and_content x) := by
        rw [Bool.eq_iff_iff, List.any_eq_true, List.any_eq_true]
        constructor
        · rintro ⟨y, hy, hxy⟩
          exact ⟨y, (List.mem_filter.1 hy).1, hxy⟩
        · rintro ⟨y, hy, hxy⟩
          refine ⟨y, List.mem_filter.2 ⟨hy, ?_⟩, hxy⟩
          have := (node_compare_func_eq_zero _ _).1 ((same_kind_and_content_iff _ _).1 hxy)
          simp only [is_simple_node] at hs ⊢
          rw [← this.1]; exact hs
      simp only [hs, if_true, keep_last_declared, hany, Bool.true_and]
      by_cases ha : rest.any (same_kind_and_content x) = true
      · simp [ha]
      · simp [ha]
    · simp [hs]

/-! ## Effect of the two loops on a scope -/

theorem mem_menu_candidates (s : Scope) (i : Nat) :
    i ∈ g_slist_sort (collect_candidates is_menu_kind s.nodes)
        (fun a b => node_menu_compare_func (node_at s.nodes a) (node_at s.nodes b)) ↔
      i < s.nodes.length ∧ is_menu_node (node_at s.nodes i) = true := by
  rw [(g_slist_sort_perm _ _).mem_iff, mem_collect_candidates]
  rfl

theorem strip_menu_nodes_length (s : Scope) :
    (strip_menu_nodes s).nodes.length = s.nodes.length :=
  walk_coalesce_length _ _ _

theorem strip_menu_nodes_type (s : Scope) (i : Nat) :
    menu_node_get_type (node_at (strip_menu_nodes s).nodes i) =
      menu_node_get_type (node_at s.nodes i) :=
  walk_coalesce_type _ _ _ _

theorem strip_menu_nodes_content (s : Scope) (i : Nat) :
    menu_node_get_content (node_at (strip_menu_nodes s).nodes i) =
      menu_node_get_content (node_at s.nodes i) :=
  walk_coalesce_content _ _ _ _

theorem strip_menu_nodes_other (s : Scope) (i : Nat)
    (h : is_menu_node (node_at s.nodes i) = false) :
    node_at (strip_menu_nodes s).nodes i = node_at s.nodes i := by
  apply walk_coalesce_other
  · simp
  · rw [mem_menu_candidates]
    simp [h]

theorem strip_menu_nodes_unlinked_other (s : Scope) (i : Nat)
    (h : is_menu_node (node_at s.nodes i) = false) :
    i ∈ (strip_menu_nodes s).unlinked ↔ i ∈ s.unlinked := by
  constructor
  · intro hi
    rcases walk_coalesce_unlinked_mem _ _ _ _ hi with h' | h'
    · exact h'
    · rw [mem_menu_candidates] at h'
      simp [h] at h'
  · exact walk_coalesce_unlinked_mono _ _ _ _

theorem strip_menu_nodes_children (s : Scope) (i : Nat) (g : MenuNode)
    (h : g ∈ menu_node_get_children (node_at (strip_menu_nodes s).nodes i)) :
    ∃ c ∈ s.nodes, g ∈ menu_node_get_children c := by
  obtain ⟨j, hj⟩ := walk_coalesce_children _ _ _ _ _ h
  by_cases hlt : j < s.nodes.length
  · rw [node_at_of_lt hlt] at hj
    exact ⟨_, List.getElem_mem _, hj⟩
  · rw [node_at_of_le (Nat.le_of_not_lt hlt)] at hj
    simp at hj

theorem simple_not_menu (x : MenuNode) (h : is_simple_node x = true) :
    is_menu_node x = false := by
  cases x with
  | mk t c cs => cases t <;> simp_all [is_simple_node, is_menu_node, is_simple_kind, is_menu_kind]

/-- The simple declarations a scope is left with by the two loops are the
original ones without those repeated by a later sibling. -/
theorem strip_scope_simple (cs : List MenuNode) :
    (strip_scope cs).filter is_simple_node = keep_last_declared (cs.filter is_simple_node) := by
  unfold strip_scope
  rw [linked_children_eq_select, filter_select_by_position, ← select_keep_last_declared]
  have hnodes : (strip_simple_nodes { nodes := cs, unlinked := [] }).nodes = cs :=
    strip_simple_nodes_nodes _
  apply select_by_position_congr
  · rw [strip_menu_nodes_length, hnodes]
  · intro i hi
    rw [strip_menu_nodes_length, hnodes] at hi
    have htype := strip_menu_nodes_type (strip_simple_nodes { nodes := cs, unlinked := [] }) i
    rw [hnodes] at htype
    have hsimple : is_simple_node
        (node_at (strip_menu_nodes (strip_simple_nodes { nodes := cs, unlinked := [] })).nodes i) =
        is_simple_node (node_at cs i) := by
      simp only [is_simple_node, htype]
    by_cases hs : is_simple_node (node_at cs i) = true
    · have hm : is_menu_node
          (node_at (strip_simple_nodes { nodes := cs, unlinked := [] }).nodes i) = false := by
        rw [hnodes]; exact simple_not_menu _ hs
      have hsame := strip_menu_nodes_other _ i hm
      rw [hnodes] at hsame
      have hunl := strip_menu_nodes_unlinked_other _ i hm
      rw [mem_strip_simple_nodes_unlinked] at hunl
      simp only [List.not_mem_nil, false_or] at hunl
      refine ⟨?_, fun _ => hsame⟩
      rw [hsame, hs, Bool.and_true, Bool.true_and]
      rw [Bool.eq_iff_iff]
      simp only [decide_eq_true_eq, hunl, hi, hs, true_and, Bool.not_eq_true', Bool.not_eq_true]
    · have hs' : is_simple_node (node_at cs i) = false := by simpa using hs
      constructor
      · rw [hsimple, hs']; simp
      · rw [hsimple, hs']; simp

theorem mem_strip_scope (cs : List MenuNode) (x : MenuNode) (h : x ∈ strip_scope cs) :
    ∃ c ∈ cs, menu_node_get_type x = menu_node_get_type c ∧
      menu_node_get_content x = menu_node_get_content c ∧
      ∀ g ∈ menu_node_get_children x, ∃ c' ∈ cs, g ∈ menu_node_get_children c' := by
  unfold strip_scope at h
  rw [linked_children_eq_select, mem_select_by_position] at h
  obtain ⟨i, hi, hx, -⟩ := h
  have hnodes : (strip_simple_nodes { nodes := cs, unlinked := [] }).nodes = cs :=
    strip_simple_nodes_nodes _
  rw [strip_menu_nodes_length, hnodes] at hi
  refine ⟨cs[i], List.getElem_mem _, ?_, ?_, ?_⟩
  · rw [← hx, strip_menu_nodes_type, hnodes, node_at_of_lt hi]
  · rw [← hx, strip_menu_nodes_content, hnodes, node_at_of_lt hi]
  · intro g hg
    rw [← hx] at hg
    have := strip_menu_nodes_children _ i g hg
    rw [hnodes] at this
    exact this

/-! ## The recursive pass -/

theorem every_menu_scope_iff (P : List MenuNode → Prop) (l : List MenuNode) :
    every_menu_scope P l ↔
      ∀ c ∈ l, menu_node_get_type c = MENU_NODE_MENU → every_scope P c := by
  induction l with
  | nil => simp [every_menu_scope]
  | cons x xs ih => simp [every_menu_scope, ih]

theorem every_scope_iff (P : List MenuNode → Prop) (node : MenuNode) :
    every_scope P node ↔
      P (menu_node_get_children node) ∧
        ∀ c ∈ menu_node_get_children node,
          menu_node_get_type c = MENU_NODE_MENU → every_scope P c := by
  cases node with
  | mk t c cs => simp [every_scope, every_menu_scope_iff]

theorem nodes_height_le_iff (l : List MenuNode) (n : Nat) :
    nodes_height l ≤ n ↔ ∀ c ∈ l, node_height c ≤ n := by
  induction l with
  | nil => simp [nodes_height]
  | cons x xs ih => simp [nodes_height, ih]

theorem node_height_eq (node : MenuNode) :
    node_height node = nodes_height (menu_node_get_children node) + 1 := by
  cases node; simp [node_height]

theorem strip_duplicate_children_type (levels : Nat) (node : MenuNode) :
    menu_node_get_type (strip_duplicate_children levels node) = menu_node_get_type node := by
  cases levels <;> simp [strip_duplicate_children]

theorem strip_duplicate_children_succ (levels : Nat) (node : MenuNode) :
    menu_node_get_children (strip_duplicate_children (levels + 1) node) =
      (strip_scope (menu_node_get_children node)).map
        (fun child =>
          if menu_node_get_type child = MENU_NODE_MENU then
            strip_duplicate_children levels child
          else child) := by
  simp [strip_duplicate_children]

theorem filter_simple_map_descend (levels : Nat) (l : List MenuNode) :
    (l.map (fun child =>
        if menu_node_get_type child = MENU_NODE_MENU then
          strip_duplicate_children levels child
        else child)).filter is_simple_node = l.filter is_simple_node := by
  induction l with
  | nil => rfl
  | cons x xs ih =>
    simp only [List.map_cons, List.filter_cons]
    by_cases hm : menu_node_get_type x = MENU_NODE_MENU
    · have h1 : is_simple_node x = false := by
        simp [is_simple_node, is_simple_kind, hm]
      have h2 : is_simple_node (strip_duplicate_children levels x) = false := by
        simp [is_simple_node, is_simple_kind, strip_duplicate_children_type, hm]
      simp only [hm, if_true, h1, h2, ih]
      simp
    · simp only [hm, if_false, ih]

theorem strip_levels_simple (levels : Nat) (node : MenuNode) :
    (menu_node_get_children (strip_duplicate_children (levels + 1) node)).filter is_simple_node =
      keep_last_declared ((menu_node_get_children node).filter is_simple_node) := by
  rw [strip_duplicate_children_succ, filter_simple_map_descend, strip_scope_simple]

theorem strip_scope_height (cs : List MenuNode) (n : Nat) (h : nodes_height cs ≤ n)
    (x : MenuNode) (hx : x ∈ strip_scope cs) : node_height x ≤ n := by
  obtain ⟨c, hc, -, -, hch⟩ := mem_strip_scope cs x hx
  rw [node_height_eq]
  cases n with
  | zero =>
    have := (nodes_height_le_iff cs 0).1 h c hc
    rw [node_height_eq] at this
    omega
  | succ m =>
    apply Nat.succ_le_succ
    rw [nodes_height_le_iff]
    intro g hg
    obtain ⟨c', hc', hg'⟩ := hch g hg
    have h1 := (nodes_height_le_iff cs (m + 1)).1 h c' hc'
    rw [node_height_eq] at h1
    have h2 := (nodes_height_le_iff (menu_node_get_children c') m).1 (by omega) g hg'
    exact h2

theorem strip_levels_no_duplicate_simple (levels : Nat) (node : MenuNode)
    (h : node_height node ≤ levels) :
    every_scope no_duplicate_simple_nodes (strip_duplicate_children levels node) := by
  induction levels generalizing node with
  | zero =>
    rw [node_height_eq] at h
    omega
  | succ k ih =>
    rw [every_scope_iff]
    constructor
    · unfold no_duplicate_simple_nodes
      rw [strip_levels_simple]
      exact keep_last_declared_pairwise _
    · intro c hc hmenu
      rw [strip_duplicate_children_succ, List.mem_map] at hc
      obtain ⟨x, hx, hxc⟩ := hc
      have hheight : node_height x ≤ k := by
        apply strip_scope_height _ k _ x hx
        rw [node_height_eq] at h
        omega
      by_cases hm : menu_node_get_type x = MENU_NODE_MENU
      · simp only [hm, if_true] at hxc
        rw [← hxc]
        exact ih x hheight
      · simp only [hm, if_false] at hxc
        rw [← hxc] at hmenu
        exact absurd hmenu hm

theorem node_height_pos (node : MenuNode) : 0 < node_height node := by
  rw [node_height_eq]; omega

/-! ## The pass as the C program runs it -/

/-- When the walk of the C program reads no deleted node, it leaves what
`walk_adjacent` leaves. -/
theorem walk_adjacent_checked_finished (body : Scope → Nat → Nat → Scope)
    (prev : Option Nat) (list : List Nat) (s result : Scope)
    (h : walk_adjacent_checked body prev list s = .finished result) :
    result = walk_adjacent body prev list s := by
  induction list generalizing prev s with
  | nil =>
    cases prev <;>
      · rw [walk_adjacent_checked] at h
        injection h with h
        rw [walk_adjacent, h]
  | cons tmp rest ih =>
    cases prev with
    | none =>
      rw [walk_adjacent_checked] at h
      rw [walk_adjacent]
      exact ih _ _ h
    | some p =>
      rw [walk_adjacent_checked] at h
      rw [walk_adjacent]
      split at h
      · exact Stripped.noConfusion h
      · exact ih _ _ h

theorem strip_scope_checked_finished (children result : List MenuNode)
    (h : strip_scope_checked children = .finished result) :
    result = strip_scope children := by
  unfold strip_scope_checked at h
  unfold strip_scope
  cases h1 : strip_simple_nodes_checked { nodes := children, unlinked := [] } with
  | read_after_unlink => rw [h1] at h; exact Stripped.noConfusion h
  | finished simple_done =>
    rw [h1] at h
    simp only [] at h
    have e1 : simple_done = strip_simple_nodes { nodes := children, unlinked := [] } :=
      walk_adjacent_checked_finished _ _ _ _ _ h1
    cases h2 : strip_menu_nodes_checked simple_done with
    | read_after_unlink => rw [h2] at h; exact Stripped.noConfusion h
    | finished menus_done =>
      rw [h2] at h
      simp only [] at h
      injection h with h
      have e2 : menus_done = strip_menu_nodes simple_done :=
        walk_adjacent_checked_finished _ _ _ _ _ h2
      rw [← h, e2, e1]

theorem strip_menu_children_checked_finished (recurse : MenuNode → Stripped MenuNode)
    (descend : MenuNode → MenuNode)
    (hrec : ∀ child done, recurse child = .finished done → done = descend child)
    (children result : List MenuNode)
    (h : strip_menu_children_checked recurse children = .finished result) :
    result = children.map
      (fun child => if menu_node_get_type child = MENU_NODE_MENU then descend child else child) := by
  induction children generalizing result with
  | nil =>
    rw [strip_menu_children_checked] at h
    injection h with h
    rw [← h]
    rfl
  | cons child next ih =>
    rw [strip_menu_children_checked] at h
    by_cases hm : menu_node_get_type child = MENU_NODE_MENU
    · rw [if_pos hm] at h
      cases hc : recurse child with
      | read_after_unlink => rw [hc] at h; exact Stripped.noConfusion h
      | finished child_done =>
        rw [hc] at h
        simp only [] at h
        cases hn : strip_menu_children_checked recurse next with
        | read_after_unlink => rw [hn] at h; exact Stripped.noConfusion h
        | finished next_done =>
          rw [hn] at h
          simp only [] at h
          injection h with h
          rw [← h, List.map_cons, if_pos hm, ← ih _ hn, hrec _ _ hc]
    · rw [if_neg hm] at h
      cases hn : strip_menu_children_checked recurse next with
      | read_after_unlink => rw [hn] at h; exact Stripped.noConfusion h
      | finished next_done =>
        rw [hn] at h
        simp only [] at h
        injection h with h
        rw [← h, List.map_cons, if_neg hm, ← ih _ hn]

theorem strip_duplicate_children_checked_levels (levels : Nat) (node result : MenuNode)
    (h : strip_duplicate_children_checked levels node = .finished result) :
    result = strip_duplicate_children levels node := by
  induction levels generalizing node result with
  | zero =>
    rw [strip_duplicate_children_checked] at h
    injection h with h
    rw [← h, strip_duplicate_children]
  | succ levels ih =>
    rw [strip_duplicate_children_checked] at h
    rw [strip_duplicate_children]
    cases hs : strip_scope_checked (menu_node_get_children node) with
    | read_after_unlink => rw [hs] at h; exact Stripped.noConfusion h
    | finished children =>
      rw [hs] at h
      simp only [] at h
      cases hc : strip_menu_children_checked (strip_duplicate_children_checked levels)
          children with
      | read_after_unlink => rw [hc] at h; exact Stripped.noConfusion h
      | finished children_done =>
        rw [hc] at h
        simp only [] at h
        injection h with h
        rw [← h, strip_menu_children_checked_finished _ (strip_duplicate_children levels)
          (fun child done hd => ih child done hd) _ _ hc,
          strip_scope_checked_finished _ _ hs]

/-- When the pass as the C program runs it reads no deleted node, it leaves the
tree `menu_node_strip_duplicate_children` describes. -/
theorem menu_node_strip_duplicate_children_checked_finished (node result : MenuNode)
    (h : menu_node_strip_duplicate_children_checked node = .finished result) :
    result = menu_node_strip_duplicate_children node :=
  strip_duplicate_children_checked_levels _ _ _ h

/-- When the pass as the C program runs it reads no deleted node, no two simple
declarations of a scope are left with equal (kind, content), and those of the
top scope are the original ones without those repeated by a later sibling. -/
theorem strip_checked_finished_simple_nodes (node result : MenuNode)
    (h : menu_node_strip_duplicate_children_checked node = .finished result) :
    every_scope no_duplicate_simple_nodes result ∧
      (menu_node_get_children result).filter is_simple_node =
        keep_last_declared ((menu_node_get_children node).filter is_simple_node) := by
  rw [menu_node_strip_duplicate_children_checked_finished node result h]
  refine ⟨strip_levels_no_duplicate_simple _ node (Nat.le_refl _), ?_⟩
  unfold menu_node_strip_duplicate_children
  obtain ⟨k, hk⟩ := Nat.exists_eq_succ_of_ne_zero (Nat.pos_iff_ne_zero.1 (node_height_pos node))
  rw [hk]
  exact strip_levels_simple k node

/-! ## Duplicate stripping: the claims -/

/-- C4 (code evaluated at the failing input): `example_three_app_dirs` declares
the AppDir `/a` three times.  The sorted candidate list is positions 2, 1, 0.
The first comparison finds 2 and 1 equal and passes the node at position 1 to
`menu_node_unlink`; `prev` then advances to that node, and the next comparison
reads its kind and content after it has been deleted.  Whether the node at
position 0 is removed depends on what that memory holds, so the pass is not
bound to leave a single AppDir `/a`. -/
theorem strip_duplicate_children_reads_deleted_simple_node :
    g_slist_sort (collect_candidates is_simple_kind (menu_node_get_children example_three_app_dirs))
        (fun a b =>
          node_compare_func (node_at (menu_node_get_children example_three_app_dirs) a)
            (node_at (menu_node_get_children example_three_app_dirs) b)) = [2, 1, 0] ∧
      (unlink_if_equal
          { nodes := menu_node_get_children example_three_app_dirs, unlinked := [] } 2 1).unlinked =
        [1] ∧
      strip_simple_nodes_checked
          { nodes := menu_node_get_children example_three_app_dirs, unlinked := [] } =
        .read_after_unlink ∧
      menu_node_strip_duplicate_children_checked example_three_app_dirs = .read_after_unlink :=
  ⟨by decide, by decide, rfl, rfl⟩

/-- C5 (code evaluated at the failing input): the Menu `example_repeated_app_dirs`
declares the AppDir `/a` at positions 1, 3 and 4 and `/b` at position 2; with
last declaration wins the AppDir `/b` and the AppDir `/a` of position 4 would
be left.  The sorted candidate list is positions 4, 3, 1, 2.  The node at
position 3 is passed to `menu_node_unlink`, and the comparison that decides
whether the earliest declaration, at position 1, is deleted reads that node
after it has been deleted: which declarations survive is not determined. -/
theorem strip_duplicate_children_last_declaration_undetermined :
    keep_last_declared
        ((menu_node_get_children example_repeated_app_dirs).filter is_simple_node) =
        [.mk MENU_NODE_APP_DIR (some "/b") [], .mk MENU_NODE_APP_DIR (some "/a") []] ∧
      g_slist_sort
        (collect_candidates is_simple_kind (menu_node_get_children example_repeated_app_dirs))
        (fun a b =>
          node_compare_func (node_at (menu_node_get_children example_repeated_app_dirs) a)
            (node_at (menu_node_get_children example_repeated_app_dirs) b)) = [4, 3, 1, 2] ∧
      (unlink_if_equal
          { nodes := menu_node_get_children example_repeated_app_dirs, unlinked := [] }
          4 3).unlinked = [3] ∧
      menu_node_strip_duplicate_children_checked example_repeated_app_dirs =
        .read_after_unlink :=
  ⟨rfl, by decide, by decide, rfl⟩

/-- C6 (code evaluated at the failing input): the two Menus of
`example_text_menus` have the same name `A` and different text.  The loop over
the sorted Menu nodes tests `node_compare_func`, which compares the text and
not the name, so both Menus are left, and the scope has two sibling Menus of
equal name after the pass.  In `example_interleaved_menus`, where no Menu has
text, the earlier Menu `A` is passed to `menu_node_unlink` and then read, as
`prev`, in the comparison with the Menu `B`. -/
theorem strip_duplicate_children_leaves_menus_of_equal_name :
    menu_node_menu_get_name (node_at example_text_menus 0) = some "A" ∧
      menu_node_menu_get_name (node_at example_text_menus 1) = some "A" ∧
      menu_node_strip_duplicate_children_checked (.mk MENU_NODE_ROOT none example_text_menus) =
        .finished (.mk MENU_NODE_ROOT none example_text_menus) ∧
      ¬ no_duplicate_menu_names example_text_menus ∧
      menu_node_strip_duplicate_children_checked example_interleaved_menus =
        .read_after_unlink := by
  refine ⟨by decide, by decide, rfl, ?_, rfl⟩
  unfold no_duplicate_menu_names
  decide

/-- C7 (code evaluated at the failing input): the two Menu children of
`example_distinct_menus` have the different names `A` and `B`, and the pass
coalesces them all the same: the loop over the sorted Menu nodes tests
`node_compare_func`, which for two Menu nodes compares only their (absent)
text content.  Menu `B` is deleted and its children are put in front of the
children of Menu `A`. -/
theorem strip_duplicate_children_coalesces_distinct_names :
    menu_node_menu_get_name (example_menu "A" "one") ≠
        menu_node_menu_get_name (example_menu "B" "two") ∧
      menu_node_strip_duplicate_children example_distinct_menus =
        .mk MENU_NODE_ROOT none
          [.mk MENU_NODE_MENU none
            [.mk MENU_NODE_NAME (some "B") [],
             .mk MENU_NODE_INCLUDE none [.mk MENU_NODE_CATEGORY (some "two") []],
             .mk MENU_NODE_NAME (some "A") [],
             .mk MENU_NODE_INCLUDE none [.mk MENU_NODE_CATEGORY (some "one") []]]] :=
  ⟨by decide, rfl⟩

/-- C8 as stated fails: in `example_repeated_menu` the Menu `A` is declared at
positions 0 and 2.  The pass deletes the earlier declaration and keeps the
later one, in its place behind the AppDir, with the children of the earlier
declaration in front of its own; the claim describes the opposite (later
declaration deleted, its children first). -/
theorem coalesce_deletes_later_menu_counterexample :
    strip_scope example_repeated_menu =
        [.mk MENU_NODE_APP_DIR (some "/x") [],
         .mk MENU_NODE_MENU none
           [.mk MENU_NODE_NAME (some "A") [],
            .mk MENU_NODE_INCLUDE none [.mk MENU_NODE_CATEGORY (some "one") []],
            .mk MENU_NODE_NAME (some "A") [],
            .mk MENU_NODE_INCLUDE none [.mk MENU_NODE_CATEGORY (some "two") []]]] ∧
      strip_scope example_repeated_menu ≠
        [.mk MENU_NODE_MENU none
           [.mk MENU_NODE_NAME (some "A") [],
            .mk MENU_NODE_INCLUDE none [.mk MENU_NODE_CATEGORY (some "two") []],
            .mk MENU_NODE_NAME (some "A") [],
            .mk MENU_NODE_INCLUDE none [.mk MENU_NODE_CATEGORY (some "one") []]],
         .mk MENU_NODE_APP_DIR (some "/x") []] := by
  have h : strip_scope example_repeated_menu =
      [.mk MENU_NODE_APP_DIR (some "/x") [],
       .mk MENU_NODE_MENU none
         [.mk MENU_NODE_NAME (some "A") [],
          .mk MENU_NODE_INCLUDE none [.mk MENU_NODE_CATEGORY (some "one") []],
          .mk MENU_NODE_NAME (some "A") [],
          .mk MENU_NODE_INCLUDE none [.mk MENU_NODE_CATEGORY (some "two") []]]] := rfl
  refine ⟨h, ?_⟩
  rw [h]
  simp

theorem menu_candidates_of_two (cs : List MenuNode) (i j : Nat) (hij : i < j)
    (hj : j < cs.length)
    (hmenus : ∀ k, k < cs.length →
      (menu_node_get_type (node_at cs k) = MENU_NODE_MENU ↔ k = i ∨ k = j)) :
    collect_candidates is_menu_kind cs = [j, i] := by
  have hdec := collect_candidates_decreasing is_menu_kind cs
  have hmem : ∀ k, k ∈ collect_candidates is_menu_kind cs ↔ k ∈ [j, i] := by
    intro k
    rw [mem_collect_candidates]
    simp only [is_menu_kind, decide_eq_true_eq, List.mem_cons, List.mem_singleton,
      List.not_mem_nil, or_false]
    constructor
    · rintro ⟨hk, hm⟩
      exact ((hmenus k hk).1 hm).symm
    · intro hk
      have hlt : k < cs.length := by rcases hk with h | h <;> omega
      exact ⟨hlt, (hmenus k hlt).2 hk.symm⟩
  have hnd : (collect_candidates is_menu_kind cs).Nodup := collect_candidates_nodup _ _
  have hnd' : [j, i].Nodup := by simp; omega
  have hperm : (collect_candidates is_menu_kind cs).Perm [j, i] :=
    (List.perm_ext_iff_of_nodup hnd hnd').2 hmem
  have hdec' : [j, i].Pairwise (fun a b => b < a) := by simp; omega
  exact List.eq_of_perm_of_sorted (r := fun a b : Nat => b < a) hperm hdec hdec'

/-- The Menu loop on a scope whose only Menu children are at the positions
`i < j`, when the sort leaves the later one in front, both have equal content
and the later one has a child: the earlier one is unlinked and its children are
put in front of the children of the later one. -/
theorem strip_menu_nodes_two_menus (cs : List MenuNode) (unlinked : List Nat)
    (i j : Nat) (hij : i < j) (hj : j < cs.length)
    (hmenus : ∀ k, k < cs.length →
      (menu_node_get_type (node_at cs k) = MENU_NODE_MENU ↔ k = i ∨ k = j))
    (hsort : node_menu_compare_func (node_at cs j) (node_at cs i) ≤ 0)
    (hcontent : menu_node_get_content (node_at cs i) = menu_node_get_content (node_at cs j))
    (hchild : menu_node_get_children (node_at cs j) ≠ []) :
    strip_menu_nodes { nodes := cs, unlinked := unlinked } =
      { nodes := (cs.set i (menu_node_with_children (node_at cs i) [])).set j
          (menu_node_with_children (node_at cs j)
            (menu_node_get_children (node_at cs i) ++ menu_node_get_children (node_at cs j))),
        unlinked := i :: unlinked } := by
  have hti : menu_node_get_type (node_at cs i) = MENU_NODE_MENU :=
    (hmenus i (by omega)).2 (Or.inl rfl)
  have htj : menu_node_get_type (node_at cs j) = MENU_NODE_MENU :=
    (hmenus j hj).2 (Or.inr rfl)
  have hcmp : node_compare_func (node_at cs j) (node_at cs i) = 0 :=
    (node_compare_func_eq_zero _ _).2 ⟨by rw [hti, htj], hcontent.symm⟩
  have hmove : move_children (node_at cs i) (node_at cs j) =
      (menu_node_with_children (node_at cs i) [],
       menu_node_with_children (node_at cs j)
        (menu_node_get_children (node_at cs i) ++ menu_node_get_children (node_at cs j))) := by
    unfold move_children
    cases hc : menu_node_get_children (node_at cs j) with
    | nil => exact absurd hc hchild
    | cons x xs => rfl
  unfold strip_menu_nodes
  simp only [menu_candidates_of_two cs i j hij hj hmenus, g_slist_sort, List.foldr,
    insert_sorted, hsort, if_true, walk_adjacent, coalesce_if_equal, hcmp, hmove]

/-- C8 as amended: when a scope holds two Menu children, at positions `i < j`,
with equal name and equal content, and the later one has at least one child (as
every Menu with a Name has), the Menu loop coalesces them by unlinking the
earlier-declared node; the later-declared node stays in its place and its
child list becomes the children of the earlier-declared Menu followed by its
own children, each group in its original order. -/
theorem strip_menu_nodes_keeps_later_menu (cs : List MenuNode) (unlinked : List Nat)
    (i j : Nat) (hij : i < j) (hj : j < cs.length)
    (hmenus : ∀ k, k < cs.length →
      (menu_node_get_type (node_at cs k) = MENU_NODE_MENU ↔ k = i ∨ k = j))
    (hname : menu_node_menu_get_name (node_at cs i) = menu_node_menu_get_name (node_at cs j))
    (hcontent : menu_node_get_content (node_at cs i) = menu_node_get_content (node_at cs j))
    (hchild : menu_node_get_children (node_at cs j) ≠ []) :
    strip_menu_nodes { nodes := cs, unlinked := unlinked } =
      { nodes := (cs.set i (menu_node_with_children (node_at cs i) [])).set j
          (menu_node_with_children (node_at cs j)
            (menu_node_get_children (node_at cs i) ++ menu_node_get_children (node_at cs j))),
        unlinked := i :: unlinked } := by
  apply strip_menu_nodes_two_menus cs unlinked i j hij hj hmenus _ hcontent hchild
  unfold node_menu_compare_func
  rw [hname]
  exact le_of_eq ((null_safe_strcmp_eq_zero _ _).2 rfl)

/-- C8 as amended, worked example: in `example_repeated_menu` position 0 is
unlinked and position 2 holds the coalesced Menu. -/
theorem strip_menu_nodes_keeps_later_menu_witness :
    strip_menu_nodes { nodes := example_repeated_menu, unlinked := [] } =
      { nodes :=
          [.mk MENU_NODE_MENU none [],
           .mk MENU_NODE_APP_DIR (some "/x") [],
           .mk MENU_NODE_MENU none
             [.mk MENU_NODE_NAME (some "A") [],
              .mk MENU_NODE_INCLUDE none [.mk MENU_NODE_CATEGORY (some "one") []],
              .mk MENU_NODE_NAME (some "A") [],
              .mk MENU_NODE_INCLUDE none [.mk MENU_NODE_CATEGORY (some "two") []]]],
        unlinked := [0] } :=
  strip_menu_nodes_keeps_later_menu example_repeated_menu [] 0 2 (by decide) (by decide)
    (by
      intro k hk
      have hk' : k < 3 := hk
      interval_cases k <;> simp [example_repeated_menu, example_menu])
    rfl rfl (by simp [example_repeated_menu, example_menu])

/-! ## Rule evaluator -/

theorem mem_foldl_union {α : Type} (f : α → EntrySet) (l : List α) (S : EntrySet) (e : Entry) :
    e ∈ l.foldl (fun set x => set ∪ f x) S ↔ e ∈ S ∨ ∃ x ∈ l, e ∈ f x := by
  induction l generalizing S with
  | nil => simp
  | cons y ys ih =>
    simp only [List.foldl_cons, ih, Finset.mem_union, List.mem_cons, exists_eq_or_imp]
    tauto

theorem mem_foldl_sdiff {α : Type} (f : α → EntrySet) (l : List α) (S : EntrySet) (e : Entry) :
    e ∈ l.foldl (fun set x => set \ f x) S ↔ e ∈ S ∧ ∀ x ∈ l, e ∉ f x := by
  induction l generalizing S with
  | nil => simp
  | cons y ys ih =>
    simp only [List.foldl_cons, ih, Finset.mem_sdiff, List.mem_cons, forall_eq_or_imp]
    tauto

theorem mem_foldl_inter {α : Type} (f : α → EntrySet) (l : List α) (S : EntrySet) (e : Entry) :
    e ∈ l.foldl (fun set x => set ∩ f x) S ↔ e ∈ S ∧ ∀ x ∈ l, e ∈ f x := by
  induction l generalizing S with
  | nil => simp
  | cons y ys ih =>
    simp only [List.foldl_cons, ih, Finset.mem_inter, List.mem_cons, forall_eq_or_imp]
    tauto

theorem foldl_inter_empty {α : Type} (f : α → EntrySet) (l : List α) :
    l.foldl (fun set x => set ∩ f x) ∅ = ∅ := by
  induction l with
  | nil => rfl
  | cons y ys ih => simp only [List.foldl_cons, Finset.empty_inter, ih]

/-! ## Rule evaluation: the set returned -/

theorem and_loop_nil (list : EntryDirectoryList) (set : Option EntrySet) :
    and_children_to_entry_set list set [] = set := by
  unfold and_children_to_entry_set
  rw [and_children_recorded]

theorem and_loop_cons (list : EntryDirectoryList) (set : Option EntrySet) (child : MenuNode)
    (next : List MenuNode) :
    and_children_to_entry_set list set (child :: next) =
      if entry_set_get_count
          (first_or entry_set_intersection set (menu_node_to_entry_set list child)) = 0 then
        some (first_or entry_set_intersection set (menu_node_to_entry_set list child))
      else
        and_children_to_entry_set list
          (some (first_or entry_set_intersection set (menu_node_to_entry_set list child)))
          next := by
  unfold and_children_to_entry_set menu_node_to_entry_set
  rw [and_children_recorded]
  cases menu_node_to_entry_set_recorded list child with
  | mk child_set calls =>
    simp only []
    split
    · rfl
    · rfl

theorem or_loop_nil (list : EntryDirectoryList) (set : Option EntrySet) :
    or_children_to_entry_set list set [] = set := by
  unfold or_children_to_entry_set
  rw [or_children_recorded]

theorem or_loop_cons (list : EntryDirectoryList) (set : Option EntrySet) (child : MenuNode)
    (next : List MenuNode) :
    or_children_to_entry_set list set (child :: next) =
      or_children_to_entry_set list
        (some (first_or entry_set_union set (menu_node_to_entry_set list child))) next := by
  unfold or_children_to_entry_set menu_node_to_entry_set
  rw [or_children_recorded]

/-- The set returned by `menu_node_to_entry_set`, case by case. -/
theorem menu_node_to_entry_set_mk (list : EntryDirectoryList) (t : MenuNodeType)
    (content : Option String) (children : List MenuNode) :
    menu_node_to_entry_set list (.mk t content children) =
      match t with
      | MENU_NODE_AND =>
        match and_children_to_entry_set list none children with
        | none => entry_set_new
        | some set => set
      | MENU_NODE_OR =>
        match or_children_to_entry_set list none children with
        | none => entry_set_new
        | some set => set
      | MENU_NODE_NOT =>
        match or_children_to_entry_set list none children with
        | none => entry_set_new
        | some set => entry_directory_list_invert_set list set
      | MENU_NODE_ALL => entry_directory_list_get_all_desktops list entry_set_new
      | MENU_NODE_FILENAME =>
        match list.get_desktop content with
        | none => entry_set_new
        | some e => entry_set_add_entry entry_set_new e
      | MENU_NODE_CATEGORY => entry_directory_list_get_by_category list content entry_set_new
      | _ => entry_set_new := by
  unfold menu_node_to_entry_set and_children_to_entry_set or_children_to_entry_set
  cases t
  case MENU_NODE_AND =>
    simp only [menu_node_to_entry_set_recorded]
    rcases and_children_recorded list none children with ⟨_ | set, calls⟩ <;> rfl
  case MENU_NODE_OR =>
    simp only [menu_node_to_entry_set_recorded]
    rcases or_children_recorded list none children with ⟨_ | set, calls⟩ <;> rfl
  case MENU_NODE_NOT =>
    simp only [menu_node_to_entry_set_recorded]
    rcases or_children_recorded list none children with ⟨_ | set, calls⟩ <;> rfl
  case MENU_NODE_FILENAME =>
    simp only [menu_node_to_entry_set_recorded]
    cases list.get_desktop content <;> rfl
  all_goals simp only [menu_node_to_entry_set_recorded]

theorem and_children_to_entry_set_some (list : EntryDirectoryList) (S : EntrySet)
    (children : List MenuNode) :
    and_children_to_entry_set list (some S) children =
      some (children.foldl (fun set child => set ∩ menu_node_to_entry_set list child) S) := by
  induction children generalizing S with
  | nil => simp [and_loop_nil]
  | cons x xs ih =>
    simp only [and_loop_cons, first_or, entry_set_intersection, entry_set_get_count,
      List.foldl_cons]
    split
    · rename_i h
      rw [Finset.card_eq_zero] at h
      rw [h, foldl_inter_empty]
    · exact ih _

theorem and_children_to_entry_set_none (list : EntryDirectoryList) (first : MenuNode)
    (others : List MenuNode) :
    and_children_to_entry_set list none (first :: others) =
      some (intersection_of_all list first others) := by
  simp only [and_loop_cons, first_or, entry_set_get_count, intersection_of_all]
  split
  · rename_i h
    rw [Finset.card_eq_zero] at h
    rw [h, foldl_inter_empty]
  · exact and_children_to_entry_set_some _ _ _

/-- C10: for an And node with at least one child, `menu_node_to_entry_set`
returns exactly the intersection of the entry sets of all its children: the
loop that stops as soon as the running intersection is empty computes the same
set as the intersection over every child. -/
theorem and_node_is_intersection_of_all_children (list : EntryDirectoryList)
    (content : Option String) (first : MenuNode) (others : List MenuNode) :
    menu_node_to_entry_set list (.mk MENU_NODE_AND content (first :: others)) =
        intersection_of_all list first others ∧
      ∀ e, e ∈ menu_node_to_entry_set list (.mk MENU_NODE_AND content (first :: others)) ↔
        ∀ child ∈ first :: others, e ∈ menu_node_to_entry_set list child := by
  have h : menu_node_to_entry_set list (.mk MENU_NODE_AND content (first :: others)) =
      intersection_of_all list first others := by
    rw [menu_node_to_entry_set_mk]
    simp only [and_children_to_entry_set_none]
  refine ⟨h, fun e => ?_⟩
  rw [h, intersection_of_all, mem_foldl_inter]
  simp

/-! ## Entries of a category -/

theorem mem_include_rules (app_dirs : EntryDirectoryList) (entries : EntrySet)
    (rules : List MenuNode) (e : Entry) :
    e ∈ include_rules app_dirs entries rules ↔
      e ∈ entries ∨ ∃ rule ∈ rules, e ∈ menu_node_to_entry_set app_dirs rule :=
  mem_foldl_union _ _ _ _

theorem mem_exclude_rules (app_dirs : EntryDirectoryList) (entries : EntrySet)
    (rules : List MenuNode) (e : Entry) :
    e ∈ exclude_rules app_dirs entries rules ↔
      e ∈ entries ∧ ∀ rule ∈ rules, e ∉ menu_node_to_entry_set app_dirs rule :=
  mem_foldl_sdiff _ _ _ _

theorem mem_foldl_blocks (app_dirs : EntryDirectoryList) (blocks : List MenuNode)
    (S : EntrySet) (e : Entry) :
    e ∈ blocks.foldl (fun set block =>
        (menu_node_get_children block).foldl
          (fun set' rule => set' ∪ menu_node_to_entry_set app_dirs rule) set) S ↔
      e ∈ S ∨ ∃ block ∈ blocks, ∃ rule ∈ menu_node_get_children block,
        e ∈ menu_node_to_entry_set app_dirs rule := by
  induction blocks generalizing S with
  | nil => simp
  | cons b bs ih =>
    simp only [List.foldl_cons, ih, mem_foldl_union, List.mem_cons, exists_eq_or_imp, or_assoc]

theorem mem_union_of_rules (app_dirs : EntryDirectoryList) (kind : MenuNodeType)
    (children : List MenuNode) (e : Entry) :
    e ∈ union_of_rules app_dirs kind children ↔
      ∃ block ∈ children, menu_node_get_type block = kind ∧
        ∃ rule ∈ menu_node_get_children block, e ∈ menu_node_to_entry_set app_dirs rule := by
  unfold union_of_rules
  rw [mem_foldl_blocks]
  simp only [Finset.not_mem_empty, false_or, List.mem_filter, decide_eq_true_eq]
  constructor
  · rintro ⟨b, ⟨hb, hk⟩, r, hr, he⟩
    exact ⟨b, hb, hk, r, hr, he⟩
  · rintro ⟨b, hb, hk, r, hr, he⟩
    exact ⟨b, ⟨hb, hk⟩, r, hr, he⟩

/-- The local set `entries` after the loop, for child lists in which no Include
follows an Exclude. -/
theorem mem_fill_from_children_entries (E : MenuEntries) (app_dirs dir_dirs : EntryDirectoryList)
    (children : List MenuNode) (state : FillState)
    (h : children.Pairwise (fun a b =>
      ¬ (menu_node_get_type a = MENU_NODE_EXCLUDE ∧ menu_node_get_type b = MENU_NODE_INCLUDE)))
    (e : Entry) :
    e ∈ (fill_from_children E app_dirs dir_dirs state children).entries ↔
      (e ∈ state.entries ∨ e ∈ union_of_rules app_dirs MENU_NODE_INCLUDE children) ∧
        e ∉ union_of_rules app_dirs MENU_NODE_EXCLUDE children := by
  induction children generalizing state with
  | nil =>
    simp [fill_from_children, mem_union_of_rules]
  | cons x xs ih =>
    rw [List.pairwise_cons] at h
    have ih' := fun st => ih st h.2
    simp only [mem_union_of_rules, List.mem_cons, exists_eq_or_imp] at ih' ⊢
    rw [fill_from_children]
    cases hx : menu_node_get_type x <;> simp only [] <;>
      (try split) <;> simp only [ih', mem_include_rules, mem_exclude_rules] <;>
      (try simp only [reduceCtorEq, false_and, false_or, not_false_eq_true, true_and])
    · simp only [or_assoc]
    · have hnone : ¬ ∃ a ∈ xs, menu_node_get_type a = MENU_NODE_INCLUDE ∧
          ∃ rule ∈ menu_node_get_children a, e ∈ menu_node_to_entry_set app_dirs rule := by
        rintro ⟨a, ha, hka, -⟩
        exact h.1 a ha ⟨hx, hka⟩
      simp only [hnone, or_false, true_and, not_or, not_exists, not_and]
      constructor
      · rintro ⟨⟨h1, h2⟩, h3⟩
        exact ⟨h1, h2, h3⟩
      · rintro ⟨h1, h2, h3⟩
        exact ⟨⟨h1, h2⟩, h3⟩

theorem fill_from_children_entries_congr (E : MenuEntries)
    (app_dirs dir_dirs : EntryDirectoryList) (children : List MenuNode)
    (state state' : FillState) (h : state.entries = state'.entries) :
    (fill_from_children E app_dirs dir_dirs state children).entries =
      (fill_from_children E app_dirs dir_dirs state' children).entries := by
  induction children generalizing state state' with
  | nil => simpa [fill_from_children] using h
  | cons x xs ih =>
    rw [fill_from_children, fill_from_children]
    cases hx : menu_node_get_type x <;> simp only [] <;>
      (try split) <;> first
        | exact ih _ _ h
        | exact ih _ _ (by simp only [h])

theorem fill_tree_node_entries (E : MenuEntries) (tree_node : TreeNode)
    (content : Option String) (children : List MenuNode) :
    (fill_tree_node_from_menu_node E tree_node (.mk MENU_NODE_MENU content children)).entries =
      E.entry_set_list_entries (menu_entry_set E (.mk MENU_NODE_MENU content children)) := by
  rw [fill_tree_node_from_menu_node]
  simp only [if_true, menu_entry_set, menu_node_get_children_mk, TreeNode.entries]
  congr 1
  exact fill_from_children_entries_congr E _ _ children _ _ rfl

/-- C9 as stated fails: in `example_exclude_first` the Exclude block precedes the
Include block.  The loop subtracts from the set built so far, so the entries
included afterwards stay: the category gets both entries of the index, while
the union of the Include rules minus the union of the Exclude rules is
empty. -/
theorem entries_depend_on_block_order_counterexample :
    menu_entry_set example_entries example_exclude_first ≠
        union_of_rules example_index MENU_NODE_INCLUDE
            (menu_node_get_children example_exclude_first) \
          union_of_rules example_index MENU_NODE_EXCLUDE
            (menu_node_get_children example_exclude_first) ∧
      (fill_tree_node_from_menu_node example_entries tree_node_new
          example_exclude_first).entries = [⟨"/a.desktop"⟩, ⟨"/b.desktop"⟩] ∧
      union_of_rules example_index MENU_NODE_INCLUDE
            (menu_node_get_children example_exclude_first) \
          union_of_rules example_index MENU_NODE_EXCLUDE
            (menu_node_get_children example_exclude_first) = ∅ := by
  decide

/-- C9 as amended: for every Menu among whose children no Include block follows
an Exclude block, the entry set computed by `fill_tree_node_from_menu_node`
(the set whose listing becomes the entries of the record) is the union of the
sets of all rules under all its Include children minus the union of the sets of
all rules under all its Exclude children. -/
theorem entries_are_includes_minus_excludes (E : MenuEntries) (tree_node : TreeNode)
    (content : Option String) (children : List MenuNode)
    (h : children.Pairwise (fun a b =>
      ¬ (menu_node_get_type a = MENU_NODE_EXCLUDE ∧ menu_node_get_type b = MENU_NODE_INCLUDE))) :
    menu_entry_set E (.mk MENU_NODE_MENU content children) =
        union_of_rules (E.menu_node_menu_get_app_entries (.mk MENU_NODE_MENU content children))
            MENU_NODE_INCLUDE children \
          union_of_rules (E.menu_node_menu_get_app_entries (.mk MENU_NODE_MENU content children))
            MENU_NODE_EXCLUDE children ∧
      (fill_tree_node_from_menu_node E tree_node (.mk MENU_NODE_MENU content children)).entries =
        E.entry_set_list_entries
          (union_of_rules (E.menu_node_menu_get_app_entries (.mk MENU_NODE_MENU content children))
              MENU_NODE_INCLUDE children \
            union_of_rules (E.menu_node_menu_get_app_entries (.mk MENU_NODE_MENU content children))
              MENU_NODE_EXCLUDE children) := by
  have hset : menu_entry_set E (.mk MENU_NODE_MENU content children) =
      union_of_rules (E.menu_node_menu_get_app_entries (.mk MENU_NODE_MENU content children))
          MENU_NODE_INCLUDE children \
        union_of_rules (E.menu_node_menu_get_app_entries (.mk MENU_NODE_MENU content children))
          MENU_NODE_EXCLUDE children := by
    ext e
    rw [menu_entry_set, menu_node_get_children_mk,
      mem_fill_from_children_entries E _ _ children _ h e]
    simp [entry_set_new]
  exact ⟨hset, by rw [fill_tree_node_entries, hset]⟩

/-- C9 as amended, worked example: `example_include_first` includes everything
and then excludes the category `Game`; its record lists `b.desktop` only. -/
theorem entries_are_includes_minus_excludes_witness :
    (fill_tree_node_from_menu_node example_entries tree_node_new
        example_include_first).entries = [⟨"/b.desktop"⟩] := by
  have h := (entries_are_includes_minus_excludes example_entries tree_node_new none
    (menu_node_get_children example_include_first) (by
      simp [example_include_first])).2
  rw [show (MenuNode.mk MENU_NODE_MENU none (menu_node_get_children example_include_first)) =
    example_include_first from rfl] at h
  rw [h]
  decide

/-! ## Or and Not -/

theorem or_children_to_entry_set_some (list : EntryDirectoryList) (S : EntrySet)
    (children : List MenuNode) :
    or_children_to_entry_set list (some S) children =
      some (children.foldl (fun set child => set ∪ menu_node_to_entry_set list child) S) := by
  induction children generalizing S with
  | nil => simp [or_loop_nil]
  | cons x xs ih =>
    simp only [or_loop_cons, first_or, entry_set_union, List.foldl_cons]
    exact ih _

theorem or_children_to_entry_set_cons (list : EntryDirectoryList) (first : MenuNode)
    (others : List MenuNode) :
    or_children_to_entry_set list none (first :: others) =
      some (union_of_all list (first :: others)) := by
  simp only [or_loop_cons, first_or, union_of_all, List.foldl_cons,
    Finset.empty_union]
  exact or_children_to_entry_set_some _ _ _

theorem or_children_to_entry_set_nil (list : EntryDirectoryList) :
    or_children_to_entry_set list none [] = none := by
  simp [or_loop_nil]

theorem mem_union_of_all (list : EntryDirectoryList) (children : List MenuNode) (e : Entry) :
    e ∈ union_of_all list children ↔
      ∃ child ∈ children, e ∈ menu_node_to_entry_set list child := by
  unfold union_of_all
  rw [mem_foldl_union]
  simp

theorem mem_or_children_evaluated (list : EntryDirectoryList) (children : List MenuNode)
    (child : MenuNode) (h : child ∈ children) : child ∈ or_children_evaluated list children := by
  induction children with
  | nil => simp at h
  | cons x xs ih =>
    rw [or_children_evaluated, List.mem_append]
    rcases List.mem_cons.1 h with rfl | h'
    · left
      cases child with
      | mk t c cs => unfold evaluated_nodes; exact List.mem_cons_self _ _
    · right; exact ih h'

/-- C11 as stated fails: a Not node without children yields the empty set, not
the universe of the index: the inversion is skipped when no child has produced
a set. -/
theorem not_node_without_children_counterexample :
    menu_node_to_entry_set example_index (.mk MENU_NODE_NOT none []) = ∅ ∧
      menu_node_to_entry_set example_index (.mk MENU_NODE_NOT none []) ≠
        example_index.all_desktops \ union_of_all example_index [] := by
  decide

/-- C11 as amended: for every Not node with at least one child,
`menu_node_to_entry_set` returns the complement, against the full entry
universe of the index, of the union of the entry sets of all its children; a
Not node with no children yields the empty set. -/
theorem not_node_is_complement_of_union (list : EntryDirectoryList)
    (content : Option String) (first : MenuNode) (others : List MenuNode) :
    menu_node_to_entry_set list (.mk MENU_NODE_NOT content (first :: others)) =
        list.all_desktops \ union_of_all list (first :: others) ∧
      (∀ e, e ∈ menu_node_to_entry_set list (.mk MENU_NODE_NOT content (first :: others)) ↔
        e ∈ list.all_desktops ∧
          ∀ child ∈ first :: others, e ∉ menu_node_to_entry_set list child) ∧
      menu_node_to_entry_set list (.mk MENU_NODE_NOT content []) = ∅ := by
  have h : menu_node_to_entry_set list (.mk MENU_NODE_NOT content (first :: others)) =
      list.all_desktops \ union_of_all list (first :: others) := by
    rw [menu_node_to_entry_set_mk]
    simp only [or_children_to_entry_set_cons, entry_directory_list_invert_set]
  refine ⟨h, fun e => ?_, ?_⟩
  · rw [h, Finset.mem_sdiff, mem_union_of_all]
    simp
  · rw [menu_node_to_entry_set_mk]
    simp [or_children_to_entry_set_nil, entry_set_new]

/-- C12: for every Or node, `menu_node_to_entry_set` returns exactly the union
of the entry sets of all its children, the empty set when it has none, and
every child is evaluated: each child is among the nodes the evaluator is
called on. -/
theorem or_node_is_union_of_all_children (list : EntryDirectoryList)
    (content : Option String) (children : List MenuNode) :
    menu_node_to_entry_set list (.mk MENU_NODE_OR content children) =
        union_of_all list children ∧
      (∀ e, e ∈ menu_node_to_entry_set list (.mk MENU_NODE_OR content children) ↔
        ∃ child ∈ children, e ∈ menu_node_to_entry_set list child) ∧
      menu_node_to_entry_set list (.mk MENU_NODE_OR content []) = ∅ ∧
      ∀ child ∈ children,
        child ∈ evaluated_nodes list (.mk MENU_NODE_OR content children) := by
  have h : ∀ cs, menu_node_to_entry_set list (.mk MENU_NODE_OR content cs) =
      union_of_all list cs := by
    intro cs
    rw [menu_node_to_entry_set_mk]
    cases cs with
    | nil => simp [or_children_to_entry_set_nil, entry_set_new, union_of_all]
    | cons x xs => simp only [or_children_to_entry_set_cons]
  refine ⟨h children, fun e => ?_, ?_, ?_⟩
  · rw [h, mem_union_of_all]
  · rw [h]; rfl
  · intro child hc
    simp only [evaluated_nodes]
    exact List.mem_cons_of_mem _ (mem_or_children_evaluated list children child hc)

/-! ## Complete records -/

theorem all_records_complete_cons (d : TreeNode) (ds : List TreeNode) :
    all_records_complete (d :: ds) = true ↔
      record_complete d = true ∧ all_records_complete ds = true := by
  simp [all_records_complete]

theorem record_complete_iff (node : TreeNode) :
    record_complete node = true ↔
      tree_node_free_if_broken node = false ∧ all_records_complete node.subdirs = true := by
  cases node with
  | mk n d es ss =>
    simp only [record_complete, tree_node_free_if_broken, TreeNode.name, TreeNode.dir_entry,
      TreeNode.subdirs, Bool.and_eq_true, Bool.or_eq_false_iff]
    cases n <;> cases d <;> simp

mutual
theorem fill_tree_node_subdirs_complete (E : MenuEntries) (tree_node : TreeNode)
    (h : all_records_complete tree_node.subdirs = true) :
    (menu_node : MenuNode) →
      all_records_complete (fill_tree_node_from_menu_node E tree_node menu_node).subdirs = true
  | .mk t content children => by
    rw [fill_tree_node_from_menu_node]
    split
    · have := fill_from_children_subdirs_complete E
        (E.menu_node_menu_get_app_entries (.mk t content children))
        (E.menu_node_menu_get_directory_entries (.mk t content children))
        { tree_node := tree_node, entries := entry_set_new } h children
      simpa [TreeNode.subdirs] using this
    · exact h
theorem fill_from_children_subdirs_complete (E : MenuEntries)
    (app_dirs dir_dirs : EntryDirectoryList) (state : FillState)
    (h : all_records_complete state.tree_node.subdirs = true) :
    (children : List MenuNode) →
      all_records_complete
        (fill_from_children E app_dirs dir_dirs state children).tree_node.subdirs = true
  | [] => by simpa [fill_from_children] using h
  | child :: next => by
    rw [fill_from_children]
    cases hx : menu_node_get_type child <;> simp only []
    case MENU_NODE_MENU =>
      split
      · exact fill_from_children_subdirs_complete E app_dirs dir_dirs state h next
      · rename_i hb
        apply fill_from_children_subdirs_complete E app_dirs dir_dirs _ _ next
        simp only [TreeNode.subdirs, all_records_complete_cons]
        refine ⟨?_, h⟩
        rw [record_complete_iff]
        exact ⟨by simpa using hb,
          fill_tree_node_subdirs_complete E tree_node_new rfl child⟩
    case MENU_NODE_DIRECTORY =>
      split
      · exact fill_from_children_subdirs_complete E app_dirs dir_dirs state h next
      · exact fill_from_children_subdirs_complete E app_dirs dir_dirs _
          (by simpa [TreeNode.subdirs] using h) next
    all_goals
      exact fill_from_children_subdirs_complete E app_dirs dir_dirs _
        (by simpa [TreeNode.subdirs] using h) next
end

/-- C13: after `build_tree` on a freshly loaded handle, every category record
reachable from the root of the handle, the root included, has both a name and
directory metadata. -/
theorem build_tree_records_complete (E : MenuEntries) (tree : DesktopEntryTree)
    (h : tree.root = none) (root : TreeNode) (hroot : (build_tree E tree).root = some root) :
    record_complete root = true := by
  unfold build_tree at hroot
  rw [h] at hroot
  simp only [] at hroot
  split at hroot
  · simp at hroot
  · rename_i menu_child hm
    split at hroot
    · simp at hroot
    · rename_i hb
      simp only [Option.some.injEq] at hroot
      rw [← hroot, record_complete_iff]
      exact ⟨by simpa using hb, fill_tree_node_subdirs_complete E tree_node_new rfl menu_child⟩

/-- C13, worked example: the tree built for `example_tree` has a root, and all
its records are complete. -/
theorem build_tree_records_complete_witness :
    ∃ root, (build_tree example_query_entries example_tree).root = some root ∧
      record_complete root = true :=
  ⟨_, rfl, build_tree_records_complete example_query_entries example_tree rfl _ rfl⟩

/-! ## Broken child records -/

theorem fill_from_children_append (E : MenuEntries) (app_dirs dir_dirs : EntryDirectoryList)
    (xs ys : List MenuNode) (state : FillState) :
    fill_from_children E app_dirs dir_dirs state (xs ++ ys) =
      fill_from_children E app_dirs dir_dirs
        (fill_from_children E app_dirs dir_dirs state xs) ys := by
  induction xs generalizing state with
  | nil => simp [fill_from_children]
  | cons x xs ih =>
    have e : (x :: xs) ++ ys = x :: (xs ++ ys) := rfl
    rw [e, fill_from_children, fill_from_children]
    cases hx : menu_node_get_type x <;> simp only [] <;> (try split) <;> exact ih _

theorem fill_from_children_broken (E : MenuEntries) (app_dirs dir_dirs : EntryDirectoryList)
    (broken : MenuNode) (next : List MenuNode) (state : FillState)
    (h_kind : menu_node_get_type broken = MENU_NODE_MENU)
    (h_broken : tree_node_free_if_broken
      (fill_tree_node_from_menu_node E tree_node_new broken) = true) :
    fill_from_children E app_dirs dir_dirs state (broken :: next) =
      fill_from_children E app_dirs dir_dirs state next := by
  rw [fill_from_children]
  simp only [h_kind, h_broken, if_true]

/-- C14: a nested Menu whose record is broken (no name, or no directory
metadata) is discarded on its own.  The record built for the parent Menu, with
its name, directory metadata, entries and the records of its other Menu
children, is the record built for the parent without that child, the entry
indexes of the parent being the same with and without it. -/
theorem broken_child_record_is_discarded (E : MenuEntries) (tree_node : TreeNode)
    (content : Option String) (before after : List MenuNode) (broken : MenuNode)
    (h_kind : menu_node_get_type broken = MENU_NODE_MENU)
    (h_broken : tree_node_free_if_broken
      (fill_tree_node_from_menu_node E tree_node_new broken) = true)
    (h_app : E.menu_node_menu_get_app_entries
        (.mk MENU_NODE_MENU content (before ++ broken :: after)) =
      E.menu_node_menu_get_app_entries (.mk MENU_NODE_MENU content (before ++ after)))
    (h_dir : E.menu_node_menu_get_directory_entries
        (.mk MENU_NODE_MENU content (before ++ broken :: after)) =
      E.menu_node_menu_get_directory_entries (.mk MENU_NODE_MENU content (before ++ after))) :
    fill_tree_node_from_menu_node E tree_node
        (.mk MENU_NODE_MENU content (before ++ broken :: after)) =
      fill_tree_node_from_menu_node E tree_node
        (.mk MENU_NODE_MENU content (before ++ after)) := by
  rw [fill_tree_node_from_menu_node, fill_tree_node_from_menu_node]
  simp only [if_true, h_app, h_dir]
  rw [fill_from_children_append, fill_from_children_broken E _ _ broken after _ h_kind h_broken,
    ← fill_from_children_append]

/-- C14, worked example: a Menu `Games` between whose Name and Directory sits a
child Menu without a Directory gets the record it gets without that child. -/
theorem broken_child_record_is_discarded_witness :
    fill_tree_node_from_menu_node example_query_entries tree_node_new
        (.mk MENU_NODE_MENU none
          ([.mk MENU_NODE_NAME (some "Games") []] ++
            .mk MENU_NODE_MENU none [.mk MENU_NODE_NAME (some "Lost") []] ::
            [.mk MENU_NODE_DIRECTORY (some "games.directory") []])) =
      fill_tree_node_from_menu_node example_query_entries tree_node_new
        (.mk MENU_NODE_MENU none
          ([.mk MENU_NODE_NAME (some "Games") []] ++
            [.mk MENU_NODE_DIRECTORY (some "games.directory") []])) :=
  broken_child_record_is_discarded example_query_entries tree_node_new none
    [.mk MENU_NODE_NAME (some "Games") []]
    [.mk MENU_NODE_DIRECTORY (some "games.directory") []]
    (.mk MENU_NODE_MENU none [.mk MENU_NODE_NAME (some "Lost") []]) rfl rfl rfl rfl

/-! ## Traversal -/

theorem call_until_stop_append {σ : Type} (func : VisitorCall → σ → Bool × σ)
    (xs ys : List VisitorCall) (s : σ) :
    call_until_stop func (xs ++ ys) s =
      match call_until_stop func xs s with
      | (false, s') => (false, s')
      | (true, s') => call_until_stop func ys s' := by
  induction xs generalizing s with
  | nil => simp [call_until_stop]
  | cons x xs ih =>
    have e : (x :: xs) ++ ys = x :: (xs ++ ys) := rfl
    rw [e, call_until_stop, call_until_stop]
    rcases hf : func x s with ⟨b, s'⟩
    cases b
    · rfl
    · exact ih s'

theorem foreach_entries_eq {σ : Type} (func : VisitorCall → σ → Bool × σ)
    (entries : List Entry) (depth : Nat) (s : σ) :
    foreach_entries func entries depth s =
      call_until_stop func (entry_calls entries depth) s := by
  induction entries generalizing s with
  | nil => rfl
  | cons e rest ih =>
    simp only [foreach_entries, entry_calls, List.map_cons, call_until_stop]
    rcases hf : func ⟨false, depth, none, entry_get_absolute_path (some e)⟩ s with ⟨b, s'⟩
    cases b
    · rfl
    · exact ih s'

mutual
theorem foreach_dir_eq {σ : Type} (func : VisitorCall → σ → Bool × σ) :
    (dir : TreeNode) → (depth : Nat) → (s : σ) →
      foreach_dir func dir depth s = call_until_stop func (preorder_calls dir depth) s
  | .mk name dir_entry entries subdirs, depth, s => by
    rw [foreach_dir, preorder_calls, call_until_stop]
    rcases hf : func ⟨true, depth, none, entry_get_absolute_path dir_entry⟩ s with ⟨b, s'⟩
    cases b
    · rfl
    · simp only []
      rw [call_until_stop_append, foreach_entries_eq]
      rcases he : call_until_stop func (entry_calls entries depth) s' with ⟨b', s''⟩
      cases b'
      · rfl
      · exact foreach_subdirs_eq func subdirs depth s''
theorem foreach_subdirs_eq {σ : Type} (func : VisitorCall → σ → Bool × σ) :
    (subdirs : List TreeNode) → (depth : Nat) → (s : σ) →
      foreach_subdirs func subdirs depth s =
        call_until_stop func (preorder_calls_of_all subdirs depth) s
  | [], depth, s => by
    rw [foreach_subdirs, preorder_calls_of_all, call_until_stop]
  | d :: rest, depth, s => by
    rw [foreach_subdirs, preorder_calls_of_all, call_until_stop_append,
      foreach_dir_eq func d (depth + 1) s]
    rcases hd : call_until_stop func (preorder_calls d (depth + 1)) s with ⟨b, s'⟩
    cases b
    · rfl
    · exact foreach_subdirs_eq func rest depth s'
end

theorem call_until_stop_recording {σ : Type} (func : VisitorCall → σ → Bool × σ)
    (calls : List VisitorCall) (s : σ) (log : List VisitorCall) :
    call_until_stop (recording func) calls (s, log) =
      ((call_until_stop func calls s).1,
        ((call_until_stop func calls s).2, log ++ stopped_calls func calls s)) := by
  induction calls generalizing s log with
  | nil => simp [call_until_stop, stopped_calls]
  | cons c rest ih =>
    simp only [call_until_stop, stopped_calls, recording]
    rcases hf : func c s with ⟨b, s'⟩
    cases b
    · simp
    · simp only [if_true]
      rw [ih s' (log ++ [c])]
      simp

theorem stopped_calls_of_never_stop {σ : Type} (func : VisitorCall → σ → Bool × σ)
    (h : ∀ call s, (func call s).1 = true) (calls : List VisitorCall) (s : σ) :
    stopped_calls func calls s = calls := by
  induction calls generalizing s with
  | nil => rfl
  | cons c rest ih => simp only [stopped_calls, h c s, if_true, ih]

theorem stopped_calls_isPrefix {σ : Type} (func : VisitorCall → σ → Bool × σ)
    (calls : List VisitorCall) (s : σ) : stopped_calls func calls s <+: calls := by
  induction calls generalizing s with
  | nil => exact List.prefix_refl _
  | cons c rest ih =>
    simp only [stopped_calls]
    split
    · exact List.prefix_cons_inj c |>.2 (ih _)
    · exact ⟨rest, rfl⟩

mutual
theorem length_preorder_calls : (dir : TreeNode) → (depth : Nat) →
    (preorder_calls dir depth).length = count_records dir + count_entries dir
  | .mk name dir_entry entries subdirs, depth => by
    rw [preorder_calls, count_records, count_entries]
    simp only [List.length_cons, List.length_append, entry_calls, List.length_map]
    rw [length_preorder_calls_of_all subdirs depth]
    omega
theorem length_preorder_calls_of_all : (subdirs : List TreeNode) → (depth : Nat) →
    (preorder_calls_of_all subdirs depth).length =
      count_records_of_all subdirs + count_entries_of_all subdirs
  | [], depth => by
    rw [preorder_calls_of_all, count_records_of_all, count_entries_of_all]; rfl
  | d :: rest, depth => by
    rw [preorder_calls_of_all, count_records_of_all, count_entries_of_all]
    simp only [List.length_append]
    rw [length_preorder_calls d (depth + 1), length_preorder_calls_of_all rest depth]
    omega
end

theorem desktop_entry_tree_foreach_found {σ : Type} (E : MenuEntries)
    (tree : DesktopEntryTree) (parent_dir : String) (func : VisitorCall → σ → Bool × σ)
    (user_data : σ) (root dir : TreeNode)
    (h_root : (build_tree E tree).root = some root)
    (h_dir : tree_node_find_subdir root parent_dir = some dir) :
    desktop_entry_tree_foreach E tree parent_dir func user_data =
      (build_tree E tree, (call_until_stop func (preorder_calls dir 0) user_data).2) := by
  unfold desktop_entry_tree_foreach
  simp only [h_root, h_dir, foreach_dir_eq]

/-! ## Queries: the claims -/

/-- C15 (code evaluated at the failing input): in the tree of `example_document`
the path `Games/Action` locates the category `Action`, and the path
`/Games/Action` locates the root `Applications`: its first piece is empty, and
the loop of `tree_node_find_subdir` stops at an empty piece instead of
skipping it. -/
theorem find_subdir_stops_at_leading_slash :
    (build_tree example_query_entries example_tree).root = some example_record ∧
      (tree_node_find_subdir example_record "Games/Action").map TreeNode.name =
        some (some "Action") ∧
      (tree_node_find_subdir example_record "/Games/Action").map TreeNode.name =
        some (some "Applications") ∧
      (desktop_entry_tree_list_entries example_query_entries example_tree "Games/Action").2 =
        (some [some "/a.desktop", some "/b.desktop"], 2) ∧
      (desktop_entry_tree_list_entries example_query_entries example_tree "/Games/Action").2 =
        (some [], 0) :=
  ⟨rfl, by decide, by decide, by decide, by decide⟩

/-- C16: when the visitor never asks to stop, `desktop_entry_tree_foreach` on a
found category calls it in depth-first pre-order: for the category itself,
then for each of its entries in stored order, then the complete traversal of
each of its child records in turn (`preorder_calls`); the number of calls is
the number of categories plus the number of entries of the subtree. -/
theorem foreach_calls_in_preorder {σ : Type} (E : MenuEntries) (tree : DesktopEntryTree)
    (parent_dir : String) (func : VisitorCall → σ → Bool × σ) (user_data : σ)
    (root dir : TreeNode)
    (h_root : (build_tree E tree).root = some root)
    (h_dir : tree_node_find_subdir root parent_dir = some dir)
    (h_never : ∀ call s, (func call s).1 = true) :
    (desktop_entry_tree_foreach E tree parent_dir (recording func) (user_data, [])).2.2 =
        preorder_calls dir 0 ∧
      (preorder_calls dir 0).length = count_records dir + count_entries dir := by
  refine ⟨?_, length_preorder_calls dir 0⟩
  rw [desktop_entry_tree_foreach_found E tree parent_dir _ _ root dir h_root h_dir,
    call_until_stop_recording, stopped_calls_of_never_stop func h_never]
  simp

/-- C16, worked example: the traversal of the whole of `example_tree` with a
visitor that counts its calls makes the six calls of the pre-order sequence of
`example_record`. -/
theorem foreach_calls_in_preorder_witness :
    (desktop_entry_tree_foreach example_query_entries example_tree ""
        (recording example_counting_visitor) (0, [])).2.2 = preorder_calls example_record 0 ∧
      (preorder_calls example_record 0).length =
        count_records example_record + count_entries example_record :=
  foreach_calls_in_preorder example_query_entries example_tree "" example_counting_visitor 0
    example_record example_record rfl rfl (fun _ _ => rfl)

theorem child_records_nil (E : MenuEntries) : child_records E [] = [] := rfl

theorem child_records_append (E : MenuEntries) (xs ys : List MenuNode) :
    child_records E (xs ++ ys) = child_records E xs ++ child_records E ys := by
  simp [child_records]

theorem child_records_cons_menu (E : MenuEntries) (child : MenuNode) (next : List MenuNode)
    (h_menu : menu_node_get_type child = MENU_NODE_MENU)
    (h_kept : tree_node_free_if_broken (fill_tree_node_from_menu_node E tree_node_new child) =
      false) :
    child_records E (child :: next) =
      fill_tree_node_from_menu_node E tree_node_new child :: child_records E next := by
  simp [child_records, h_menu, h_kept]

theorem child_records_cons_broken (E : MenuEntries) (child : MenuNode) (next : List MenuNode)
    (h_menu : menu_node_get_type child = MENU_NODE_MENU)
    (h_broken : tree_node_free_if_broken (fill_tree_node_from_menu_node E tree_node_new child) =
      true) :
    child_records E (child :: next) = child_records E next := by
  simp [child_records, h_menu, h_broken]

theorem child_records_cons_other (E : MenuEntries) (child : MenuNode) (next : List MenuNode)
    (h : menu_node_get_type child ≠ MENU_NODE_MENU) :
    child_records E (child :: next) = child_records E next := by
  simp [child_records, h]

theorem fill_from_children_subdirs (E : MenuEntries) (app_dirs dir_dirs : EntryDirectoryList)
    (children : List MenuNode) (state : FillState) :
    (fill_from_children E app_dirs dir_dirs state children).tree_node.subdirs =
      (child_records E children).reverse ++ state.tree_node.subdirs := by
  induction children generalizing state with
  | nil => simp [fill_from_children, child_records_nil]
  | cons x xs ih =>
    rw [fill_from_children]
    cases hx : menu_node_get_type x
    case MENU_NODE_MENU =>
      simp only []
      by_cases hb : tree_node_free_if_broken (fill_tree_node_from_menu_node E tree_node_new x) =
          true
      · rw [if_pos hb, ih, child_records_cons_broken E x xs hx hb]
      · rw [if_neg hb, ih, child_records_cons_menu E x xs hx (by simpa using hb)]
        simp [TreeNode.subdirs]
    case MENU_NODE_DIRECTORY =>
      simp only []
      rw [child_records_cons_other E x xs (by rw [hx]; simp)]
      cases dir_dirs.get_directory (menu_node_get_content x) with
      | none => simp only []; rw [ih]
      | some e => simp only []; rw [ih]; rfl
    all_goals
      simp only []
      rw [child_records_cons_other E x xs (by rw [hx]; simp), ih]
      try rfl

theorem fill_tree_node_subdirs (E : MenuEntries) (content : Option String)
    (children : List MenuNode) :
    (fill_tree_node_from_menu_node E tree_node_new
        (.mk MENU_NODE_MENU content children)).subdirs =
      (child_records E children).reverse := by
  rw [fill_tree_node_from_menu_node]
  simp only [if_true, TreeNode.subdirs]
  refine (fill_from_children_subdirs E _ _ children _).trans ?_
  simp [tree_node_new, TreeNode.subdirs]

theorem preorder_calls_of_all_append (xs ys : List TreeNode) (depth : Nat) :
    preorder_calls_of_all (xs ++ ys) depth =
      preorder_calls_of_all xs depth ++ preorder_calls_of_all ys depth := by
  induction xs with
  | nil => simp [preorder_calls_of_all]
  | cons x xs ih =>
    have e : (x :: xs) ++ ys = x :: (xs ++ ys) := rfl
    rw [e, preorder_calls_of_all, preorder_calls_of_all, ih, List.append_assoc]

theorem preorder_calls_of_all_cons (x : TreeNode) (xs : List TreeNode) (depth : Nat) :
    preorder_calls_of_all (x :: xs) depth =
      preorder_calls x (depth + 1) ++ preorder_calls_of_all xs depth := by
  rw [preorder_calls_of_all]

theorem preorder_calls_eq (dir : TreeNode) (depth : Nat) :
    preorder_calls dir depth =
      ⟨true, depth, none, entry_get_absolute_path dir.dir_entry⟩ ::
        (entry_calls dir.entries depth ++ preorder_calls_of_all dir.subdirs depth) := by
  cases dir
  rw [preorder_calls]
  rfl

/-- C17 as stated fails: `example_sibling_document` declares the category
`Games` before the category `Office`; it has no merge directive and the
duplicate pass leaves it as it is, so it is the resolved document of its
handle.  The record built for it lists `Office` before `Games`, and the
traversal visits `Office` before `Games` and the entries of `Games`. -/
theorem sibling_categories_declaration_order_counterexample :
    menu_node_resolve_files example_files 1 example_sibling_document =
        .done example_sibling_document ∧
      menu_node_strip_duplicate_children_checked example_sibling_document =
        .finished example_sibling_document ∧
      ((build_tree example_query_entries example_sibling_tree).root.map
        (fun root => root.subdirs.map TreeNode.name)) = some [some "Office", some "Games"] ∧
      ((desktop_entry_tree_foreach example_query_entries example_sibling_tree ""
          (recording example_counting_visitor) (0, [])).2.2.map
          VisitorCall.filesystem_path_to_entry) =
        [some "/dirs/applications.directory", some "/dirs/office.directory",
         some "/dirs/games.directory", some "/a.desktop", some "/b.desktop"] :=
  ⟨rfl, rfl, by decide, by decide⟩

/-- C17 as amended: sibling categories are traversed in the reverse of their
declaration order.  The record built for a Menu lists the records of its
child Menus that are not broken in the reverse of the order in which they are
declared, and `foreach_dir` makes its calls for the record, for its entries,
and then for these child records in that reversed order, each with its whole
subtree (up to the call at which the visitor stops).  So for two child Menus
`A` declared before `B`, neither broken, the record lists `B` before `A` and
the traversal visits `B` and all of its subtree before it visits `A`. -/
theorem sibling_categories_in_reverse_declaration_order {σ : Type} (E : MenuEntries)
    (content : Option String) (children : List MenuNode)
    (func : VisitorCall → σ → Bool × σ) (depth : Nat) (user_data : σ) :
    (fill_tree_node_from_menu_node E tree_node_new
        (.mk MENU_NODE_MENU content children)).subdirs = (child_records E children).reverse ∧
      (foreach_dir (recording func)
          (fill_tree_node_from_menu_node E tree_node_new (.mk MENU_NODE_MENU content children))
          depth (user_data, [])).2.2 =
        stopped_calls func
          (⟨true, depth, none, entry_get_absolute_path
              (fill_tree_node_from_menu_node E tree_node_new
                (.mk MENU_NODE_MENU content children)).dir_entry⟩ ::
            (entry_calls
                (fill_tree_node_from_menu_node E tree_node_new
                  (.mk MENU_NODE_MENU content children)).entries depth ++
              preorder_calls_of_all (child_records E children).reverse depth)) user_data ∧
      ∀ (before between after : List MenuNode) (a b : MenuNode),
        children = before ++ a :: (between ++ b :: after) →
        menu_node_get_type a = MENU_NODE_MENU →
        menu_node_get_type b = MENU_NODE_MENU →
        tree_node_free_if_broken (fill_tree_node_from_menu_node E tree_node_new a) = false →
        tree_node_free_if_broken (fill_tree_node_from_menu_node E tree_node_new b) = false →
        (fill_tree_node_from_menu_node E tree_node_new
            (.mk MENU_NODE_MENU content children)).subdirs =
          (child_records E after).reverse ++
            fill_tree_node_from_menu_node E tree_node_new b ::
              ((child_records E between).reverse ++
                fill_tree_node_from_menu_node E tree_node_new a ::
                  (child_records E before).reverse) ∧
        preorder_calls_of_all
            (fill_tree_node_from_menu_node E tree_node_new
              (.mk MENU_NODE_MENU content children)).subdirs depth =
          preorder_calls_of_all (child_records E after).reverse depth ++
            (preorder_calls (fill_tree_node_from_menu_node E tree_node_new b) (depth + 1) ++
              (preorder_calls_of_all (child_records E between).reverse depth ++
                (preorder_calls (fill_tree_node_from_menu_node E tree_node_new a) (depth + 1) ++
                  preorder_calls_of_all (child_records E before).reverse depth))) := by
  have hsub := fill_tree_node_subdirs E content children
  refine ⟨hsub, ?_, ?_⟩
  · rw [foreach_dir_eq, call_until_stop_recording, preorder_calls_eq, hsub]
    simp
  · intro before between after a b hchildren ha hb hka hkb
    have hrec : (fill_tree_node_from_menu_node E tree_node_new
        (.mk MENU_NODE_MENU content children)).subdirs =
        (child_records E after).reverse ++
          fill_tree_node_from_menu_node E tree_node_new b ::
            ((child_records E between).reverse ++
              fill_tree_node_from_menu_node E tree_node_new a ::
                (child_records E before).reverse) := by
      rw [hsub, hchildren, child_records_append, child_records_cons_menu E a _ ha hka,
        child_records_append, child_records_cons_menu E b _ hb hkb]
      simp
    refine ⟨hrec, ?_⟩
    rw [hrec, preorder_calls_of_all_append, preorder_calls_of_all_cons,
      preorder_calls_of_all_append, preorder_calls_of_all_cons]

/-- C17 as amended, worked example: in the Menu `Applications` of
`example_sibling_document`, `Games` is declared before `Office`, and the record
lists `Office` first. -/
theorem sibling_categories_in_reverse_declaration_order_witness :
    (fill_tree_node_from_menu_node example_query_entries tree_node_new
        (.mk MENU_NODE_MENU none
          ([.mk MENU_NODE_NAME (some "Applications") [],
            .mk MENU_NODE_DIRECTORY (some "applications.directory") []] ++
            example_sibling_menus))).subdirs =
      (child_records example_query_entries []).reverse ++
        fill_tree_node_from_menu_node example_query_entries tree_node_new
            (.mk MENU_NODE_MENU (some "office")
              [.mk MENU_NODE_NAME (some "Office") [],
               .mk MENU_NODE_DIRECTORY (some "office.directory") [],
               .mk MENU_NODE_INCLUDE none []]) ::
          ((child_records example_query_entries []).reverse ++
            fill_tree_node_from_menu_node example_query_entries tree_node_new
                (.mk MENU_NODE_MENU (some "games")
                  [.mk MENU_NODE_NAME (some "Games") [],
                   .mk MENU_NODE_DIRECTORY (some "games.directory") [],
                   .mk MENU_NODE_INCLUDE none [.mk MENU_NODE_ALL none []]]) ::
              (child_records example_query_entries
                [.mk MENU_NODE_NAME (some "Applications") [],
                 .mk MENU_NODE_DIRECTORY (some "applications.directory") []]).reverse) :=
  ((sibling_categories_in_reverse_declaration_order example_query_entries none
      ([.mk MENU_NODE_NAME (some "Applications") [],
        .mk MENU_NODE_DIRECTORY (some "applications.directory") []] ++ example_sibling_menus)
      example_counting_visitor 0 0).2.2
    [.mk MENU_NODE_NAME (some "Applications") [],
     .mk MENU_NODE_DIRECTORY (some "applications.directory") []]
    [] []
    (.mk MENU_NODE_MENU (some "games")
      [.mk MENU_NODE_NAME (some "Games") [],
       .mk MENU_NODE_DIRECTORY (some "games.directory") [],
       .mk MENU_NODE_INCLUDE none [.mk MENU_NODE_ALL none []]])
    (.mk MENU_NODE_MENU (some "office")
      [.mk MENU_NODE_NAME (some "Office") [],
       .mk MENU_NODE_DIRECTORY (some "office.directory") [],
       .mk MENU_NODE_INCLUDE none []])
    rfl rfl rfl (by decide) (by decide)).1

/-- C18: early termination.  For every visitor, the calls made by
`desktop_entry_tree_foreach` on a found category are the calls of the full
pre-order sequence up to and including the first one for which the visitor
returns `FALSE` (`stopped_calls`), at whatever nesting level that call is made;
the user data is what these calls leave. -/
theorem foreach_stops_at_first_false {σ : Type} (E : MenuEntries) (tree : DesktopEntryTree)
    (parent_dir : String) (func : VisitorCall → σ → Bool × σ) (user_data : σ)
    (root dir : TreeNode)
    (h_root : (build_tree E tree).root = some root)
    (h_dir : tree_node_find_subdir root parent_dir = some dir) :
    (desktop_entry_tree_foreach E tree parent_dir (recording func) (user_data, [])).2 =
        ((call_until_stop func (preorder_calls dir 0) user_data).2,
          stopped_calls func (preorder_calls dir 0) user_data) ∧
      stopped_calls func (preorder_calls dir 0) user_data <+: preorder_calls dir 0 ∧
      (desktop_entry_tree_foreach E tree parent_dir func user_data).2 =
        (call_until_stop func (preorder_calls dir 0) user_data).2 := by
  refine ⟨?_, stopped_calls_isPrefix _ _ _, ?_⟩
  · rw [desktop_entry_tree_foreach_found E tree parent_dir _ _ root dir h_root h_dir,
      call_until_stop_recording]
    simp
  · rw [desktop_entry_tree_foreach_found E tree parent_dir _ _ root dir h_root h_dir]

/-- C18, worked example: a visitor that stops at the first entry it is shown is
called five times on `example_tree`: for the four categories and for
`a.desktop`, two levels down, and not for `b.desktop`. -/
theorem foreach_stops_at_first_false_witness :
    (desktop_entry_tree_foreach example_query_entries example_tree ""
        (recording example_stopping_visitor) (0, [])).2 =
      (5, (preorder_calls example_record 0).take 5) := by
  rw [(foreach_stops_at_first_false example_query_entries example_tree ""
    example_stopping_visitor 0 example_record example_record rfl rfl).1]
  decide

/-- C19: if the root record is broken (the top-level Menu yields a record
without a name or without directory metadata), then for every path
`desktop_entry_tree_list_subdirs` and `desktop_entry_tree_list_entries` return
no array and the count 0, `desktop_entry_tree_get_directory` returns `NULL`
and `desktop_entry_tree_foreach` never calls the visitor. -/
theorem queries_on_broken_root {σ : Type} (E : MenuEntries) (tree : DesktopEntryTree)
    (menu_child : MenuNode) (path : String) (func : VisitorCall → σ → Bool × σ)
    (user_data : σ)
    (h_root : tree.root = none)
    (h_menu : find_menu_child tree.resolved_node = some menu_child)
    (h_broken : tree_node_free_if_broken
      (fill_tree_node_from_menu_node E tree_node_new menu_child) = true) :
    (desktop_entry_tree_list_subdirs E tree path).2 = (none, 0) ∧
      (desktop_entry_tree_list_entries E tree path).2 = (none, 0) ∧
      (desktop_entry_tree_get_directory E tree path).2 = none ∧
      (desktop_entry_tree_foreach E tree path (recording func) (user_data, [])).2 =
        (user_data, []) := by
  have h : (build_tree E tree).root = none := by
    unfold build_tree
    simp only [h_root, h_menu, h_broken, if_true]
  simp only [desktop_entry_tree_list_subdirs, desktop_entry_tree_list_entries,
    desktop_entry_tree_get_directory, desktop_entry_tree_foreach, h, and_self]

/-- C19, worked example: the top-level Menu of `example_broken_tree` has no
Directory. -/
theorem queries_on_broken_root_witness :
    (desktop_entry_tree_list_subdirs example_query_entries example_broken_tree "Games").2 =
        (none, 0) ∧
      (desktop_entry_tree_list_entries example_query_entries example_broken_tree "Games").2 =
        (none, 0) ∧
      (desktop_entry_tree_get_directory example_query_entries example_broken_tree "Games").2 =
        none ∧
      (desktop_entry_tree_foreach example_query_entries example_broken_tree "Games"
          (recording example_counting_visitor) (0, [])).2 = (0, []) :=
  queries_on_broken_root example_query_entries example_broken_tree
    (.mk MENU_NODE_MENU none
      [.mk MENU_NODE_NAME (some "Applications") [],
       .mk MENU_NODE_INCLUDE none [.mk MENU_NODE_ALL none []]])
    "Games" example_counting_visitor 0 rfl rfl rfl

/-- C20 (code evaluated at the failing input): in the tree of `example_document`
no category is named `Nope`.  The path `Nope` is not found, and every query
returns nothing for it; the path `/Nope` is found, as the root: its first piece
is empty and ends the loop of `tree_node_find_subdir` before `Nope` is looked
up, so the queries answer for the root. -/
theorem unmatched_path_after_slash_is_found :
    (tree_node_find_subdir example_record "Nope").map TreeNode.name = none ∧
      (desktop_entry_tree_list_subdirs example_query_entries example_tree "Nope").2 =
        (none, 0) ∧
      (tree_node_find_subdir example_record "/Nope").map TreeNode.name =
        some (some "Applications") ∧
      (desktop_entry_tree_list_subdirs example_query_entries example_tree "/Nope").2 =
        (some [some "Office", some "Games"], 2) ∧
      (desktop_entry_tree_get_directory example_query_entries example_tree "/Nope").2 =
        some "/dirs/applications.directory" ∧
      (desktop_entry_tree_foreach example_query_entries example_tree "/Nope"
          (recording example_counting_visitor) (0, [])).2.1 = 6 :=
  ⟨by decide, by decide, by decide, by decide, by decide, by decide⟩

/-- A path that `tree_node_find_subdir` does not find gets empty answers from
every query. -/
theorem queries_on_path_not_found {σ : Type} (E : MenuEntries) (tree : DesktopEntryTree)
    (path : String) (func : VisitorCall → σ → Bool × σ) (user_data : σ) (root : TreeNode)
    (h_root : (build_tree E tree).root = some root)
    (h_dir : tree_node_find_subdir root path = none) :
    (desktop_entry_tree_list_subdirs E tree path).2 = (none, 0) ∧
      (desktop_entry_tree_list_entries E tree path).2 = (none, 0) ∧
      (desktop_entry_tree_get_directory E tree path).2 = none ∧
      (desktop_entry_tree_foreach E tree path (recording func) (user_data, [])).2 =
        (user_data, []) := by
  simp only [desktop_entry_tree_list_subdirs, desktop_entry_tree_list_entries,
    desktop_entry_tree_get_directory, desktop_entry_tree_foreach, h_root, h_dir, and_self]

theorem descend_pieces_none (pieces : List String) : descend_pieces none pieces = none := by
  cases pieces <;> rfl

theorem descend_pieces_unmatched (iter : TreeNode) (piece : String) (rest : List String)
    (h_piece : piece.data ≠ []) (h_none : find_subdir iter piece = none) :
    descend_pieces (some iter) (piece :: rest) = none := by
  rw [descend_pieces]
  simp only [h_piece, if_false, h_none, descend_pieces_none]

/-! ## Listings and the cache of the handle -/

/-- C21: for every path that locates a category, `desktop_entry_tree_list_entries`
returns the absolute paths of the entries stored in that category's record,
one per entry and in stored order, with their number as count, and
`desktop_entry_tree_list_subdirs` returns the names of its child records, in
stored order, with their number as count. -/
theorem listings_of_found_category (E : MenuEntries) (tree : DesktopEntryTree)
    (path : String) (root dir : TreeNode)
    (h_root : (build_tree E tree).root = some root)
    (h_dir : tree_node_find_subdir root path = some dir) :
    (desktop_entry_tree_list_entries E tree path).2 =
        (some (dir.entries.map (fun e => some e.absolute_path)), dir.entries.length) ∧
      (desktop_entry_tree_list_subdirs E tree path).2 =
        (some (dir.subdirs.map TreeNode.name), dir.subdirs.length) := by
  simp only [desktop_entry_tree_list_entries, desktop_entry_tree_list_subdirs, h_root, h_dir,
    entry_get_absolute_path, Option.map_some', and_self]

/-- C21, worked example: the entries of `Games/Action` and the child records of
`Games` in `example_tree`. -/
theorem listings_of_found_category_witness :
    (desktop_entry_tree_list_entries example_query_entries example_tree "Games/Action").2 =
        (some [some "/a.desktop", some "/b.desktop"], 2) ∧
      (desktop_entry_tree_list_subdirs example_query_entries example_tree "Games/Action").2 =
        (some [], 0) :=
  listings_of_found_category example_query_entries example_tree "Games/Action" example_record
    (.mk (some "Action") (some ⟨"/dirs/action.directory"⟩) [⟨"/a.desktop"⟩, ⟨"/b.desktop"⟩] [])
    rfl rfl

/-- C22 as stated fails: `extra.directory` is not installed when the handle
`example_pending_tree` is first queried, so its root record is broken and
`build_tree` leaves the cached root `NULL`.  A later call does not return at
the guard: it builds the tree again, and once the descriptor has been
installed it changes the cached root from `NULL` to the record `Extras`. -/
theorem build_tree_rebuilds_broken_root_counterexample :
    (build_tree example_query_entries example_pending_tree).root = none ∧
      (build_tree example_later_entries
          (build_tree example_query_entries example_pending_tree)).root.map TreeNode.name =
        some (some "Extras") ∧
      (build_tree example_later_entries
          (build_tree example_query_entries example_pending_tree)).root.isSome ≠
        (build_tree example_query_entries example_pending_tree).root.isSome :=
  ⟨rfl, by decide, by decide⟩

theorem build_tree_of_some (E : MenuEntries) (tree : DesktopEntryTree) (root : TreeNode)
    (h : tree.root = some root) : build_tree E tree = tree := by
  unfold build_tree
  rw [h]

theorem build_tree_resolved_node (E : MenuEntries) (tree : DesktopEntryTree) :
    (build_tree E tree).resolved_node = tree.resolved_node := by
  unfold build_tree
  split
  · rfl
  · split
    · rfl
    · split <;> rfl

/-- A call of `build_tree` that leaves the cached root `NULL` leaves the handle
as it was. -/
theorem build_tree_of_broken (E : MenuEntries) (tree : DesktopEntryTree)
    (hroot : (build_tree E tree).root = none) : build_tree E tree = tree := by
  cases ht : tree.root with
  | some r =>
    rw [build_tree_of_some E tree r ht] at hroot
    rw [ht] at hroot
    simp at hroot
  | none =>
    have h1 : build_tree E tree = { tree with root := none } := by
      unfold build_tree at hroot ⊢
      rw [ht] at hroot ⊢
      simp only [] at hroot ⊢
      split
      · rfl
      · split
        · rfl
        · rename_i hb
          rename_i menu_child hm
          simp only [hm, hb] at hroot
          simp at hroot
    have h2 : ({ tree with root := none } : DesktopEntryTree) = tree := by
      cases tree
      simp only [DesktopEntryTree.mk.injEq, true_and, and_true] at ht ⊢
      exact ht.symm
    rw [h1, h2]

/-- C22 as amended: `build_tree` is idempotent, and it builds at most once for
a handle whose root record is not broken.  A call on a handle that has a
cached root returns at the guard and leaves the handle as it is, whatever the
cached record and whatever the tree-builder services would answer at that
time: nothing is constructed.  So after a call that has cached a root, every
later call leaves the handle unchanged.  After a call that found the root
broken the cached root is still `NULL`, and a later call does all the work of
a first call again. -/
theorem build_tree_caches_unbroken_root (E later : MenuEntries) (tree : DesktopEntryTree) :
    build_tree E (build_tree E tree) = build_tree E tree ∧
      (∀ root, tree.root = some root → build_tree later tree = tree) ∧
      (∀ root, (build_tree E tree).root = some root →
        build_tree later (build_tree E tree) = build_tree E tree) ∧
      ((build_tree E tree).root = none →
        build_tree later (build_tree E tree) = build_tree later tree) := by
  refine ⟨?_, fun root h => build_tree_of_some later tree root h,
    fun root h => build_tree_of_some later _ root h, fun h => ?_⟩
  · cases hroot : (build_tree E tree).root with
    | some root => exact build_tree_of_some E _ root hroot
    | none =>
      have h := build_tree_of_broken E tree hroot
      rw [h]
      exact h
  · rw [build_tree_of_broken E tree h]

/-- C22 as amended, worked example: a handle with the record `Cached` as its
cached root keeps it; once the record of `example_sibling_tree` is cached, a
call made after `extra.directory` has been installed leaves the handle as it
is; for `example_pending_tree`, whose root was broken, that call is a first
call again. -/
theorem build_tree_caches_unbroken_root_witness :
    (build_tree example_later_entries
        { example_pending_tree with root := some (.mk (some "Cached") none [] []) } =
      { example_pending_tree with root := some (.mk (some "Cached") none [] []) }) ∧
    (build_tree example_later_entries
        (build_tree example_query_entries example_sibling_tree) =
      build_tree example_query_entries example_sibling_tree) ∧
    (build_tree example_later_entries
        (build_tree example_query_entries example_pending_tree) =
      build_tree example_later_entries example_pending_tree) :=
  ⟨(build_tree_caches_unbroken_root example_query_entries example_later_entries
      { example_pending_tree with root := some (.mk (some "Cached") none [] []) }).2.1
      (.mk (some "Cached") none [] []) rfl,
   (build_tree_caches_unbroken_root example_query_entries example_later_entries
      example_sibling_tree).2.2.1
      (.mk (some "Applications") (some ⟨"/dirs/applications.directory"⟩) []
        [.mk (some "Office") (some ⟨"/dirs/office.directory"⟩) [] [],
         .mk (some "Games") (some ⟨"/dirs/games.directory"⟩)
           [⟨"/a.desktop"⟩, ⟨"/b.desktop"⟩] []])
      rfl,
    (build_tree_caches_unbroken_root example_query_entries example_later_entries
      example_pending_tree).2.2.2 rfl⟩

/-! ## Coalescing of Menu nodes: further claims -/

/-- C23 (code evaluated at the failing input): `example_three_menus` declares the
Menu `A` three times, with the rules `one`, `two` and `three`.  One Menu `A`
remains, and it holds the children of the second and of the third declaration
only: after the second has been unlinked `prev` still refers to it, so the
children of the first are moved towards a node that is no longer in the tree,
and the rule `one` is lost. -/
theorem coalescing_three_menus_loses_children :
    strip_scope example_three_menus =
      [.mk MENU_NODE_MENU none
        [.mk MENU_NODE_NAME (some "A") [],
         .mk MENU_NODE_INCLUDE none [.mk MENU_NODE_CATEGORY (some "two") []],
         .mk MENU_NODE_NAME (some "A") [],
         .mk MENU_NODE_INCLUDE none [.mk MENU_NODE_CATEGORY (some "three") []]]] :=
  rfl

/-- C24 as stated fails: the two Menu children of `example_nameless_menus` have
no Name, and the pass coalesces them: the first is deleted and its rule is
moved into the second. -/
theorem nameless_menus_collide_counterexample :
    menu_node_menu_get_name (example_nameless_menu "one") = none ∧
      menu_node_menu_get_name (example_nameless_menu "two") = none ∧
      strip_scope example_nameless_menus =
        [.mk MENU_NODE_MENU none
          [.mk MENU_NODE_INCLUDE none [.mk MENU_NODE_CATEGORY (some "one") []],
           .mk MENU_NODE_INCLUDE none [.mk MENU_NODE_CATEGORY (some "two") []]]] ∧
      strip_scope example_nameless_menus ≠ example_nameless_menus := by
  refine ⟨rfl, rfl, rfl, ?_⟩
  have h : strip_scope example_nameless_menus =
      [.mk MENU_NODE_MENU none
        [.mk MENU_NODE_INCLUDE none [.mk MENU_NODE_CATEGORY (some "one") []],
         .mk MENU_NODE_INCLUDE none [.mk MENU_NODE_CATEGORY (some "two") []]]] := rfl
  rw [h]
  simp [example_nameless_menus]

/-- C24 as amended: sibling Menu nodes that have no name collide with each
other.  `null_safe_strcmp` finds two `NULL` names equal, so two Menu children
without a Name compare equal by name; when they are the only Menu children of
a scope, at positions `i < j`, with equal content and a child in the later
one, the Menu loop unlinks the earlier one and puts its children in front of
the children of the later one. -/
theorem nameless_menus_are_coalesced (cs : List MenuNode) (unlinked : List Nat)
    (i j : Nat) (hij : i < j) (hj : j < cs.length)
    (hmenus : ∀ k, k < cs.length →
      (menu_node_get_type (node_at cs k) = MENU_NODE_MENU ↔ k = i ∨ k = j))
    (hname_i : menu_node_menu_get_name (node_at cs i) = none)
    (hname_j : menu_node_menu_get_name (node_at cs j) = none)
    (hcontent : menu_node_get_content (node_at cs i) = menu_node_get_content (node_at cs j))
    (hchild : menu_node_get_children (node_at cs j) ≠ []) :
    node_menu_compare_func (node_at cs i) (node_at cs j) = 0 ∧
      strip_menu_nodes { nodes := cs, unlinked := unlinked } =
        { nodes := (cs.set i (menu_node_with_children (node_at cs i) [])).set j
            (menu_node_with_children (node_at cs j)
              (menu_node_get_children (node_at cs i) ++
                menu_node_get_children (node_at cs j))),
          unlinked := i :: unlinked } := by
  constructor
  · unfold node_menu_compare_func
    rw [hname_i, hname_j]
    rfl
  · apply strip_menu_nodes_two_menus cs unlinked i j hij hj hmenus _ hcontent hchild
    unfold node_menu_compare_func
    rw [hname_i, hname_j]
    exact le_of_eq rfl

/-- C24 as amended, worked example: in `example_nameless_menus` position 0 is
unlinked and position 1 holds both rules. -/
theorem nameless_menus_are_coalesced_witness :
    strip_menu_nodes { nodes := example_nameless_menus, unlinked := [] } =
      { nodes :=
          [.mk MENU_NODE_MENU none [],
           .mk MENU_NODE_MENU none
             [.mk MENU_NODE_INCLUDE none [.mk MENU_NODE_CATEGORY (some "one") []],
              .mk MENU_NODE_INCLUDE none [.mk MENU_NODE_CATEGORY (some "two") []]]],
        unlinked := [0] } :=
  (nameless_menus_are_coalesced example_nameless_menus [] 0 1 (by decide) (by decide)
    (by
      intro k hk
      have hk' : k < 2 := hk
      interval_cases k <;> simp [example_nameless_menus, example_nameless_menu])
    rfl rfl rfl (by simp [example_nameless_menus, example_nameless_menu])).2

/-! ## Merged documents of unexpected shape -/

/-- C25 (code evaluated at the failing input): `empty.menu` loads, as a Root
without a Menu child.  A MergeFile that refers to it is not dropped like one
that refers to a missing file: the assertion `menu_child != NULL` of
`merge_resolved_copy_of_children` fails and `menu_node_resolve_files` does not
complete, where the claim has the Menu left with its Name alone, as it is left
when the MergeFile refers to the missing file `gone.menu`. -/
theorem merge_of_document_without_menu_fails_assertion :
    menu_node_resolve_files example_odd_files 1
        (.mk MENU_NODE_MENU none
          [.mk MENU_NODE_NAME (some "Main") [],
           .mk MENU_NODE_MERGE_FILE (some "empty.menu") []]) = .assert_failed ∧
      menu_node_resolve_files example_odd_files 1
        (.mk MENU_NODE_MENU none
          [.mk MENU_NODE_NAME (some "Main") [],
           .mk MENU_NODE_MERGE_FILE (some "empty.menu") []]) ≠
        .done (.mk MENU_NODE_MENU none [.mk MENU_NODE_NAME (some "Main") []]) ∧
      menu_node_resolve_files example_odd_files 1
        (.mk MENU_NODE_MENU none
          [.mk MENU_NODE_NAME (some "Main") [],
           .mk MENU_NODE_MERGE_FILE (some "gone.menu") []]) =
        .done (.mk MENU_NODE_MENU none [.mk MENU_NODE_NAME (some "Main") []]) := by
  have h : menu_node_resolve_files example_odd_files 1
      (.mk MENU_NODE_MENU none
        [.mk MENU_NODE_NAME (some "Main") [],
         .mk MENU_NODE_MERGE_FILE (some "empty.menu") []]) = .assert_failed := rfl
  refine ⟨h, ?_, rfl⟩
  rw [h]
  simp

/-- A MergeFile whose referenced document loads but whose file-resolved copy
has no Menu child is not handled like a missing file:
`merge_resolved_copy_of_children` stops on its assertion `menu_child != NULL`,
and `menu_node_resolve_files`, having dealt with the siblings before the
directive, ends with that assertion failure. -/
theorem merge_of_document_without_menu_asserts (F : MenuFiles) (depth : Nat)
    (t : MenuNodeType) (c : Option String) (before after before' : List MenuNode)
    (merge_file to_merge from_copy : MenuNode) (filename : String)
    (h_kind : menu_node_get_type merge_file = MENU_NODE_MERGE_FILE)
    (h_path : F.menu_node_get_content_as_path merge_file = some filename)
    (h_load : F.menu_node_get_for_file filename = some to_merge)
    (h_copy : menu_node_resolve_files F depth to_merge = .done from_copy)
    (h_no_menu : find_menu_child from_copy = none)
    (h_before : resolve_children F (menu_node_resolve_files F depth) before = .done before') :
    menu_node_resolve_files F (depth + 1) (.mk t c (before ++ merge_file :: after)) =
      .assert_failed := by
  rw [menu_node_resolve_files_eq]
  simp only [menu_node_get_children_mk]
  rw [resolve_children_append, h_before]
  have h_merge : merge_resolved_copy_of_children (menu_node_resolve_files F depth) to_merge =
      .assert_failed := by
    simp [merge_resolved_copy_of_children, h_copy, h_no_menu]
  simp only [resolve_children, h_kind, h_path, h_load, h_merge]
  rfl

/-- Worked example: the Menu that merges `empty.menu`. -/
theorem merge_of_document_without_menu_asserts_witness :
    menu_node_resolve_files example_odd_files 1
        (.mk MENU_NODE_MENU none
          ([.mk MENU_NODE_NAME (some "Main") []] ++
            .mk MENU_NODE_MERGE_FILE (some "empty.menu") [] :: [])) = .assert_failed :=
  merge_of_document_without_menu_asserts example_odd_files 0 MENU_NODE_MENU none
    [.mk MENU_NODE_NAME (some "Main") []] [] [.mk MENU_NODE_NAME (some "Main") []]
    (.mk MENU_NODE_MERGE_FILE (some "empty.menu") []) (.mk MENU_NODE_ROOT none [])
    (.mk MENU_NODE_ROOT none []) "empty.menu" rfl rfl rfl rfl rfl rfl

/-- C29 (code evaluated at the failing input): the root of `commented.menu` has
a Menu child, after a Passthrough node.  `find_menu_child` finds the Menu, so
the first assertion holds; the last assertion tests the first child of the
root, which is the Passthrough, and fails, although the comment above it
allows for Passthrough nodes mixed in. -/
theorem merge_asserts_on_leading_passthrough :
    (find_menu_child
        (.mk MENU_NODE_ROOT none
          [.mk MENU_NODE_PASSTHROUGH (some "comment") [],
           .mk MENU_NODE_MENU none
             [.mk MENU_NODE_NAME (some "Apps") [],
              .mk MENU_NODE_APP_DIR (some "/a") []]])).isSome = true ∧
      merge_resolved_copy_of_children (menu_node_resolve_files example_odd_files 0)
        (.mk MENU_NODE_ROOT none
          [.mk MENU_NODE_PASSTHROUGH (some "comment") [],
           .mk MENU_NODE_MENU none
             [.mk MENU_NODE_NAME (some "Apps") [],
              .mk MENU_NODE_APP_DIR (some "/a") []]]) = .assert_failed ∧
      menu_node_resolve_files example_odd_files 1
        (.mk MENU_NODE_MENU none
          [.mk MENU_NODE_NAME (some "Main") [],
           .mk MENU_NODE_MERGE_FILE (some "commented.menu") []]) = .assert_failed :=
  ⟨rfl, rfl, rfl⟩

/-! ## Required keys of a desktop file -/

theorem required_keys_false_of_encoding (df : GnomeDesktopFile) (out : ValidatorOutput)
    (val : String) (h : df.get_raw "Encoding" = some val) :
    (required_keys df out).1 = false := by
  unfold required_keys
  rw [h]

/-- C30 (code evaluated at the failing input): `example_desktop_file` has
`Encoding=UTF-8`, a Name and `Type=Application`.  `required_keys` prints no
fatal error and returns `FALSE`: the `return FALSE` of the Encoding branch is
not inside the `if` that tests the value, so it is reached whenever the key is
present.  `validate_desktop_file` then returns before `generic_keys`, whatever
that function would do. -/
theorem required_keys_rejects_valid_encoding :
    required_keys example_desktop_file ⟨false, []⟩ = (false, ⟨false, []⟩) ∧
      ∀ generic_keys,
        validate_desktop_file generic_keys example_desktop_file ⟨false, []⟩ = ⟨false, []⟩ :=
  ⟨by decide, fun _ => rfl⟩

/-! ## And short-circuits -/

theorem and_children_visited_isPrefix (list : EntryDirectoryList) (set : Option EntrySet)
    (children : List MenuNode) : and_children_visited list set children <+: children := by
  induction children generalizing set with
  | nil => simp [and_children_visited]
  | cons x xs ih =>
    rw [and_children_visited, List.prefix_cons_inj]
    split
    · exact List.nil_prefix
    · exact ih _

theorem foldl_inter_eq_empty_of {α : Type} (f : α → EntrySet) (l : List α) (S : EntrySet)
    (h : S = ∅) : l.foldl (fun set x => set ∩ f x) S = ∅ := by
  rw [h]; exact foldl_inter_empty f l

theorem and_children_visited_some_lt (list : EntryDirectoryList) (S : EntrySet)
    (children : List MenuNode) (k : Nat) (hk : k < children.length) :
    k < (and_children_visited list (some S) children).length ↔
      (k = 0 ∨
        (children.take k).foldl (fun set child => set ∩ menu_node_to_entry_set list child) S
          ≠ ∅) := by
  induction children generalizing S k with
  | nil => simp at hk
  | cons x xs ih =>
    rw [and_children_visited]
    cases k with
    | zero => simp
    | succ j =>
      have hj : j < xs.length := by simpa using hk
      simp only [first_or, entry_set_intersection, entry_set_get_count, List.length_cons,
        Nat.add_lt_add_iff_right, Nat.add_one_ne_zero, false_or, List.take_succ_cons,
        List.foldl_cons]
      split
      · rename_i h
        rw [Finset.card_eq_zero] at h
        simp [foldl_inter_eq_empty_of _ _ _ h]
      · rename_i h
        rw [Finset.card_eq_zero] at h
        rw [ih _ j hj]
        constructor
        · rintro (rfl | h')
          · simpa using h
          · exact h'
        · intro h'
          exact Or.inr h'

theorem and_children_visited_none_lt (list : EntryDirectoryList) (first : MenuNode)
    (others : List MenuNode) (k : Nat) (hk : k < others.length) :
    k + 1 < (and_children_visited list none (first :: others)).length ↔
      intersection_of_all list first (others.take k) ≠ ∅ := by
  rw [and_children_visited]
  simp only [first_or, entry_set_get_count, List.length_cons, Nat.add_lt_add_iff_right,
    intersection_of_all]
  split
  · rename_i h
    rw [Finset.card_eq_zero] at h
    simp [foldl_inter_eq_empty_of _ _ _ h]
  · rename_i h
    rw [Finset.card_eq_zero] at h
    rw [and_children_visited_some_lt list _ others k hk]
    constructor
    · rintro (rfl | h')
      · simpa using h
      · exact h'
    · intro h'
      exact Or.inr h'

theorem and_children_recorded_calls (list : EntryDirectoryList) (set : Option EntrySet)
    (children : List MenuNode) :
    (and_children_recorded list set children).2 =
      (and_children_visited list set children).flatMap
        (fun child => (menu_node_to_entry_set_recorded list child).2) := by
  induction children generalizing set with
  | nil =>
    rw [and_children_recorded, and_children_visited]
    rfl
  | cons x xs ih =>
    rw [and_children_recorded, and_children_visited]
    unfold menu_node_to_entry_set
    rcases h : menu_node_to_entry_set_recorded list x with ⟨child_set, calls⟩
    simp only []
    split
    · simp [h]
    · rw [List.flatMap_cons, ← ih, h]

theorem menu_node_to_entry_set_recorded_head (list : EntryDirectoryList) (node : MenuNode) :
    (menu_node_to_entry_set_recorded list node).2.head? = some node := by
  cases node with
  | mk t content children =>
    cases t
    case MENU_NODE_AND =>
      simp only [menu_node_to_entry_set_recorded]
      rcases and_children_recorded list none children with ⟨_ | set, calls⟩ <;> rfl
    case MENU_NODE_OR =>
      simp only [menu_node_to_entry_set_recorded]
      rcases or_children_recorded list none children with ⟨_ | set, calls⟩ <;> rfl
    case MENU_NODE_NOT =>
      simp only [menu_node_to_entry_set_recorded]
      rcases or_children_recorded list none children with ⟨_ | set, calls⟩ <;> rfl
    case MENU_NODE_FILENAME =>
      simp only [menu_node_to_entry_set_recorded]
      cases list.get_desktop content <;> rfl
    all_goals simp only [menu_node_to_entry_set_recorded, List.head?_cons]

theorem and_node_recorded_calls (list : EntryDirectoryList) (content : Option String)
    (children : List MenuNode) :
    (menu_node_to_entry_set_recorded list (.mk MENU_NODE_AND content children)).2 =
      .mk MENU_NODE_AND content children :: (and_children_recorded list none children).2 := by
  simp only [menu_node_to_entry_set_recorded]
  rcases and_children_recorded list none children with ⟨_ | set, calls⟩ <;> rfl

/-- C26: And short-circuits.  `menu_node_to_entry_set_recorded` is
`menu_node_to_entry_set` with the record of its calls (its first component is
the set returned).  For an And node the calls are the call on the node itself
followed by the calls for the children in `visited`, an initial part of the
child list taken left to right: the first child is always evaluated, and the
child after the first `k + 1` children is evaluated if and only if the
intersection of the sets of these `k + 1` children is not empty, so once the
running intersection is empty no later child is evaluated.  The calls for a
node start with the node itself, so the record shows which children were
visited. -/
theorem and_node_short_circuits (list : EntryDirectoryList) (content : Option String)
    (first : MenuNode) (others : List MenuNode) :
    (menu_node_to_entry_set_recorded list (.mk MENU_NODE_AND content (first :: others))).1 =
        menu_node_to_entry_set list (.mk MENU_NODE_AND content (first :: others)) ∧
      (∃ visited : List MenuNode,
        visited <+: first :: others ∧
        0 < visited.length ∧
        (∀ k : Fin others.length,
          k.val + 1 < visited.length ↔
            intersection_of_all list first (others.take k.val) ≠ ∅) ∧
        (menu_node_to_entry_set_recorded list
            (.mk MENU_NODE_AND content (first :: others))).2 =
          .mk MENU_NODE_AND content (first :: others) ::
            visited.flatMap (fun child => (menu_node_to_entry_set_recorded list child).2)) ∧
      ∀ node : MenuNode, (menu_node_to_entry_set_recorded list node).2.head? = some node := by
  refine ⟨rfl, ⟨and_children_visited list none (first :: others),
    and_children_visited_isPrefix _ _ _, ?_, ?_, ?_⟩, menu_node_to_entry_set_recorded_head list⟩
  · rw [and_children_visited]; simp
  · intro k
    exact and_children_visited_none_lt list first others k.val k.isLt
  · rw [and_node_recorded_calls, and_children_recorded_calls]

mutual
/-- The calls recorded by `menu_node_to_entry_set_recorded` are the nodes listed
by `evaluated_nodes`. -/
theorem menu_node_to_entry_set_recorded_calls (list : EntryDirectoryList) :
    ∀ node : MenuNode,
      (menu_node_to_entry_set_recorded list node).2 = evaluated_nodes list node
  | .mk t content children => by
    cases t
    case MENU_NODE_AND =>
      simp only [menu_node_to_entry_set_recorded, evaluated_nodes]
      rw [← and_children_recorded_evaluated list none children]
      rcases and_children_recorded list none children with ⟨_ | set, calls⟩ <;> rfl
    case MENU_NODE_OR =>
      simp only [menu_node_to_entry_set_recorded, evaluated_nodes]
      rw [← or_children_recorded_evaluated list none children]
      rcases or_children_recorded list none children with ⟨_ | set, calls⟩ <;> rfl
    case MENU_NODE_NOT =>
      simp only [menu_node_to_entry_set_recorded, evaluated_nodes]
      rw [← or_children_recorded_evaluated list none children]
      rcases or_children_recorded list none children with ⟨_ | set, calls⟩ <;> rfl
    case MENU_NODE_FILENAME =>
      simp only [menu_node_to_entry_set_recorded, evaluated_nodes]
      cases list.get_desktop content <;> rfl
    all_goals simp only [menu_node_to_entry_set_recorded, evaluated_nodes]
theorem and_children_recorded_evaluated (list : EntryDirectoryList) :
    ∀ (set : Option EntrySet) (children : List MenuNode),
      (and_children_recorded list set children).2 = and_children_evaluated list set children
  | set, [] => by rw [and_children_recorded, and_children_evaluated]
  | set, child :: next => by
    rw [and_children_recorded, and_children_evaluated,
      ← menu_node_to_entry_set_recorded_calls list child]
    unfold menu_node_to_entry_set
    rcases menu_node_to_entry_set_recorded list child with ⟨child_set, calls⟩
    simp only []
    split
    · simp
    · rw [← and_children_recorded_evaluated list _ next]
theorem or_children_recorded_evaluated (list : EntryDirectoryList) :
    ∀ (set : Option EntrySet) (children : List MenuNode),
      (or_children_recorded list set children).2 = or_children_evaluated list children
  | set, [] => by rw [or_children_recorded, or_children_evaluated]
  | set, child :: next => by
    rw [or_children_recorded, or_children_evaluated,
      ← menu_node_to_entry_set_recorded_calls list child,
      ← or_children_recorded_evaluated list
        (some (first_or entry_set_union set (menu_node_to_entry_set_recorded list child).1)) next]
end

/-! ## Directory metadata -/

theorem last_resolved_directory_cons (dir_dirs : EntryDirectoryList) (x : MenuNode)
    (xs : List MenuNode) :
    last_resolved_directory dir_dirs (x :: xs) =
      if menu_node_get_type x = MENU_NODE_DIRECTORY then
        match dir_dirs.get_directory (menu_node_get_content x) with
        | none => last_resolved_directory dir_dirs xs
        | some e => some ((last_resolved_directory dir_dirs xs).getD e)
      else last_resolved_directory dir_dirs xs := by
  unfold last_resolved_directory
  by_cases h : menu_node_get_type x = MENU_NODE_DIRECTORY
  · simp only [h, List.filter_cons, decide_True, if_true, List.filterMap_cons]
    cases dir_dirs.get_directory (menu_node_get_content x) with
    | none => rfl
    | some e => simp only [List.getLast?_cons]
  · simp only [h, List.filter_cons, decide_False, if_false]
    simp

theorem fill_from_children_dir_entry (E : MenuEntries) (app_dirs dir_dirs : EntryDirectoryList)
    (children : List MenuNode) (state : FillState) :
    (fill_from_children E app_dirs dir_dirs state children).tree_node.dir_entry =
      match last_resolved_directory dir_dirs children with
      | some e => some e
      | none => state.tree_node.dir_entry := by
  induction children generalizing state with
  | nil => simp [fill_from_children, last_resolved_directory]
  | cons x xs ih =>
    rw [fill_from_children, last_resolved_directory_cons]
    cases hx : menu_node_get_type x <;> simp only [reduceCtorEq, if_false, if_true]
    case MENU_NODE_MENU => split <;> (rw [ih]; try rfl)
    case MENU_NODE_DIRECTORY =>
      cases hd : dir_dirs.get_directory (menu_node_get_content x) with
      | none => simp only []; rw [ih]
      | some e =>
        simp only []
        rw [ih]
        cases last_resolved_directory dir_dirs xs <;> rfl
    all_goals (rw [ih]; try rfl)

/-- C27: last successful Directory wins.  The directory metadata of the record
after `fill_tree_node_from_menu_node` is the resolution of the last Directory
child of the Menu, in document order, whose lookup in the directory index
succeeds; when no Directory child resolves, the metadata is what the record
had before, which is none for the new record the function is called on. -/
theorem last_successful_directory_wins (E : MenuEntries) (tree_node : TreeNode)
    (content : Option String) (children : List MenuNode) :
    (fill_tree_node_from_menu_node E tree_node
        (.mk MENU_NODE_MENU content children)).dir_entry =
        (match last_resolved_directory
            (E.menu_node_menu_get_directory_entries (.mk MENU_NODE_MENU content children))
            children with
          | some e => some e
          | none => tree_node.dir_entry) ∧
      (fill_tree_node_from_menu_node E tree_node_new
          (.mk MENU_NODE_MENU content children)).dir_entry =
        last_resolved_directory
          (E.menu_node_menu_get_directory_entries (.mk MENU_NODE_MENU content children))
          children := by
  have h : ∀ tn, (fill_tree_node_from_menu_node E tn
      (.mk MENU_NODE_MENU content children)).dir_entry =
      (match last_resolved_directory
          (E.menu_node_menu_get_directory_entries (.mk MENU_NODE_MENU content children))
          children with
        | some e => some e
        | none => tn.dir_entry) := by
    intro tn
    rw [fill_tree_node_from_menu_node]
    simp only [if_true, TreeNode.dir_entry]
    exact fill_from_children_dir_entry E _ _ children _
  refine ⟨h tree_node, ?_⟩
  rw [h tree_node_new]
  cases last_resolved_directory
    (E.menu_node_menu_get_directory_entries (.mk MENU_NODE_MENU content children)) children <;>
    rfl

/-! ## Frame of the duplicate-stripping pass -/

theorem select_by_position_of_node (q : MenuNode → Bool) (nodes : List MenuNode) :
    select_by_position (fun _ x => q x) nodes = nodes.filter q := by
  induction nodes with
  | nil => rfl
  | cons x xs ih =>
    rw [select_by_position_cons, ih, List.filter_cons]
    split <;> rfl

theorem is_other_node_of_type (a b : MenuNode)
    (h : menu_node_get_type a = menu_node_get_type b) :
    is_other_node a = is_other_node b := by
  simp only [is_other_node, is_simple_node, is_menu_node, h]

/-- The children of a scope that are neither simple declarations nor Menus are
left as they were by the two loops. -/
theorem strip_scope_other (cs : List MenuNode) :
    (strip_scope cs).filter is_other_node = cs.filter is_other_node := by
  unfold strip_scope
  rw [linked_children_eq_select, filter_select_by_position, ← select_by_position_of_node]
  have hnodes : (strip_simple_nodes { nodes := cs, unlinked := [] }).nodes = cs :=
    strip_simple_nodes_nodes _
  apply select_by_position_congr
  · rw [strip_menu_nodes_length, hnodes]
  · intro i hi
    rw [strip_menu_nodes_length, hnodes] at hi
    have htype := strip_menu_nodes_type (strip_simple_nodes { nodes := cs, unlinked := [] }) i
    rw [hnodes] at htype
    have hother := is_other_node_of_type _ _ htype
    by_cases ho : is_other_node (node_at cs i) = true
    · have ho' := ho
      simp only [is_other_node, Bool.and_eq_true, Bool.not_eq_true'] at ho'
      have hm : is_menu_node
          (node_at (strip_simple_nodes { nodes := cs, unlinked := [] }).nodes i) = false := by
        rw [hnodes]; exact ho'.2
      have hsame := strip_menu_nodes_other _ i hm
      rw [hnodes] at hsame
      have hunl := strip_menu_nodes_unlinked_other _ i hm
      rw [mem_strip_simple_nodes_unlinked] at hunl
      simp only [List.not_mem_nil, false_or, ho'.1, Bool.false_eq_true, false_and,
        and_false] at hunl
      refine ⟨?_, fun _ => hsame⟩
      rw [hother, ho, Bool.and_true]
      simpa using hunl
    · have ho' : is_other_node (node_at cs i) = false := by simpa using ho
      constructor
      · rw [hother, ho']; simp
      · rw [hother, ho']; simp

theorem filter_other_map_descend (levels : Nat) (l : List MenuNode) :
    (l.map (fun child =>
        if menu_node_get_type child = MENU_NODE_MENU then
          strip_duplicate_children levels child
        else child)).filter is_other_node = l.filter is_other_node := by
  induction l with
  | nil => rfl
  | cons x xs ih =>
    simp only [List.map_cons, List.filter_cons]
    by_cases hm : menu_node_get_type x = MENU_NODE_MENU
    · have h1 : is_other_node x = false := by
        simp [is_other_node, is_menu_node, is_menu_kind, hm]
      have h2 : is_other_node (strip_duplicate_children levels x) = false := by
        simp [is_other_node, is_menu_node, is_menu_kind, strip_duplicate_children_type, hm]
      simp only [hm, if_true, h1, h2, ih]
      simp
    · simp only [hm, if_false, ih]

theorem strip_levels_other (levels : Nat) (node : MenuNode) :
    (menu_node_get_children (strip_duplicate_children (levels + 1) node)).filter is_other_node =
      (menu_node_get_children node).filter is_other_node := by
  rw [strip_duplicate_children_succ, filter_other_map_descend, strip_scope_other]

/-- C28: `menu_node_strip_duplicate_children` leaves untouched every child of
the processed node whose kind is not AppDir, DirectoryDir, Directory or Menu.
The children of these other kinds (Move, Name, Include, Exclude, Passthrough
and the rest) after the pass are the same nodes, with their subtrees, in the
same order as before it; this holds for the node the pass is applied to and for
every scope a recursive call processes. -/
theorem strip_duplicate_children_keeps_other_children (node : MenuNode) :
    (menu_node_get_children (menu_node_strip_duplicate_children node)).filter is_other_node =
        (menu_node_get_children node).filter is_other_node ∧
      (∀ levels scope,
        (menu_node_get_children (strip_duplicate_children (levels + 1) scope)).filter
            is_other_node =
          (menu_node_get_children scope).filter is_other_node) ∧
      (∀ child : MenuNode, is_other_node child = true ↔
        (menu_node_get_type child ≠ MENU_NODE_APP_DIR ∧
          menu_node_get_type child ≠ MENU_NODE_DIRECTORY_DIR ∧
          menu_node_get_type child ≠ MENU_NODE_DIRECTORY ∧
          menu_node_get_type child ≠ MENU_NODE_MENU)) := by
  refine ⟨?_, strip_levels_other, ?_⟩
  · unfold menu_node_strip_duplicate_children
    obtain ⟨k, hk⟩ :=
      Nat.exists_eq_succ_of_ne_zero (Nat.pos_iff_ne_zero.1 (node_height_pos node))
    rw [hk]
    exact strip_levels_other k node
  · intro child
    simp only [is_other_node, is_simple_node, is_menu_node, is_simple_kind, is_menu_kind,
      Bool.and_eq_true, Bool.not_eq_true', Bool.or_eq_false_iff, decide_eq_false_iff_not, ne_eq,
      and_assoc]

/-! ## Encoding names -/

theorem alias_normal_form_nil : alias_normal_form [] = [] := rfl

theorem alias_normal_form_cons_separator (c : Char) (rest : List Char)
    (h : is_alias_separator c = true) :
    alias_normal_form (c :: rest) = alias_normal_form rest := by
  simp [alias_normal_form, h]

theorem alias_normal_form_cons_other (c : Char) (rest : List Char)
    (h : is_alias_separator c = false) :
    alias_normal_form (c :: rest) = g_ascii_tolower c :: alias_normal_form rest := by
  simp [alias_normal_form, h]

theorem alias_normal_form_skip_separators (s : List Char) :
    alias_normal_form (skip_separators s) = alias_normal_form s := by
  induction s with
  | nil => rfl
  | cons c rest ih =>
    rw [skip_separators]
    by_cases h : is_alias_separator c = true
    · rw [if_pos h, ih, alias_normal_form_cons_separator c rest h]
    · rw [if_neg h]

theorem skip_separators_head (s : List Char) (c : Char) (rest : List Char)
    (h : skip_separators s = c :: rest) : is_alias_separator c = false := by
  induction s with
  | nil => simp [skip_separators] at h
  | cons x xs ih =>
    rw [skip_separators] at h
    by_cases hx : is_alias_separator x = true
    · rw [if_pos hx] at h
      exact ih h
    · rw [if_neg hx] at h
      injection h with h1 h2
      subst h1
      simpa using hx

theorem skip_separators_length_le (s : List Char) : (skip_separators s).length ≤ s.length := by
  induction s with
  | nil => simp [skip_separators]
  | cons x xs ih =>
    rw [skip_separators]
    split
    · simp only [List.length_cons]; omega
    · exact Nat.le_refl _

theorem ends_in_separator_cons_other (c : Char) (rest : List Char)
    (h : is_alias_separator c = false) :
    ends_in_separator (c :: rest) = ends_in_separator rest := by
  cases rest with
  | nil => simp [ends_in_separator, h]
  | cons x xs => simp [ends_in_separator]

theorem ends_in_separator_cons_separator (c : Char) (rest : List Char)
    (h : is_alias_separator c = true) :
    ends_in_separator (c :: rest) = (decide (rest = []) || ends_in_separator rest) := by
  cases rest with
  | nil => simp [ends_in_separator, h]
  | cons x xs => simp [ends_in_separator]

theorem ends_in_separator_of_skip_nil (s : List Char) (h : skip_separators s = [])
    (hs : s ≠ []) : ends_in_separator s = true := by
  induction s with
  | nil => exact absurd rfl hs
  | cons x xs ih =>
    rw [skip_separators] at h
    by_cases hx : is_alias_separator x = true
    · rw [if_pos hx] at h
      rw [ends_in_separator_cons_separator x xs hx]
      by_cases hxs : xs = []
      · simp [hxs]
      · simp [ih h hxs]
    · rw [if_neg hx] at h
      simp at h

theorem ends_in_separator_of_skip_cons (s : List Char) (c : Char) (rest : List Char)
    (h : skip_separators s = c :: rest) : ends_in_separator s = ends_in_separator rest := by
  induction s with
  | nil => simp [skip_separators] at h
  | cons x xs ih =>
    rw [skip_separators] at h
    by_cases hx : is_alias_separator x = true
    · rw [if_pos hx] at h
      rw [ends_in_separator_cons_separator x xs hx, ih h]
      have hxs : xs ≠ [] := by
        intro e
        rw [e] at h
        simp [skip_separators] at h
      simp [hxs]
    · rw [if_neg hx] at h
      injection h with h1 h2
      subst h1 h2
      exact ends_in_separator_cons_other _ _ (by simpa using hx)

theorem skip_separators_nil : skip_separators [] = [] := rfl

/-- What the loops of `aliases_equal` compute, given a bound that is large
enough: they return whether the normal forms are equal, except that they read
past the terminators when the normal forms are equal and both strings end in a
separator. -/
theorem aliases_equal_loop_eq (fuel : Nat) (enc1 enc2 : List Char)
    (h : enc1.length < fuel) :
    aliases_equal_loop fuel enc1 enc2 =
      if alias_normal_form enc1 = alias_normal_form enc2 then
        if ends_in_separator enc1 = true ∧ ends_in_separator enc2 = true then .read_past_nul
        else .returned true
      else .returned false := by
  induction fuel generalizing enc1 enc2 with
  | zero => omega
  | succ fuel ih =>
    rw [aliases_equal_loop]
    have hn1 := alias_normal_form_skip_separators enc1
    have hn2 := alias_normal_form_skip_separators enc2
    by_cases hc : enc1 ≠ [] ∧ enc2 ≠ []
    · rw [if_pos hc]
      cases h1 : skip_separators enc1 with
      | nil =>
        rw [h1, alias_normal_form_nil] at hn1
        cases h2 : skip_separators enc2 with
        | nil =>
          rw [h2, alias_normal_form_nil] at hn2
          simp [← hn1, ← hn2, ends_in_separator_of_skip_nil enc1 h1 hc.1,
            ends_in_separator_of_skip_nil enc2 h2 hc.2]
        | cons c2 next2 =>
          rw [h2, alias_normal_form_cons_other c2 next2 (skip_separators_head _ _ _ h2)] at hn2
          simp [← hn1, ← hn2]
      | cons c1 next1 =>
        rw [h1, alias_normal_form_cons_other c1 next1 (skip_separators_head _ _ _ h1)] at hn1
        cases h2 : skip_separators enc2 with
        | nil =>
          rw [h2, alias_normal_form_nil] at hn2
          simp [← hn1, ← hn2]
        | cons c2 next2 =>
          rw [h2, alias_normal_form_cons_other c2 next2 (skip_separators_head _ _ _ h2)] at hn2
          simp only []
          have hlen : next1.length < fuel := by
            have := skip_separators_length_le enc1
            rw [h1, List.length_cons] at this
            omega
          rw [ih next1 next2 hlen, ← hn1, ← hn2, ends_in_separator_of_skip_cons enc1 c1 next1 h1,
            ends_in_separator_of_skip_cons enc2 c2 next2 h2]
          by_cases hne : g_ascii_tolower c1 = g_ascii_tolower c2
          · simp [hne]
          · simp [hne]
    · rw [if_neg hc]
      have hc' : enc1 = [] ∨ enc2 = [] := by
        by_cases e1 : enc1 = []
        · exact Or.inl e1
        · by_cases e2 : enc2 = []
          · exact Or.inr e2
          · exact absurd ⟨e1, e2⟩ hc
      have hends : ¬ (ends_in_separator enc1 = true ∧ ends_in_separator enc2 = true) := by
        rcases hc' with e | e <;> simp [e, ends_in_separator]
      rw [if_neg hends]
      cases h1 : skip_separators enc1 with
      | nil =>
        rw [h1, alias_normal_form_nil] at hn1
        cases h2 : skip_separators enc2 with
        | nil =>
          rw [h2, alias_normal_form_nil] at hn2
          simp [← hn1, ← hn2]
        | cons c2 next2 =>
          rw [h2, alias_normal_form_cons_other c2 next2 (skip_separators_head _ _ _ h2)] at hn2
          simp [← hn1, ← hn2]
      | cons c1 next1 =>
        rw [h1, alias_normal_form_cons_other c1 next1 (skip_separators_head _ _ _ h1)] at hn1
        cases h2 : skip_separators enc2 with
        | nil =>
          rw [h2, alias_normal_form_nil] at hn2
          simp [← hn1, ← hn2]
        | cons c2 next2 =>
          rcases hc' with e | e
          · rw [e, skip_separators_nil] at h1
            simp at h1
          · rw [e, skip_separators_nil] at h2
            simp at h2

/-- The result of `aliases_equal` for every pair of strings. -/
theorem aliases_equal_eq (enc1 enc2 : String) :
    aliases_equal enc1 enc2 =
      if alias_normal_form enc1.data = alias_normal_form enc2.data then
        if ends_in_separator enc1.data = true ∧ ends_in_separator enc2.data = true then
          .read_past_nul
        else .returned true
      else .returned false :=
  aliases_equal_loop_eq _ _ _ (Nat.lt_succ_self _)

/-- When one of the two strings does not end in a separator, `aliases_equal`
returns, and it returns TRUE if and only if the normal forms are equal. -/
theorem aliases_equal_returns (enc1 enc2 : String)
    (h : ends_in_separator enc1.data = false ∨ ends_in_separator enc2.data = false) :
    aliases_equal enc1 enc2 =
      .returned (decide (alias_normal_form enc1.data = alias_normal_form enc2.data)) := by
  rw [aliases_equal_eq]
  have hends : ¬ (ends_in_separator enc1.data = true ∧ ends_in_separator enc2.data = true) := by
    rcases h with e | e <;> simp [e]
  rw [if_neg hends]
  by_cases hn : alias_normal_form enc1.data = alias_normal_form enc2.data <;> simp [hn]

/-- C31 (code evaluated at the failing input): `UTF-8-` and `utf8_` have the
same normal form, and so has `UTF-8-` with itself, but `aliases_equal` does
not return TRUE for these pairs.  Both strings end in a separator: when the
separators have been skipped both pointers are at the NUL, the characters
compare equal, the pointers are incremented and the loop condition reads
past the terminators, so the result is not determined by the two strings. -/
theorem aliases_equal_fails_on_trailing_separators :
    alias_normal_form "UTF-8-".data = alias_normal_form "utf8_".data ∧
      aliases_equal "UTF-8-" "utf8_" = .read_past_nul ∧
      aliases_equal "UTF-8-" "utf8_" ≠ .returned true ∧
      aliases_equal "UTF-8-" "UTF-8-" = .read_past_nul ∧
      aliases_equal "UTF-8-" "UTF-8-" ≠ .returned true := by
  decide

/-- C32 (code evaluated at the failing input): for the pairs `a-`, `a-` and
`-`, `-` the scan of `aliases_equal` dereferences its pointers past the
terminating NUL.  For `-`, `-`: the loop is entered, the inner loops leave
both pointers at index 1, on the NUL; the two NUL compare equal, both pointers
are incremented to index 2, and the loop condition reads `*enc1` there, at
an index greater than the length 1. -/
theorem aliases_equal_reads_past_nul :
    skip_separators "-".data = [] ∧
      aliases_equal "-" "-" = .read_past_nul ∧
      aliases_equal "a-" "a-" = .read_past_nul := by
  decide

/-! ## Language tags -/

theorem strchr_offset_eq_none (c : Char) (s : List Char) :
    strchr_offset c s = none ↔ c ∉ s := by
  induction s with
  | nil => simp [strchr_offset]
  | cons x xs ih =>
    rw [strchr_offset]
    by_cases h : x = c
    · simp [h]
    · rw [if_neg h]
      simp only [Option.map_eq_none', ih, List.mem_cons, not_or]
      constructor
      · intro h'
        exact ⟨fun e => h e.symm, h'⟩
      · intro h'
        exact h'.2

theorem strchr_offset_eq_some (c : Char) (s : List Char) (n : Nat)
    (h : strchr_offset c s = some n) :
    s.take n = s.takeWhile (fun x => x != c) ∧ (s.takeWhile (fun x => x != c)).length = n := by
  induction s generalizing n with
  | nil => simp [strchr_offset] at h
  | cons x xs ih =>
    rw [strchr_offset] at h
    by_cases hx : x = c
    · rw [if_pos hx] at h
      injection h with h
      subst h
      simp [hx]
    · rw [if_neg hx] at h
      cases hm : strchr_offset c xs with
      | none => simp [hm] at h
      | some m =>
        simp only [hm, Option.map_some', Option.some.injEq] at h
        subst h
        have := ih m hm
        simp [hx, this.1, this.2]

theorem strncmp_chars_eq_zero (n : Nat) (a b : List Char) :
    strncmp_chars n a b = 0 ↔ a.take n = b.take n := by
  induction n generalizing a b with
  | zero => simp [strncmp_chars]
  | succ n ih =>
    cases a with
    | nil => cases b <;> simp [strncmp_chars]
    | cons x xs =>
      cases b with
      | nil => simp [strncmp_chars]
      | cons y ys =>
        simp only [strncmp_chars, List.take_succ_cons, List.cons.injEq]
        split
        · rename_i hlt
          simp only [Int.reduceNeg, Int.neg_eq_zero, one_ne_zero, false_iff, not_and]
          intro e
          rw [e] at hlt
          exact absurd hlt (Nat.lt_irrefl _)
        · split
          · rename_i hlt
            simp only [one_ne_zero, false_iff, not_and]
            intro e
            rw [e] at hlt
            exact absurd hlt (Nat.lt_irrefl _)
          · rename_i h1 h2
            have e : x = y := char_toNat_inj x y (by omega)
            simp [e, ih]

/-- What `lang_tag_matches` computes: TRUE if and only if `l` equals `spec`, or
`l` contains a `_`, `spec` contains none, and the language part of `l` is an
initial part of `spec`. -/
theorem lang_tag_matches_iff (l spec : String) :
    lang_tag_matches l spec = true ↔
      (l = spec ∨
        ('_' ∈ l.data ∧ '_' ∉ spec.data ∧ language_part l.data <+: spec.data)) := by
  unfold lang_tag_matches strcmp
  simp only [strcmp_chars_eq_zero]
  by_cases heq : l.data = spec.data
  · have : l = spec := String.ext heq
    simp [heq, this]
  · have hne : l ≠ spec := fun e => heq (by rw [e])
    rw [if_neg heq]
    cases hl : strchr_offset '_' l.data with
    | none =>
      have := (strchr_offset_eq_none '_' l.data).1 hl
      simp [hne, this]
    | some n =>
      have hmem : '_' ∈ l.data := by
        by_contra hn
        rw [(strchr_offset_eq_none '_' l.data).2 hn] at hl
        simp at hl
      obtain ⟨htake, hlen⟩ := strchr_offset_eq_some '_' l.data n hl
      simp only [strchr_offset_eq_none, strncmp_chars_eq_zero, ite_eq_left_iff, not_and,
        Bool.false_eq_true, imp_false, Classical.not_imp, not_not, hne, hmem, true_and, false_or,
        language_part]
      apply and_congr Iff.rfl
      rw [List.prefix_iff_eq_take, hlen, htake]

/-- C33 (code evaluated at the failing input): the language part of `e_X` is
`e`, which is not `en`, and `lang_tag_matches` returns TRUE for `e_X` against
`en`: `strncmp` compares only as many characters as the language part has, and
nothing tests that `spec` ends there.  Through it `get_encoding_from_lang`
finds ISO-8859-1 for `e_X`, and ARMSCII-8, by its language `by`, for the tag
`_X` whose language part is empty. -/
theorem lang_tag_matches_initial_part_of_spec :
    language_part "e_X".data = "e".data ∧
      language_part "e_X".data ≠ "en".data ∧
      "e_X" ≠ "en" ∧
      lang_tag_matches "e_X" "en" = true ∧
      get_encoding_from_lang "e_X" = some "ISO-8859-1" ∧
      lang_tag_matches "_X" "by" = true ∧
      get_encoding_from_lang "_X" = some "ARMSCII-8" := by
  decide

/-! ## Canonical encoding names -/

theorem canonical_among_known_cases (encoding : String) (l : List (String × List String))
    (hl : ∀ known ∈ l, ends_in_separator known.1.data = false) :
    canonical_among_known encoding l = .returned encoding ∨
      ∃ known ∈ l, canonical_among_known encoding l = .returned known.1 := by
  induction l with
  | nil => exact Or.inl rfl
  | cons known rest ih =>
    rw [canonical_among_known,
      aliases_equal_returns known.1 encoding (Or.inl (hl known (List.mem_cons_self _ _)))]
    by_cases hn : alias_normal_form known.1.data = alias_normal_form encoding.data
    · simp only [hn, decide_True]
      exact Or.inr ⟨known, List.mem_cons_self _ _, rfl⟩
    · simp only [hn, decide_False]
      rcases ih (fun k hk => hl k (List.mem_cons_of_mem _ hk)) with h | ⟨k, hk, h⟩
      · exact Or.inl h
      · exact Or.inr ⟨k, List.mem_cons_of_mem _ hk, h⟩

theorem canonical_among_aliases_cases (encoding : String) (l : List (String × String))
    (hl : ∀ entry ∈ l, ends_in_separator entry.1.data = false) :
    canonical_among_aliases encoding l = .returned encoding ∨
      (∃ entry ∈ l, canonical_among_aliases encoding l = .returned entry.2) ∨
      ∃ known ∈ known_encodings, canonical_among_aliases encoding l = .returned known.1 := by
  induction l with
  | nil =>
    rw [canonical_among_aliases]
    rcases canonical_among_known_cases encoding known_encodings (by decide) with h | h
    · exact Or.inl h
    · exact Or.inr (Or.inr h)
  | cons entry rest ih =>
    rw [canonical_among_aliases,
      aliases_equal_returns entry.1 encoding (Or.inl (hl entry (List.mem_cons_self _ _)))]
    by_cases hn : alias_normal_form entry.1.data = alias_normal_form encoding.data
    · simp only [hn, decide_True]
      exact Or.inr (Or.inl ⟨entry, List.mem_cons_self _ _, rfl⟩)
    · simp only [hn, decide_False]
      rcases ih (fun k hk => hl k (List.mem_cons_of_mem _ hk)) with h | ⟨k, hk, h⟩ | h
      · exact Or.inl h
      · exact Or.inr (Or.inl ⟨k, List.mem_cons_of_mem _ hk, h⟩)
      · exact Or.inr (Or.inr h)

theorem get_canonical_encoding_of_alias_value :
    ∀ entry ∈ enc_aliases, get_canonical_encoding entry.2 = .returned entry.2 := by
  decide

theorem get_canonical_encoding_of_known :
    ∀ known ∈ known_encodings, get_canonical_encoding known.1 = .returned known.1 := by
  decide

/-- C34: `get_canonical_encoding` is idempotent.  For every string it returns
(no read past a terminator: the names of the tables do not end in a
separator), and applied to what it returned it returns the same name again.
The aliases GB2312 and TCVN map to EUC-CN and TCVN-5712, which are returned
unchanged. -/
theorem get_canonical_encoding_idempotent (encoding : String) :
    (∃ canonical, get_canonical_encoding encoding = .returned canonical ∧
        get_canonical_encoding canonical = .returned canonical) ∧
      get_canonical_encoding "GB2312" = .returned "EUC-CN" ∧
      get_canonical_encoding "EUC-CN" = .returned "EUC-CN" ∧
      get_canonical_encoding "TCVN" = .returned "TCVN-5712" ∧
      get_canonical_encoding "TCVN-5712" = .returned "TCVN-5712" := by
  refine ⟨?_, by decide, by decide, by decide, by decide⟩
  rcases canonical_among_aliases_cases encoding enc_aliases (by decide) with
    h | ⟨entry, hentry, h⟩ | ⟨known, hknown, h⟩
  · exact ⟨encoding, h, h⟩
  · exact ⟨entry.2, h, get_canonical_encoding_of_alias_value entry hentry⟩
  · exact ⟨known.1, h, get_canonical_encoding_of_known known hknown⟩
